import Mathlib

/-!
# Cluster inventory: placement engine, commit step, forwarder and metrics

Shallow embedding of `cluster/types/v1beta3/clients/inventory/inventory.go`:
`Adjust`, `tryAdjust`, `tryAdjustGPU`, the commit step of `run`, `subscriber`
and `Metrics`.

Go values are Lean values: `Dup()` is the identity, a pointer argument that the
callee writes through becomes an extra component of the result, a nil
dereference or an index out of range is the result `none`.  Quantities are
natural numbers on the milli scale (the spec asks for arbitrary precision),
strings are `String`.
-/

namespace Inventory

/-! ## Data model -/

/-- One `types.Attribute`: a key/value pair. -/
structure Attribute where
  Key : String
  Value : String
deriving DecidableEq, Repr

/-- `resource.NewQuantity(n)` of the Kubernetes API: the quantity of `n` whole
units.  Quantities are kept on the milli scale, the finest the source reads
(`MilliValue()`), so a whole unit is 1000. -/
def NewQuantity (n : Nat) : Nat := 1000 * n

/-- `resource.NewMilliQuantity(n)` of the Kubernetes API: the quantity of `n`
milli-units. -/
def NewMilliQuantity (n : Nat) : Nat := n

/-- `Quantity.Value()` of the Kubernetes API: the value in whole units, rounded
up. -/
def Value (q : Nat) : Nat := (q + 999) / 1000

/-- `Quantity.MilliValue()` of the Kubernetes API: the value in milli-units. -/
def MilliValue (q : Nat) : Nat := q

/-- Modelled from the spec: `ResourcePair` of the inventory API (§3), the type
declaration is not part of the sources.  `allocatable`, `allocated` and the
optional floor below which `available` must not drop (0 when there is none),
each a quantity on the milli scale. -/
structure ResourcePair where
  Allocatable : Nat
  Allocated : Nat
  Floor : Nat
deriving DecidableEq, Repr

/-- Modelled from the spec: `available() = max(0, allocatable − allocated)` (§4.1). -/
def ResourcePair.Available (m : ResourcePair) : Nat :=
  m.Allocatable - m.Allocated

/-- Modelled from the spec: `sub(q)` (§4.1), `q` counting whole units: if
`available − q < floor` it returns false without mutation, otherwise it
increments `allocated` by `q` (whole units) and returns true.  The first
component is the receiver after the call. -/
def ResourcePair.SubNLZ (m : ResourcePair) (q : Nat) : ResourcePair × Bool :=
  if m.Available < NewQuantity q + m.Floor then (m, false)
  else ({ m with Allocated := m.Allocated + NewQuantity q }, true)

/-- Modelled from the spec: `sub_milli(q)` (§4.1): the same as `sub`, for pairs
whose internal unit is milli, `q` counting milli-units. -/
def ResourcePair.SubMilliNLZ (m : ResourcePair) (q : Nat) : ResourcePair × Bool :=
  if m.Available < NewMilliQuantity q + m.Floor then (m, false)
  else ({ m with Allocated := m.Allocated + NewMilliQuantity q }, true)

/-- One entry of `node.GPU.info`; the fields the placement code reads. -/
structure GPUInfo where
  Vendor : String
  Name : String
  MemorySize : String
  Interface : String
deriving DecidableEq, Repr

/-- Node GPU: the resource pair and the ordered info list. -/
structure GPU where
  Quantity : ResourcePair
  Info : List GPUInfo
deriving DecidableEq, Repr

/-- `inventoryV1.NodeResources`. -/
structure NodeResources where
  CPU : ResourcePair
  GPU : GPU
  Memory : ResourcePair
  EphemeralStorage : ResourcePair
  VolumesAttached : ResourcePair
  VolumesMounted : ResourcePair
deriving DecidableEq, Repr

/-- `inventoryV1.NodeCapabilities`: the storage classes the node supports. -/
structure NodeCapabilities where
  StorageClasses : List String
deriving DecidableEq, Repr

/-- `inventoryV1.Node`. -/
structure Node where
  Name : String
  Resources : NodeResources
  Capabilities : NodeCapabilities
deriving DecidableEq, Repr

/-- Modelled from the spec: `IsStorageClassSupported`, membership in the node's
capability set (§4.4 step 4). -/
def Node.IsStorageClassSupported (nd : Node) (cls : String) : Bool :=
  decide (cls ∈ nd.Capabilities.StorageClasses)

/-- `inventoryV1.Storage`: one cluster storage pool. -/
structure Storage where
  Quantity : ResourcePair
  Class : String
  IsDefault : Bool
deriving DecidableEq, Repr

/-- `inventoryV1.Cluster`, the value embedded in `inventory`. -/
structure Cluster where
  Nodes : List Node
  Storage : List Storage
deriving DecidableEq, Repr

/-- `types.CPU` of a request: units in milli. -/
structure ResCPU where
  Units : Nat
deriving DecidableEq, Repr

/-- `types.GPU` of a request. -/
structure ResGPU where
  Units : Nat
  Attributes : List Attribute
deriving DecidableEq, Repr

/-- `types.Memory` of a request. -/
structure ResMemory where
  Quantity : Nat
deriving DecidableEq, Repr

/-- `types.Storage` of a request. -/
structure ResStorage where
  Name : String
  Quantity : Nat
  Attributes : List Attribute
deriving DecidableEq, Repr

/-- `types.Resources`; `CPU`, `GPU` and `Memory` are pointers in the source
(`run` tests each against nil), hence options. -/
structure Resources where
  ID : Nat
  CPU : Option ResCPU
  GPU : Option ResGPU
  Memory : Option ResMemory
  Storage : List ResStorage
deriving DecidableEq, Repr

/-- `dtypes.ResourceUnit` as `Adjust` builds it: resources and replica count. -/
structure ResourceUnit where
  Resources : Resources
  Count : Nat
deriving DecidableEq, Repr

/-- Modelled from the spec: `SchedulerParams` (§3), value-typed,
`{ resources: { GPU: { vendor, model } } }`. -/
structure SchedulerResourceGPU where
  Vendor : String
  Model : String
deriving DecidableEq, Repr

/-- Modelled from the spec: the `resources` member of `SchedulerParams`. -/
structure SchedulerResources where
  GPU : SchedulerResourceGPU
deriving DecidableEq, Repr

/-- Modelled from the spec: `SchedulerParams` (§3). -/
structure SchedulerParams where
  Resources : SchedulerResources
deriving DecidableEq, Repr

/-- The zero value `crd.SchedulerParams{}`. -/
def SchedulerParams.zero : SchedulerParams := ⟨⟨⟨"", ""⟩⟩⟩

/-- `crd.ReservationClusterSettings`: map from resource id to a (possibly nil)
pointer to scheduler params, kept as an association list with unique keys. -/
abbrev ReservationClusterSettings := List (Nat × Option SchedulerParams)

/-- Map read `cparams[id]`: nil when the key is absent. -/
def cparamsGet : ReservationClusterSettings → Nat → Option SchedulerParams
  | [], _ => none
  | (k, v) :: rest, id => if k = id then v else cparamsGet rest id

/-- Map write `cparams[id] = v`. -/
def cparamsSet : ReservationClusterSettings → Nat → Option SchedulerParams →
    ReservationClusterSettings
  | [], id, v => [(id, v)]
  | (k, w) :: rest, id, v =>
    if k = id then (k, v) :: rest else (k, w) :: cparamsSet rest id v

/-! ## Attribute parsing (the parsers are not part of the sources) -/

/-- Modelled from the spec: `StorageAttributes` (§3), `{ class, persistent }`. -/
structure StorageAttributes where
  Persistent : Bool
  Class : String
deriving DecidableEq, Repr

/-- Modelled from the spec: the boolean reading of the `persistent` attribute
(§4.2), with the literals Go's `strconv.ParseBool` accepts. -/
def parseBool (s : String) : Option Bool :=
  if s ∈ ["1", "t", "T", "TRUE", "true", "True"] then some true
  else if s ∈ ["0", "f", "F", "FALSE", "false", "False"] then some false
  else none

/-- Modelled from the spec: the scan of `parse_storage_attributes` over the
attribute list, reading the optional keys `persistent` and `class`. -/
def parseStorageScan : List Attribute → StorageAttributes → Option StorageAttributes
  | [], acc => some acc
  | a :: rest, acc =>
    if a.Key = "persistent" then
      match parseBool a.Value with
      | none => none
      | some b => parseStorageScan rest { acc with Persistent := b }
    else if a.Key = "class" then
      parseStorageScan rest { acc with Class := a.Value }
    else parseStorageScan rest acc

/-- Modelled from the spec: `parse_storage_attributes` (§4.2).  Missing
`persistent` defaults to false, a non-boolean `persistent` is an error, a
missing class with `persistent = true` is an error (`none`). -/
def ParseStorageAttributes (attrs : List Attribute) : Option StorageAttributes :=
  match parseStorageScan attrs ⟨false, ""⟩ with
  | none => none
  | some r => if r.Persistent && r.Class == "" then none else some r

/-- Modelled from the spec: `sdl.StorageClassRAM`, the reserved class `"ram"` (§3). -/
def StorageClassRAM : String := "ram"

/-- Modelled from the spec: `GPUModelAttributes` (§3), the optional RAM and
interface constraint of a selector, the empty
string standing for "not specified" as in the source. -/
structure GPUModelAttributes where
  RAM : String
  Interface : String
deriving DecidableEq, Repr

/-- Modelled from the spec: `GPUModels` (§3), model name to a (possibly nil)
constraint. -/
abbrev GPUModels := List (String × Option GPUModelAttributes)

/-- Modelled from the spec: `GPUAttributes` (§3), vendor to models. -/
abbrev GPUAttributes := List (String × GPUModels)

/-- Map read `m[key]` on an association list; `none` when the key is absent. -/
def mapGet {β : Type} : List (String × β) → String → Option β
  | [], _ => none
  | (k, v) :: rest, key => if k = key then some v else mapGet rest key

/-- Map write `m[key] = v` on an association list. -/
def mapSet {β : Type} : List (String × β) → String → β → List (String × β)
  | [], key, v => [(key, v)]
  | (k, w) :: rest, key, v =>
    if k = key then (k, v) :: rest else (k, w) :: mapSet rest key v

/-- Modelled from the spec: `ExistsOrWildcard` (§4.5): look up the model, else
`"*"`; `none` when neither is present. -/
def GPUModels.ExistsOrWildcard (m : GPUModels) (model : String) :
    Option (Option GPUModelAttributes) :=
  match mapGet m model with
  | some a => some a
  | none => mapGet m "*"

/-- Modelled from the spec: the split of an attribute key at every `/` (§4.2). -/
def splitSlash : List Char → List (List Char)
  | [] => [[]]
  | c :: cs =>
    if c = '/' then [] :: splitSlash cs
    else
      match splitSlash cs with
      | [] => [[c]]
      | t :: ts => (c :: t) :: ts

/-- Modelled from the spec: the tokens of an attribute key (§4.2). -/
def keyTokens (s : String) : List String :=
  (splitSlash s.data).map String.mk

/-- Modelled from the spec: one parsed GPU selector key, vendor, model and the
optional constraint (§4.2). -/
structure GPUKey where
  Vendor : String
  Model : String
  Attr : Option GPUModelAttributes
deriving DecidableEq, Repr

/-- Modelled from the spec: the key grammar
`vendor/<V>/model/<M>[/ram/<R>][/interface/<I>]` (§4.2, §6). -/
def parseGPUKey (key : String) : Option GPUKey :=
  match keyTokens key with
  | ["vendor", v, "model", m] => some ⟨v, m, none⟩
  | ["vendor", v, "model", m, "ram", r] => some ⟨v, m, some ⟨r, ""⟩⟩
  | ["vendor", v, "model", m, "interface", i] => some ⟨v, m, some ⟨"", i⟩⟩
  | ["vendor", v, "model", m, "ram", r, "interface", i] => some ⟨v, m, some ⟨r, i⟩⟩
  | _ => none

/-- Modelled from the spec: merge of one optional constraint field of duplicate
entries; two different values conflict (§4.2). -/
def mergeField (a b : String) : Option String :=
  if a = "" then some b
  else if b = "" then some a
  else if a = b then some a
  else none

/-- Modelled from the spec: duplicate (vendor, model) entries merge, conflicting
RAM or interface is an error (§4.2). -/
def mergeAttr : Option GPUModelAttributes → Option GPUModelAttributes →
    Option (Option GPUModelAttributes)
  | none, b => some b
  | some a, none => some (some a)
  | some a, some b =>
    match mergeField a.RAM b.RAM, mergeField a.Interface b.Interface with
    | some r, some i => some (some ⟨r, i⟩)
    | _, _ => none

/-- Modelled from the spec: insertion of one parsed key into the selector map,
merging with an entry of the same vendor and model (§4.2). -/
def gpuAttrsInsert (acc : GPUAttributes) (k : GPUKey) : Option GPUAttributes :=
  let models := (mapGet acc k.Vendor).getD []
  match mapGet models k.Model with
  | none => some (mapSet acc k.Vendor (mapSet models k.Model k.Attr))
  | some old =>
    match mergeAttr old k.Attr with
    | none => none
    | some a => some (mapSet acc k.Vendor (mapSet models k.Model a))

/-- Modelled from the spec: the scan of `parse_gpu_attributes` over the attribute
list (§4.2). -/
def parseGPUScan : List Attribute → GPUAttributes → Option GPUAttributes
  | [], acc => some acc
  | a :: rest, acc =>
    match parseGPUKey a.Key with
    | none => none
    | some k =>
      match gpuAttrsInsert acc k with
      | none => none
      | some acc1 => parseGPUScan rest acc1

/-- Modelled from the spec: `parse_gpu_attributes` (§4.2); the attribute value
is ignored; `none` is the parse error. -/
def ParseGPUAttributes (attrs : List Attribute) : Option GPUAttributes :=
  parseGPUScan attrs []

/-- `strings.ToLower` of the Go library, on the ASCII letters. -/
def toLower (s : String) : String :=
  String.mk (s.data.map Char.toLower)

/-! ## `tryAdjustCPU`, `tryAdjustGPU`, `tryAdjustEphemeralStorage` -/

/-- `tryAdjustCPU`: `rp.SubMilliNLZ(res.Units)`; `none` when `res` is nil. -/
def tryAdjustCPU (rp : ResourcePair) (res : Option ResCPU) : Option (ResourcePair × Bool) :=
  match res with
  | none => none
  | some c => some (rp.SubMilliNLZ c.Units)

/-- What `tryAdjustGPU` leaves behind its three pointer arguments, and its
return value. -/
structure GPUAdjust where
  rp : GPU
  res : ResGPU
  sparams : SchedulerParams
  ok : Bool
deriving DecidableEq, Repr

/-- The filter of the scan: the RAM and interface constraints of a non-nil
matched entry (`continue` when it returns true). -/
def gpuSkip (attr : Option GPUModelAttributes) (info : GPUInfo) : Bool :=
  match attr with
  | none => false
  | some a =>
    (a.RAM != "" && a.RAM != info.MemorySize) ||
    (a.Interface != "" && a.Interface != info.Interface)

/-- The matched entry of the request for an info entry, when the scan does not
skip it. -/
def gpuMatch (attrs : GPUAttributes) (info : GPUInfo) : Option (Option GPUModelAttributes) :=
  match mapGet attrs info.Vendor with
  | none => none
  | some models =>
    match models.ExistsOrWildcard info.Name with
    | none => none
    | some attr => if gpuSkip attr info then none else some attr

/-- The canonical attribute key built at the selected info entry. -/
def gpuKey (vendor : String) (info : GPUInfo) (attr : Option GPUModelAttributes) : String :=
  let key := "vendor/" ++ vendor ++ "/model/" ++ info.Name
  match attr with
  | none => key
  | some a =>
    let key := if a.RAM != "" then key ++ "/ram/" ++ a.RAM else key
    if a.Interface != "" then key ++ "/interface/" ++ a.Interface else key

/-- The loop `for _, info := range rp.Info` of `tryAdjustGPU`, with the running
`reqCnt` (at least 1 at every entry of the body: the caller returns before the
loop when it is 0, and the loop returns when the decrement reaches 0). -/
def gpuScan (rp : GPU) (res : ResGPU) (sparams : SchedulerParams) (attrs : GPUAttributes) :
    List GPUInfo → Nat → GPUAdjust
  | [], _ => ⟨rp, res, sparams, false⟩
  | info :: rest, reqCnt =>
    match gpuMatch attrs info with
    | none => gpuScan rp res sparams attrs rest reqCnt
    | some attr =>
      if reqCnt - 1 = 0 then
        let vendor := toLower info.Vendor
        match rp.Quantity.SubNLZ res.Units with
        | (_, false) => ⟨rp, res, sparams, false⟩
        | (q, true) =>
          ⟨{ rp with Quantity := q }, { res with Attributes := [⟨gpuKey vendor info attr, "true"⟩] },
            ⟨⟨⟨vendor, info.Name⟩⟩⟩, true⟩
      else gpuScan rp res sparams attrs rest (reqCnt - 1)

/-- `tryAdjustGPU`; `none` when `res` is nil (`res.Units` is read first). -/
def tryAdjustGPU (rp : GPU) (res : Option ResGPU) (sparams : SchedulerParams) :
    Option GPUAdjust :=
  match res with
  | none => none
  | some g =>
    if g.Units = 0 then some ⟨rp, g, sparams, true⟩
    else if Value rp.Quantity.Available = 0 then some ⟨rp, g, sparams, false⟩
    else
      match ParseGPUAttributes g.Attributes with
      | none => some ⟨rp, g, sparams, false⟩
      | some attrs => some (gpuScan rp g sparams attrs rp.Info g.Units)

/-- `tryAdjustEphemeralStorage`. -/
def tryAdjustEphemeralStorage (rp : ResourcePair) (res : ResStorage) : ResourcePair × Bool :=
  rp.SubNLZ res.Quantity

/-! ## `tryAdjust` -/

/-- Outcome of the scan over the cluster pools for one persistent entry. -/
inductive PoolStep where
  | adjusted (pools : List Storage)
  | full
  | absent
deriving DecidableEq, Repr

/-- The loop `for idx := range storageClasses`: debit the first pool of the
class. -/
def adjustPool (cls : String) (q : Nat) : List Storage → PoolStep
  | [] => .absent
  | p :: ps =>
    if p.Class = cls then
      match p.Quantity.SubNLZ q with
      | (_, false) => .full
      | (pq, true) => .adjusted ({ p with Quantity := pq } :: ps)
    else
      match adjustPool cls q ps with
      | .adjusted ps1 => .adjusted (p :: ps1)
      | .full => .full
      | .absent => .absent

/-- Outcome of the storage loop of `tryAdjust`. -/
inductive StorageStep where
  | placed (nd : Node) (pools : List Storage)
  | nodeFail
  | clusterFail
deriving DecidableEq, Repr

/-- The loop `for i, storage := range res.Storage` of `tryAdjust` on the
duplicated node and pools. -/
def adjustStorage : List ResStorage → Node → List Storage → StorageStep
  | [], nd, pools => .placed nd pools
  | storage :: rest, nd, pools =>
    match ParseStorageAttributes storage.Attributes with
    | none => .clusterFail
    | some attrs =>
      if !attrs.Persistent then
        if attrs.Class = StorageClassRAM then
          match nd.Resources.Memory.SubNLZ storage.Quantity with
          | (_, false) => .nodeFail
          | (m, true) =>
            adjustStorage rest { nd with Resources := { nd.Resources with Memory := m } } pools
        else
          match tryAdjustEphemeralStorage nd.Resources.EphemeralStorage storage with
          | (_, false) => .nodeFail
          | (e, true) =>
            adjustStorage rest
              { nd with Resources := { nd.Resources with EphemeralStorage := e } } pools
      else if !nd.IsStorageClassSupported attrs.Class then .nodeFail
      else
        match adjustPool attrs.Class storage.Quantity pools with
        | .adjusted pools1 => adjustStorage rest nd pools1
        | .full => .clusterFail
        | .absent => .clusterFail

/-- What a call of `tryAdjust` leaves: the receiver, `*res`, and the three
return values. -/
structure TryAdjustResult where
  inv : Cluster
  res : Resources
  sparams : Option SchedulerParams
  nodeOk : Bool
  clusterOk : Bool
deriving DecidableEq, Repr

/-- `inventory.tryAdjust`; `none` is a runtime fault (node index out of range,
nil CPU, GPU or memory section). -/
def tryAdjust (inv : Cluster) (node : Nat) (res : Resources) : Option TryAdjustResult :=
  match inv.Nodes[node]? with
  | none => none
  | some nd =>
    match tryAdjustCPU nd.Resources.CPU res.CPU with
    | none => none
    | some (_, false) => some ⟨inv, res, none, false, true⟩
    | some (cpu, true) =>
      match tryAdjustGPU nd.Resources.GPU res.GPU SchedulerParams.zero with
      | none => none
      | some g =>
        let res1 : Resources := { res with GPU := some g.res }
        if !g.ok then some ⟨inv, res1, none, false, true⟩
        else
          match res.Memory with
          | none => none
          | some mem =>
            match nd.Resources.Memory.SubNLZ mem.Quantity with
            | (_, false) => some ⟨inv, res1, none, false, true⟩
            | (m, true) =>
              let nd1 : Node :=
                { nd with Resources := { nd.Resources with CPU := cpu, GPU := g.rp, Memory := m } }
              match adjustStorage res.Storage nd1 inv.Storage with
              | .clusterFail => some ⟨inv, res1, none, false, false⟩
              | .nodeFail => some ⟨inv, res1, none, false, true⟩
              | .placed nd2 pools =>
                let inv1 : Cluster := { Nodes := inv.Nodes.set node nd2, Storage := pools }
                if g.sparams = SchedulerParams.zero then some ⟨inv1, res1, none, true, true⟩
                else some ⟨inv1, res1, some g.sparams, true, true⟩

/-! ## `Adjust` -/

/-- The errors `Adjust` returns. -/
inductive AdjustError where
  | ErrInsufficientCapacity
  | ErrGroupResourceMismatch
deriving DecidableEq, Repr

/-- `ctypes.InventoryOptions`. -/
structure InventoryOptions where
  DryRun : Bool
deriving DecidableEq, Repr

/-- `ctypes.InventoryOption`: a function on the options. -/
abbrev InventoryOption := InventoryOptions → InventoryOptions

/-- Modelled from the spec: the `dry_run` option (§6), the only option there is. -/
def WithDryRun : InventoryOption := fun c => { c with DryRun := true }

/-- The loop `for _, opt := range opts { cfg = opt(cfg) }`. -/
def applyOpts (opts : List InventoryOption) : InventoryOptions :=
  opts.foldl (fun cfg opt => opt cfg) ⟨false⟩

/-- A call received by the reservation. -/
inductive ReservationCall where
  | SetAllocatedResources (r : List ResourceUnit)
  | SetClusterParams (c : ReservationClusterSettings)
deriving DecidableEq, Repr

/-- `ctypes.ReservationGroup`, an interface in the source: the resource units
`Resources().GetResourceUnits()` returns, and the setter calls received so
far, in order. -/
structure ReservationGroup where
  Resources : List ResourceUnit
  calls : List ReservationCall
deriving DecidableEq, Repr

/-- `reservation.SetAllocatedResources`. -/
def ReservationGroup.SetAllocatedResources (r : ReservationGroup) (a : List ResourceUnit) :
    ReservationGroup :=
  { r with calls := r.calls ++ [.SetAllocatedResources a] }

/-- `reservation.SetClusterParams`. -/
def ReservationGroup.SetClusterParams (r : ReservationGroup) (c : ReservationClusterSettings) :
    ReservationGroup :=
  { r with calls := r.calls ++ [.SetClusterParams c] }

/-- One call of `tryAdjust` made by `Adjust` (a record kept beside the
program state): the group index, the node index, whether the group was under
the equality check (`adjustedGroup`), the receiver and `*res` before the call,
what the call left, and the working list `resources` at the call. -/
structure TryCall where
  group : Nat
  node : Nat
  adjustedGroup : Bool
  inv : Cluster
  res : Resources
  result : TryAdjustResult
  resources : List ResourceUnit
deriving DecidableEq, Repr

/-- The local variables of `Adjust` that the loops change, and the record of
the `tryAdjust` calls made. -/
structure AdjustState where
  resources : List ResourceUnit
  adjustedResources : List ResourceUnit
  cparams : ReservationClusterSettings
  currInventory : Cluster
  err : Option AdjustError
  trace : List TryCall
deriving DecidableEq, Repr

/-- How a loop body was left. -/
inductive Flow where
  | next
  | continueNodes
  | breakNodes
  | gotoNodes
  | fault
deriving DecidableEq, Repr

/-- Write of `rs[i].Count`. -/
def setCount (rs : List ResourceUnit) (i n : Nat) : List ResourceUnit :=
  rs.modify (fun u => { u with Count := n }) i

/-- Write of `rs[i].Resources`. -/
def setResources (rs : List ResourceUnit) (i : Nat) (r : Resources) : List ResourceUnit :=
  rs.modify (fun u => { u with Resources := r }) i

/-- The loop `for ; resources[i].Count > 0; resources[i].Count--`; the first
argument is the running `resources[i].Count`, `adjusted` is the value behind
the pointer of that name.  When `adjustedGroup` is false the pointer aliases
`adjustedResources[i].Resources`, so what `tryAdjust` writes to it is written
there. -/
def replicaLoop (nodeIdx i : Nat) (adjustedGroup : Bool) :
    Nat → Resources → AdjustState → Flow × AdjustState
  | 0, _, st => (.next, st)
  | n + 1, adjusted, st =>
    match tryAdjust st.currInventory nodeIdx adjusted with
    | none => (.fault, st)
    | some r =>
      let st1 : AdjustState :=
        { st with
          currInventory := r.inv
          adjustedResources :=
            if adjustedGroup then st.adjustedResources
            else setResources st.adjustedResources i r.res
          trace := st.trace ++
            [⟨i, nodeIdx, adjustedGroup, st.currInventory, adjusted, r, st.resources⟩] }
      if !r.clusterOk then (.breakNodes, st1)
      else if !r.nodeOk then (.continueNodes, st1)
      else if adjustedGroup then
        match st1.adjustedResources[i]? with
        | none => (.fault, st1)
        | some a =>
          if r.res ≠ a.Resources then
            (.breakNodes, { st1 with err := some .ErrGroupResourceMismatch })
          else if r.sparams ≠ cparamsGet st1.cparams r.res.ID then
            (.breakNodes, { st1 with err := some .ErrGroupResourceMismatch })
          else
            replicaLoop nodeIdx i adjustedGroup n r.res
              { st1 with resources := setCount st1.resources i n }
      else
        replicaLoop nodeIdx i adjustedGroup n r.res
          { st1 with
            cparams := cparamsSet st1.cparams r.res.ID r.sparams
            resources := setCount st1.resources i n }

/-- The loop `for i := len(resources) - 1; i >= 0; i--` at one node; the first
argument is `i + 1`. -/
def groupLoop (origResources : List ResourceUnit) (nodeIdx : Nat) :
    Nat → AdjustState → Flow × AdjustState
  | 0, st => (.next, st)
  | i + 1, st =>
    match origResources[i]?, st.resources[i]?, st.adjustedResources[i]? with
    | some o, some r, some a =>
      let adjustedGroup := !(o.Count == r.Count)
      match replicaLoop nodeIdx i adjustedGroup r.Count a.Resources st with
      | (.next, st1) =>
        match st1.resources[i]? with
        | none => (.fault, st1)
        | some r1 =>
          if r1.Count = 0 then
            (.gotoNodes, { st1 with resources := st1.resources.eraseIdx i })
          else groupLoop origResources nodeIdx i st1
      | (flow, st1) => (flow, st1)
    | _, _, _ => (.fault, st)

/-- The loop `for nodeIdx := range currInventory.Nodes` from `nodeIdx` on, with
`remaining` nodes left.  It ends with `next` when the range is exhausted or
left by `break nodes`, with `gotoNodes` when a group was removed. -/
def nodesLoop (origResources : List ResourceUnit) :
    Nat → Nat → AdjustState → Flow × AdjustState
  | 0, _, st => (.next, st)
  | remaining + 1, nodeIdx, st =>
    match groupLoop origResources nodeIdx st.resources.length st with
    | (.breakNodes, st1) => (.next, st1)
    | (.gotoNodes, st1) => (.gotoNodes, st1)
    | (.fault, st1) => (.fault, st1)
    | (_, st1) => nodesLoop origResources remaining (nodeIdx + 1) st1

/-- The labelled statement `nodes:` with its `goto nodes`: every jump restarts
the range over the nodes at index 0.  A jump follows the removal of a group, so
`rounds = len(resources) + 1` passes are enough (`placeLoop_rounds`). -/
def placeLoop (origResources : List ResourceUnit) : Nat → AdjustState → Option AdjustState
  | 0, st => some st
  | rounds + 1, st =>
    match nodesLoop origResources st.currInventory.Nodes.length 0 st with
    | (.gotoNodes, st1) => placeLoop origResources rounds st1
    | (.fault, _) => none
    | (_, st1) => some st1

/-- What `Adjust` leaves: the error returned (`none` is OK), the receiver, the
reservation, and beside them the record of the `tryAdjust` calls made and the
last values of the locals `adjustedResources` and `cparams`. -/
structure AdjustResult where
  err : Option AdjustError
  inv : Cluster
  reservation : ReservationGroup
  trace : List TryCall
  adjustedResources : List ResourceUnit
  cparams : ReservationClusterSettings
deriving DecidableEq, Repr

/-- The state of `Adjust` before the label `nodes`. -/
def initState (inv : Cluster) (reservation : ReservationGroup) : AdjustState :=
  { resources := reservation.Resources.map (fun u => ⟨u.Resources, u.Count⟩)
    adjustedResources := reservation.Resources.map (fun u => ⟨u.Resources, u.Count⟩)
    cparams := []
    currInventory := inv
    err := none
    trace := [] }

/-- `inventory.Adjust`; `none` is a runtime fault. -/
def Adjust (inv : Cluster) (reservation : ReservationGroup) (opts : List InventoryOption) :
    Option AdjustResult :=
  let cfg := applyOpts opts
  let origResources := reservation.Resources
  match placeLoop origResources (origResources.length + 1) (initState inv reservation) with
  | none => none
  | some st =>
    if st.resources.length = 0 then
      some
        { err := none
          inv := if !cfg.DryRun then st.currInventory else inv
          reservation :=
            (reservation.SetAllocatedResources st.adjustedResources).SetClusterParams st.cparams
          trace := st.trace
          adjustedResources := st.adjustedResources
          cparams := st.cparams }
    else
      match st.err with
      | some e =>
        some ⟨some e, inv, reservation, st.trace, st.adjustedResources, st.cparams⟩
      | none =>
        some ⟨some .ErrInsufficientCapacity, inv, reservation, st.trace,
          st.adjustedResources, st.cparams⟩

/-! ## Scenarios of the spec (§8) -/

/-- `NewResourcePair` as `NewNull` uses it: a pair of whole units, without
floor. -/
def pair (allocatable allocated : Nat) : ResourcePair :=
  ⟨NewQuantity allocatable, NewQuantity allocated, 0⟩

/-- `NewResourcePairMilli` as `NewNull` uses it: a pair of milli-units, without
floor. -/
def pairMilli (allocatable allocated : Nat) : ResourcePair :=
  ⟨NewMilliQuantity allocatable, NewMilliQuantity allocated, 0⟩

/-- One gibibyte. -/
def Gi : Nat := 1024 * 1024 * 1024

/-- A node as `NewNull` builds it (5 CPUs of which 100m are allocated, 32Gi of
memory, 512Gi of ephemeral storage), with the given GPU. -/
def gpuNode (name : String) (gpu : GPU) : Node :=
  { Name := name
    Resources :=
      { CPU := pairMilli 5000 100, GPU := gpu, Memory := pair (32 * Gi) Gi
        EphemeralStorage := pair (512 * Gi) (10 * Gi)
        VolumesAttached := pair 0 0, VolumesMounted := pair 0 0 }
    Capabilities := ⟨[]⟩ }

/-- A GPU info entry of vendor nvidia, 40Gi, pcie. -/
def nvidia (model : String) : GPUInfo := ⟨"nvidia", model, "40Gi", "pcie"⟩

/-- A group of one CPU, one GiB of memory and one GPU with the given selector. -/
def gpuGroup (count : Nat) (key : String) : ResourceUnit :=
  ⟨{ ID := 1, CPU := some ⟨1000⟩, GPU := some ⟨1, [⟨key, "true"⟩]⟩, Memory := some ⟨Gi⟩,
     Storage := [] }, count⟩

/-- Scenario 1: one node without GPU. -/
def scenario1Inv : Cluster := ⟨[gpuNode "solo" ⟨pair 0 0, []⟩], []⟩

/-- Scenario 1: one group of 1000m CPU, 1Gi memory, one replica. -/
def scenario1Res : ReservationGroup :=
  ⟨[⟨{ ID := 1, CPU := some ⟨1000⟩, GPU := some ⟨0, []⟩, Memory := some ⟨Gi⟩, Storage := [] }, 1⟩], []⟩

/-- Scenario 2: one node with two a100. -/
def scenario2Inv : Cluster := ⟨[gpuNode "solo" ⟨pair 2 0, [nvidia "a100", nvidia "a100"]⟩], []⟩

/-- Scenario 5: nodeA with one a100, nodeB with one h100. -/
def scenario5Inv : Cluster :=
  ⟨[gpuNode "nodeA" ⟨pair 1 0, [nvidia "a100"]⟩, gpuNode "nodeB" ⟨pair 1 0, [nvidia "h100"]⟩], []⟩

/-- Scenario 5: one group of two replicas, one GPU each, any nvidia model. -/
def scenario5Res : ReservationGroup := ⟨[gpuGroup 2 "vendor/nvidia/model/*"], []⟩

/-! ## `Adjust`: what an error and what `dry_run` leave -/

/-- Scenario 2: one group of two replicas, one GPU each, any nvidia model. -/
def scenario2Res : ReservationGroup := ⟨[gpuGroup 2 "vendor/nvidia/model/*"], []⟩

/-! ## Capacity invariant -/

/-- A resource pair within capacity: `allocated ≤ allocatable`. -/
def ResourcePair.Valid (m : ResourcePair) : Prop := m.Allocated ≤ m.Allocatable

instance (m : ResourcePair) : Decidable m.Valid := by unfold ResourcePair.Valid; infer_instance

/-- Every resource pair that placement debits on a node is within capacity. -/
def Node.Valid (nd : Node) : Prop :=
  nd.Resources.CPU.Valid ∧ nd.Resources.GPU.Quantity.Valid ∧ nd.Resources.Memory.Valid ∧
    nd.Resources.EphemeralStorage.Valid

instance (nd : Node) : Decidable nd.Valid := by unfold Node.Valid; infer_instance

/-- Every node resource pair and every storage pool is within capacity. -/
def Cluster.Valid (c : Cluster) : Prop :=
  (∀ nd ∈ c.Nodes, nd.Valid) ∧ (∀ p ∈ c.Storage, p.Quantity.Valid)

instance (c : Cluster) : Decidable c.Valid := by unfold Cluster.Valid; infer_instance

/-- The node after the CPU, GPU and memory debits of `tryAdjust`. -/
def debitNode (nd : Node) (cpu : ResourcePair) (gpu : GPU) (m : ResourcePair) : Node :=
  { nd with Resources := { nd.Resources with CPU := cpu, GPU := gpu, Memory := m } }

/-! ## What `tryAdjust` writes to `*res` -/

/-- Two resources values that differ at most in their GPU attributes. -/
def Shape (a b : Resources) : Prop :=
  a.ID = b.ID ∧ a.CPU = b.CPU ∧ a.Memory = b.Memory ∧ a.Storage = b.Storage ∧
    a.GPU.map (fun g => g.Units) = b.GPU.map (fun g => g.Units)

/-! ## Debits of one placement -/

/-- Sum over all nodes of CPU allocated. -/
def cpuAllocated (c : Cluster) : Nat :=
  (c.Nodes.map (fun nd => nd.Resources.CPU.Allocated)).sum

/-- Sum over all nodes of memory allocated. -/
def memoryAllocated (c : Cluster) : Nat :=
  (c.Nodes.map (fun nd => nd.Resources.Memory.Allocated)).sum

/-- CPU milli-units one replica asks for. -/
def cpuUnits (r : Resources) : Nat :=
  match r.CPU with
  | some c => c.Units
  | none => 0

/-- Quantities of the non-persistent `"ram"`-class storage entries. -/
def ramStorage : List ResStorage → Nat
  | [] => 0
  | s :: rest =>
    (match ParseStorageAttributes s.Attributes with
      | some a => if !a.Persistent && a.Class == StorageClassRAM then s.Quantity else 0
      | none => 0) + ramStorage rest

/-- Memory one replica asks for: the memory quantity and the `"ram"`-class
storage. -/
def memoryUnits (r : Resources) : Nat :=
  (match r.Memory with
    | some m => m.Quantity
    | none => 0) + ramStorage r.Storage

/-- Sum over groups of count × CPU milli-units. -/
def cpuDemand (us : List ResourceUnit) : Nat :=
  (us.map (fun u => u.Count * cpuUnits u.Resources)).sum

/-- Sum over groups of count × memory. -/
def memoryDemand (us : List ResourceUnit) : Nat :=
  (us.map (fun u => u.Count * memoryUnits u.Resources)).sum

/-! ## The placement loop: invariant -/

/-- Group ids pairwise distinct. -/
def DistinctIDs (us : List ResourceUnit) : Prop :=
  (us.map (fun u => u.Resources.ID)).Nodup

instance (us : List ResourceUnit) : Decidable (DistinctIDs us) := by
  unfold DistinctIDs; infer_instance

/-- The invariant of the placement loop of `Adjust` over the original units
`orig` and the receiver `inv0`. -/
structure Inv (orig : List ResourceUnit) (inv0 : Cluster) (st : AdjustState) : Prop where
  lenA : st.adjustedResources.length = orig.length
  lenR : st.resources.length ≤ orig.length
  resEq : ∀ (i : Nat) (u : ResourceUnit), st.resources[i]? = some u →
    ∃ o, orig[i]? = some o ∧ u.Resources = o.Resources ∧ u.Count ≤ o.Count
  adjEq : ∀ (i : Nat) (a : ResourceUnit), st.adjustedResources[i]? = some a →
    ∃ o, orig[i]? = some o ∧ a.Count = o.Count ∧ Shape o.Resources a.Resources
  cpu : st.err = none →
    cpuAllocated st.currInventory + cpuDemand st.resources = cpuAllocated inv0 + cpuDemand orig
  mem : st.err = none →
    memoryAllocated st.currInventory + NewQuantity (memoryDemand st.resources) =
      memoryAllocated inv0 + NewQuantity (memoryDemand orig)
  errz : st.err ≠ none → st.resources ≠ []
  call : ∀ c ∈ st.trace, tryAdjust c.inv c.node c.res = some c.result
  ver : ∀ c ∈ st.trace, c.adjustedGroup = true →
    ∀ (u o : ResourceUnit), st.resources[c.group]? = some u → orig[c.group]? = some o →
      u.Count < o.Count
  fin : st.err = none → DistinctIDs orig →
    ∀ c ∈ st.trace, c.adjustedGroup = true → c.result.nodeOk = true →
      ∃ a, st.adjustedResources[c.group]? = some a ∧ c.result.res = a.Resources ∧
        c.result.sparams = cparamsGet st.cparams a.Resources.ID

/-- The invariant at the head of the replica loop for group `i`, with `n`
replicas left and `adjusted` behind the pointer of that name. -/
structure PassInv (orig : List ResourceUnit) (inv0 : Cluster) (i : Nat) (v : Bool) (n : Nat)
    (adjusted : Resources) (st : AdjustState) extends Inv orig inv0 st : Prop where
  noerr : st.err = none
  cnt : ∃ u, st.resources[i]? = some u ∧ u.Count = n
  adj : ∃ a, st.adjustedResources[i]? = some a ∧ a.Resources = adjusted
  unv : v = false → ∀ c ∈ st.trace, c.group = i → c.adjustedGroup = false
  vlt : v = true → ∀ (o : ResourceUnit), orig[i]? = some o → n < o.Count

/-- The state right after a call of `tryAdjust` in the replica loop. -/
def afterCall (st : AdjustState) (i nodeIdx : Nat) (v : Bool) (adjusted : Resources)
    (r : TryAdjustResult) : AdjustState :=
  { st with
    currInventory := r.inv
    adjustedResources :=
      if v then st.adjustedResources else setResources st.adjustedResources i r.res
    trace := st.trace ++ [⟨i, nodeIdx, v, st.currInventory, adjusted, r, st.resources⟩] }

/-- The state after a placed replica: the count of group `i` is written and,
outside the equality check, the scheduler params are recorded. -/
def afterPlace (st : AdjustState) (i nodeIdx : Nat) (v : Bool) (n : Nat) (adjusted : Resources)
    (r : TryAdjustResult) : AdjustState :=
  { afterCall st i nodeIdx v adjusted r with
    cparams := if v then st.cparams else cparamsSet st.cparams r.res.ID r.sparams
    resources := setCount st.resources i n }

/-! ## C4: replicas of one group agree -/

/-- Two nodes with one a100 each. -/
def twoA100Inv : Cluster :=
  ⟨[gpuNode "nodeA" ⟨pair 1 0, [nvidia "a100"]⟩, gpuNode "nodeB" ⟨pair 1 0, [nvidia "a100"]⟩], []⟩

/-- Two groups of two replicas that share the id 1: the first asks for one
nvidia GPU of any model, the second for none. -/
def sharedIdRes : ReservationGroup :=
  ⟨[gpuGroup 2 "vendor/nvidia/model/*",
    ⟨{ ID := 1, CPU := some ⟨1000⟩, GPU := some ⟨0, []⟩, Memory := some ⟨Gi⟩, Storage := [] }, 2⟩],
   []⟩

/-! ## C7: the canonical GPU request -/

/-- The RAM constraint of a matched request entry, empty when none is given. -/
def ramOf (attr : Option GPUModelAttributes) : String :=
  match attr with
  | some a => a.RAM
  | none => ""

/-- The interface constraint of a matched request entry, empty when none is
given. -/
def interfaceOf (attr : Option GPUModelAttributes) : String :=
  match attr with
  | some a => a.Interface
  | none => ""

/-- The canonical key in the spec's words: `vendor/<v>/model/<m>`, then
`/ram/<r>` if a RAM was specified, then `/interface/<i>` if an interface was. -/
def canonicalKey (v m r i : String) : String :=
  "vendor/" ++ v ++ "/model/" ++ m ++ (if r = "" then "" else "/ram/" ++ r) ++
    (if i = "" then "" else "/interface/" ++ i)

/-! ## Requests that no node can place -/

/-- The state of the placement loop while the single group of the reservation,
of `oc` replicas, has `cnt` replicas left and is placed nowhere any more: only
the GPU attributes behind `adjusted` may move, within `Q`. -/
def Unplaced (inv : Cluster) (res0 : Resources) (oc cnt : Nat) (Q : Resources → Prop)
    (st : AdjustState) : Prop :=
  st.resources = [⟨res0, cnt⟩] ∧ (∃ a, st.adjustedResources = [⟨a, oc⟩] ∧ Q a) ∧
    st.err = none ∧ st.currInventory = inv

/-! ## C8: GPU RAM mismatch -/

/-- Every GPU attribute entry of the request carries the constraint `ram R`. -/
def AllRam (R : String) (attrs : List Attribute) : Prop :=
  ∀ a ∈ attrs, ∀ k, parseGPUKey a.Key = some k → ∃ ga, k.Attr = some ga ∧ ga.RAM = R

/-- Every entry of a parsed selector map carries the constraint `ram R`. -/
def AllRamMap (R : String) (m : GPUAttributes) : Prop :=
  ∀ v models, mapGet m v = some models →
    ∀ md a, mapGet models md = some a → ∃ ga, a = some ga ∧ ga.RAM = R

/-- The requests of C8: CPU and memory sections present, GPU units ≥ 1, every
GPU attribute entry carrying `ram R`. -/
def RamRequest (R : String) (res : Resources) : Prop :=
  (∃ c, res.CPU = some c) ∧ (∃ m, res.Memory = some m) ∧
    ∃ g, res.GPU = some g ∧ 1 ≤ g.Units ∧ AllRam R g.Attributes

/-- Scenario 3: the request of scenario 2 with the constraint `ram 80Gi`. -/
def scenario3Res : ReservationGroup := ⟨[gpuGroup 2 "vendor/nvidia/model/*/ram/80Gi"], []⟩

/-! ## C9: missing storage class -/

/-- The requests of C9: CPU, GPU and memory sections present, and a persistent
storage entry of class `cls`. -/
def PersistentRequest (cls : String) (res : Resources) : Prop :=
  (∃ c, res.CPU = some c) ∧ (∃ m, res.Memory = some m) ∧ (∃ g, res.GPU = some g) ∧
    ∃ s ∈ res.Storage, ParseStorageAttributes s.Attributes = some ⟨true, cls⟩

/-- Scenario 4: one node that supports the class, one pool of class `beta2`. -/
def scenario4Inv : Cluster :=
  ⟨[{ gpuNode "solo" ⟨pair 0 0, []⟩ with Capabilities := ⟨["beta2", "beta3"]⟩ }],
   [⟨pair (512 * Gi) (10 * Gi), "beta2", true⟩]⟩

/-- Scenario 4: one replica with a persistent volume of class `beta3`. -/
def scenario4Res : ReservationGroup :=
  ⟨[⟨{ ID := 1, CPU := some ⟨1000⟩, GPU := some ⟨0, []⟩, Memory := some ⟨Gi⟩,
       Storage := [⟨"data", Gi, [⟨"persistent", "true"⟩, ⟨"class", "beta3"⟩]⟩] }, 1⟩], []⟩

/-! ## C5 on every inventory of the scenario's shape -/

/-- The wildcard request of scenario 5 with CPU `c` and memory `m`. -/
def wildcardRequest (id c m : Nat) : Resources :=
  { ID := id, CPU := some ⟨c⟩, GPU := some ⟨1, [⟨"vendor/nvidia/model/*", "true"⟩]⟩,
    Memory := some ⟨m⟩, Storage := [] }

/-- The request of scenario 5 after its first placement on an a100. -/
def a100Request (id c m : Nat) : Resources :=
  { ID := id, CPU := some ⟨c⟩, GPU := some ⟨1, [⟨"vendor/nvidia/model/a100", "true"⟩]⟩,
    Memory := some ⟨m⟩, Storage := [] }

/-- The node after one replica of the request was placed on it. -/
def placedOn (A : Node) (c m : Nat) : Node :=
  debitNode A
    { A.Resources.CPU with Allocated := A.Resources.CPU.Allocated + NewMilliQuantity c }
    { A.Resources.GPU with
      Quantity :=
        { A.Resources.GPU.Quantity with
          Allocated := A.Resources.GPU.Quantity.Allocated + NewQuantity 1 } }
    { A.Resources.Memory with Allocated := A.Resources.Memory.Allocated + NewQuantity m }

/-- A node whose first GPU carries a model name with slashes in it. -/
def slashNameInv : Cluster :=
  ⟨[gpuNode "solo"
      ⟨pair 2 0, [⟨"nvidia", "a100/ram/80Gi", "40Gi", "pcie"⟩, ⟨"nvidia", "a100", "80Gi", "pcie"⟩]⟩],
   []⟩

/-! ## The placement loop: step conditions for further invariants -/

/-- The places at which the placement loop changes its state, as conditions on
a family `J nodeIdx` of state predicates (what holds while the scan is at node
`nodeIdx`) and a predicate `F` (what holds when the loop is left): a call that
fails at the node moves on to the next node, a call that fails at the cluster
and a mismatch leave the loop, a placed replica stays at the node, the removal
of an exhausted group restarts at node 0. -/
structure LoopSteps (orig : List ResourceUnit) (inv0 : Cluster)
    (J : Nat → AdjustState → Prop) (F : AdjustState → Prop) : Prop where
  fail : ∀ (i nodeIdx : Nat) (v : Bool) (n : Nat) (adjusted : Resources) (st : AdjustState)
    (r : TryAdjustResult), PassInv orig inv0 i v (n + 1) adjusted st →
    i + 1 = st.resources.length → J nodeIdx st →
    tryAdjust st.currInventory nodeIdx adjusted = some r → r.nodeOk = false →
    r.clusterOk = true → J (nodeIdx + 1) (afterCall st i nodeIdx v adjusted r)
  cfail : ∀ (i nodeIdx : Nat) (v : Bool) (n : Nat) (adjusted : Resources) (st : AdjustState)
    (r : TryAdjustResult), PassInv orig inv0 i v (n + 1) adjusted st →
    i + 1 = st.resources.length → J nodeIdx st →
    tryAdjust st.currInventory nodeIdx adjusted = some r → r.nodeOk = false →
    r.clusterOk = false → F (afterCall st i nodeIdx v adjusted r)
  mismatch : ∀ (i nodeIdx : Nat) (v : Bool) (n : Nat) (adjusted : Resources) (st : AdjustState)
    (r : TryAdjustResult), PassInv orig inv0 i v (n + 1) adjusted st →
    i + 1 = st.resources.length → J nodeIdx st →
    tryAdjust st.currInventory nodeIdx adjusted = some r → r.nodeOk = true → v = true →
    F { afterCall st i nodeIdx v adjusted r with err := some .ErrGroupResourceMismatch }
  place : ∀ (i nodeIdx : Nat) (v : Bool) (n : Nat) (adjusted : Resources) (st : AdjustState)
    (r : TryAdjustResult), PassInv orig inv0 i v (n + 1) adjusted st →
    i + 1 = st.resources.length → J nodeIdx st →
    tryAdjust st.currInventory nodeIdx adjusted = some r → r.nodeOk = true →
    (v = true → r.res = adjusted ∧ r.sparams = cparamsGet st.cparams r.res.ID) →
    J nodeIdx (afterPlace st i nodeIdx v n adjusted r)
  erase : ∀ (i nodeIdx : Nat) (st : AdjustState) (u : ResourceUnit), Inv orig inv0 st →
    st.err = none → i + 1 = st.resources.length → st.resources[i]? = some u → u.Count = 0 →
    J nodeIdx st → J 0 { st with resources := st.resources.eraseIdx i }
  final : ∀ (nodeIdx : Nat) (st : AdjustState), J nodeIdx st → F st

/-! ## C12: the allocated resources -/

/-- The GPU section of a resources value in canonical form: when it asks for
at least one unit, its attributes are a single entry with value `"true"` and a
canonical key. -/
def CanonicalGPU (r : Resources) : Prop :=
  ∀ g, r.GPU = some g → 1 ≤ g.Units →
    ∃ v m ram ifc, g.Attributes = [⟨canonicalKey v m ram ifc, "true"⟩]

/-- Group `i` has had a replica placed: its working count is below the
original count, or it was removed from `resources` with an original count of
at least one. -/
def Placed (orig : List ResourceUnit) (st : AdjustState) (i : Nat) : Prop :=
  ∃ o, orig[i]? = some o ∧
    ((∃ u, st.resources[i]? = some u ∧ u.Count < o.Count) ∨
      (st.resources.length ≤ i ∧ 1 ≤ o.Count))

/-- Every group that has had a replica placed carries a canonical GPU section
in `adjustedResources`. -/
def CanonInv (orig : List ResourceUnit) (st : AdjustState) : Prop :=
  ∀ i a, st.adjustedResources[i]? = some a → Placed orig st i → CanonicalGPU a.Resources

/-! ## C13: where the scan goes on after a group is exhausted -/

/-- Two nodes as `NewNull` builds them: the first without GPU, the second with
one a100. -/
def restartInv : Cluster :=
  ⟨[gpuNode "nodeA" ⟨pair 0 0, []⟩, gpuNode "nodeB" ⟨pair 1 0, [nvidia "a100"]⟩], []⟩

/-- Two groups of one replica each: the first asks for no GPU, the second (the
one the scan starts with) for one nvidia GPU of any model. -/
def restartRes : ReservationGroup :=
  ⟨[⟨{ ID := 1, CPU := some ⟨1000⟩, GPU := some ⟨0, []⟩, Memory := some ⟨Gi⟩, Storage := [] }, 1⟩,
    ⟨{ ID := 2, CPU := some ⟨1000⟩, GPU := some ⟨1, [⟨"vendor/nvidia/model/*", "true"⟩]⟩,
       Memory := some ⟨Gi⟩, Storage := [] }, 1⟩],
   []⟩

/-- How a `tryAdjust` call `c2` of `Adjust` follows the call `c1` made before
it: after a placement the next replica of the group is tried on the same node;
after a failure at the node (not at the cluster) the group is tried on the next
node; and a call for another group follows a placement (the one that exhausted
the group of `c1`), is for a group of smaller index and is made at node 0. -/
def Follows (c1 c2 : TryCall) : Prop :=
  (c2.group = c1.group ∧ c1.result.nodeOk = true ∧ c2.node = c1.node) ∨
    (c2.group = c1.group ∧ c1.result.nodeOk = false ∧ c1.result.clusterOk = true ∧
      c2.node = c1.node + 1) ∨
    (c2.group < c1.group ∧ c1.result.nodeOk = true ∧ c2.node = 0)

/-- Where the last call made stands relative to the scan at node `nodeIdx`: it
placed a replica of the last group at this node, or it failed for the last
group (which still has a replica to place) at the node before, or the scan was
restarted at node 0 after the group of the call was removed. -/
def LastCall (nodeIdx : Nat) (st : AdjustState) : Prop :=
  ∀ c, st.trace.getLast? = some c →
    (c.group + 1 = st.resources.length ∧ c.result.nodeOk = true ∧ c.node = nodeIdx) ∨
      (c.group + 1 = st.resources.length ∧ c.result.nodeOk = false ∧
        c.result.clusterOk = true ∧ c.node + 1 = nodeIdx ∧
        ∃ u, st.resources[c.group]? = some u ∧ 1 ≤ u.Count) ∨
      (nodeIdx = 0 ∧ st.resources.length ≤ c.group ∧ c.result.nodeOk = true)

/-! ## `Metrics` -/

/-- Conversion `uint64(x)` of a non-negative value, and the wrap-around of
`uint64` arithmetic. -/
def u64 (x : Nat) : Nat := x % 2 ^ 64

/-- Modelled from the spec: `ResourcesMetric` of the inventory API (§4.6), the
type declaration is not part of the sources: CPU in milli-units, the others in
whole units or bytes, each a `uint64`. -/
structure ResourcesMetric where
  CPU : Nat
  GPU : Nat
  Memory : Nat
  StorageEphemeral : Nat
deriving DecidableEq, Repr

/-- Modelled from the spec: `NodeMetrics` of the inventory API (§4.6): name,
allocatable and available. -/
structure NodeMetrics where
  Name : String
  Allocatable : ResourcesMetric
  Available : ResourcesMetric
deriving DecidableEq, Repr

/-- Modelled from the spec: `MetricTotal` of the inventory API (§4.6): the
totals across nodes and the storage totals keyed by class, a map kept as an
association list. -/
structure MetricTotal where
  CPU : Nat
  GPU : Nat
  Memory : Nat
  StorageEphemeral : Nat
  Storage : List (String × Nat)
deriving DecidableEq, Repr

/-- Modelled from the spec: `inventoryV1.Metrics` (§4.6), what `Metrics`
returns. -/
structure InventoryMetrics where
  Nodes : List NodeMetrics
  TotalAllocatable : MetricTotal
  TotalAvailable : MetricTotal
deriving DecidableEq, Repr

/-- The local variables of `Metrics` that the loop over the nodes changes. -/
structure MetricsState where
  cpuTotal : Nat
  gpuTotal : Nat
  memoryTotal : Nat
  storageEphemeralTotal : Nat
  cpuAvailable : Nat
  gpuAvailable : Nat
  memoryAvailable : Nat
  storageEphemeralAvailable : Nat
  nodes : List NodeMetrics
deriving DecidableEq, Repr

/-- The loop `for _, nd := range inv.Nodes` of `Metrics`. -/
def metricsNodes : List Node → MetricsState → MetricsState
  | [], s => s
  | nd :: rest, s =>
    let invNode : NodeMetrics :=
      { Name := nd.Name
        Allocatable :=
          { CPU := u64 (MilliValue nd.Resources.CPU.Allocatable)
            GPU := u64 (Value nd.Resources.GPU.Quantity.Allocatable)
            Memory := u64 (Value nd.Resources.Memory.Allocatable)
            StorageEphemeral := u64 (Value nd.Resources.EphemeralStorage.Allocatable) }
        Available :=
          { CPU := u64 (MilliValue nd.Resources.CPU.Available)
            GPU := u64 (Value nd.Resources.GPU.Quantity.Available)
            Memory := u64 (Value nd.Resources.Memory.Available)
            StorageEphemeral := u64 (Value nd.Resources.EphemeralStorage.Available) } }
    metricsNodes rest
      { cpuTotal := u64 (s.cpuTotal + u64 (MilliValue nd.Resources.CPU.Allocatable))
        gpuTotal := u64 (s.gpuTotal + u64 (Value nd.Resources.GPU.Quantity.Allocatable))
        memoryTotal := u64 (s.memoryTotal + u64 (Value nd.Resources.Memory.Allocatable))
        storageEphemeralTotal :=
          u64 (s.storageEphemeralTotal + u64 (Value nd.Resources.EphemeralStorage.Allocatable))
        cpuAvailable := u64 (s.cpuAvailable + invNode.Available.CPU)
        gpuAvailable := u64 (s.gpuAvailable + invNode.Available.GPU)
        memoryAvailable := u64 (s.memoryAvailable + invNode.Available.Memory)
        storageEphemeralAvailable :=
          u64 (s.storageEphemeralAvailable + invNode.Available.StorageEphemeral)
        nodes := s.nodes ++ [invNode] }

/-- The loop `for _, class := range inv.Storage` of `Metrics` on the maps
`storageTotal` and `storageAvailable`. -/
def metricsStorage :
    List Storage → List (String × Nat) × List (String × Nat) →
      List (String × Nat) × List (String × Nat)
  | [], maps => maps
  | cls :: rest, (storageTotal, storageAvailable) =>
    metricsStorage rest
      (mapSet storageTotal cls.Class (Value cls.Quantity.Allocatable),
        mapSet storageAvailable cls.Class (Value cls.Quantity.Available))

/-- `inventory.Metrics`: the receiver after the call (nothing is written
through it) and the metrics returned. -/
def Metrics (inv : Cluster) : Cluster × InventoryMetrics :=
  let s := metricsNodes inv.Nodes ⟨0, 0, 0, 0, 0, 0, 0, 0, []⟩
  let maps := metricsStorage inv.Storage ([], [])
  (inv,
    { Nodes := s.nodes
      TotalAllocatable :=
        { CPU := s.cpuTotal, GPU := s.gpuTotal, Memory := s.memoryTotal
          StorageEphemeral := s.storageEphemeralTotal, Storage := maps.1 }
      TotalAvailable :=
        { CPU := s.cpuAvailable, GPU := s.gpuAvailable, Memory := s.memoryAvailable
          StorageEphemeral := s.storageEphemeralAvailable, Storage := maps.2 } })

/-- The node entry of the metrics in the spec's words (§4.6): the name, and
allocatable and available CPU in milli-units and GPU, memory and ephemeral
storage in whole units, each as a `uint64`. -/
def nodeEntry (nd : Node) : NodeMetrics :=
  { Name := nd.Name
    Allocatable :=
      ⟨u64 (MilliValue nd.Resources.CPU.Allocatable), u64 (Value nd.Resources.GPU.Quantity.Allocatable),
        u64 (Value nd.Resources.Memory.Allocatable),
        u64 (Value nd.Resources.EphemeralStorage.Allocatable)⟩
    Available :=
      ⟨u64 (MilliValue nd.Resources.CPU.Available), u64 (Value nd.Resources.GPU.Quantity.Available),
        u64 (Value nd.Resources.Memory.Available),
        u64 (Value nd.Resources.EphemeralStorage.Available)⟩ }

/-- The inventory `NewNull` builds without node names: the node `solo` with two
GPUs (one allocated) and the pool `beta2`. -/
def nullInv : Cluster :=
  ⟨[gpuNode "solo" ⟨pair 2 1, []⟩], [⟨pair (512 * Gi) (502 * Gi), "beta2", false⟩]⟩

/-! ## The commit step of the inventory actor (`run`) -/

/-- The loop `for idx := range cl.cluster.Storage` of the commit step: the
first pool of the class is debited, whether the debit fits or not, and the loop
is left. -/
def commitPool (cls : String) (q : Nat) : List Storage → List Storage
  | [] => []
  | p :: ps =>
    if p.Class = cls then { p with Quantity := (p.Quantity.SubNLZ q).1 } :: ps
    else p :: commitPool cls q ps

/-- The loop `for i, storage := range res.Storage` of the commit step on
`*ndRes` and the cluster pools.  The parse error is dropped by the source
(`attrs, _ :=`); `errAttrs` is what the parser returns beside an error. -/
def commitStorage (errAttrs : StorageAttributes) :
    List ResStorage → NodeResources → List Storage → NodeResources × List Storage
  | [], ndRes, pools => (ndRes, pools)
  | storage :: rest, ndRes, pools =>
    let attrs := (ParseStorageAttributes storage.Attributes).getD errAttrs
    if !attrs.Persistent then
      if attrs.Class = StorageClassRAM then
        commitStorage errAttrs rest
          { ndRes with Memory := (ndRes.Memory.SubNLZ storage.Quantity).1 } pools
      else
        commitStorage errAttrs rest
          { ndRes with
            EphemeralStorage := (tryAdjustEphemeralStorage ndRes.EphemeralStorage storage).1 }
          pools
    else commitStorage errAttrs rest ndRes (commitPool attrs.Class storage.Quantity pools)

/-- The CPU, GPU and memory debits of the commit step for one resource unit,
each under its nil test; the result of `SubNLZ` is not looked at. -/
def commitNode (ndRes : NodeResources) (res : Resources) : NodeResources :=
  let r1 : NodeResources :=
    match res.CPU with
    | some c => { ndRes with CPU := (ndRes.CPU.SubNLZ c.Units).1 }
    | none => ndRes
  let r2 : NodeResources :=
    match res.GPU with
    | some g => { r1 with GPU := { r1.GPU with Quantity := (r1.GPU.Quantity.SubNLZ g.Units).1 } }
    | none => r1
  match res.Memory with
  | some m => { r2 with Memory := (r2.Memory.SubNLZ m.Quantity).1 }
  | none => r2

/-- The loop `for _, res := range ru` of the commit step. -/
def commitUnits (errAttrs : StorageAttributes) :
    List ResourceUnit → NodeResources → List Storage → NodeResources × List Storage
  | [], ndRes, pools => (ndRes, pools)
  | res :: rest, ndRes, pools =>
    let s := commitStorage errAttrs res.Resources.Storage (commitNode ndRes res.Resources) pools
    commitUnits errAttrs rest s.1 s.2

/-- The commit step of `nullInventory.run` (the case `cmreq := <-cl.cmch`) on
the cluster the actor owns, for the resource units of the request; `none` is
the runtime fault of `cl.cluster.Nodes[0]` on a cluster without node. -/
def commit (errAttrs : StorageAttributes) (cluster : Cluster) (ru : List ResourceUnit) :
    Option Cluster :=
  match cluster.Nodes with
  | [] => none
  | nd0 :: nds =>
    let s := commitUnits errAttrs ru nd0.Resources cluster.Storage
    some ⟨{ nd0 with Resources := s.1 } :: nds, s.2⟩

/-- One debit of a commit in the spec's words (§4.3): of node 0 CPU, GPU,
memory or ephemeral storage, or of the pool of a class. -/
inductive Debit where
  | cpu (q : Nat)
  | gpu (q : Nat)
  | memory (q : Nat)
  | ephemeral (q : Nat)
  | pool (cls : String) (q : Nat)
deriving DecidableEq, Repr

/-- Where a storage entry is debited, in the spec's words (§4.3): non-persistent
and class `"ram"`: node memory; else non-persistent: node ephemeral storage;
else the pool of the class. -/
def storageDebit (a : StorageAttributes) (q : Nat) : Debit :=
  if a.Persistent = false ∧ a.Class = "ram" then .memory q
  else if a.Persistent = false then .ephemeral q
  else .pool a.Class q

/-- The debits of a commit request in the spec's words, in order: for each
resource unit its CPU, GPU and memory sections when present, then its storage
entries. -/
def requestDebits (errAttrs : StorageAttributes) (ru : List ResourceUnit) : List Debit :=
  ru.flatMap (fun u =>
    (u.Resources.CPU.toList.map (fun c => Debit.cpu c.Units)) ++
    (u.Resources.GPU.toList.map (fun g => Debit.gpu g.Units)) ++
    (u.Resources.Memory.toList.map (fun m => Debit.memory m.Quantity)) ++
    u.Resources.Storage.map (fun s =>
      storageDebit ((ParseStorageAttributes s.Attributes).getD errAttrs) s.Quantity))

/-- A debit that does not fail the commit (§4.3): `sub`, its result dropped. -/
def debitPair (m : ResourcePair) (q : Nat) : ResourcePair := (m.SubNLZ q).1

/-- One debit applied to node 0's resources and the pools, in the spec's words:
a pool debit goes to the first pool whose class matches and to no other, and
changes nothing when no pool matches. -/
def applyDebit (s : NodeResources × List Storage) : Debit → NodeResources × List Storage
  | .cpu q => ({ s.1 with CPU := debitPair s.1.CPU q }, s.2)
  | .gpu q => ({ s.1 with GPU := { s.1.GPU with Quantity := debitPair s.1.GPU.Quantity q } }, s.2)
  | .memory q => ({ s.1 with Memory := debitPair s.1.Memory q }, s.2)
  | .ephemeral q => ({ s.1 with EphemeralStorage := debitPair s.1.EphemeralStorage q }, s.2)
  | .pool cls q =>
    match s.2.findIdx? (fun p => p.Class == cls) with
    | none => s
    | some idx => (s.1, s.2.modify (fun p => { p with Quantity := debitPair p.Quantity q }) idx)

/-- A pair after debits: `allocatable` and the floor are kept, `allocated` has
not dropped. -/
def Debited (m m1 : ResourcePair) : Prop :=
  m1.Allocatable = m.Allocatable ∧ m1.Floor = m.Floor ∧ m.Allocated ≤ m1.Allocated

/-- Node 0's resources after a commit: only the CPU, GPU, memory and ephemeral
storage pairs can have changed, each by debits. -/
def NodeFrame (r r1 : NodeResources) : Prop :=
  Debited r.CPU r1.CPU ∧ Debited r.GPU.Quantity r1.GPU.Quantity ∧ r1.GPU.Info = r.GPU.Info ∧
    Debited r.Memory r1.Memory ∧ Debited r.EphemeralStorage r1.EphemeralStorage ∧
    r1.VolumesAttached = r.VolumesAttached ∧ r1.VolumesMounted = r.VolumesMounted

/-- The pools after a commit: the same pools in the same order, each with its
pair debited or unchanged. -/
def PoolsFrame (ps ps1 : List Storage) : Prop :=
  List.Forall₂ (fun p p1 => p1.Class = p.Class ∧ p1.IsDefault = p.IsDefault ∧
    Debited p.Quantity p1.Quantity) ps ps1

/-- A cluster of two nodes and two pools of the class `beta2`. -/
def commitInv : Cluster :=
  ⟨[gpuNode "nodeA" ⟨pair 2 1, []⟩, gpuNode "nodeB" ⟨pair 2 1, []⟩],
   [⟨pair (512 * Gi) (502 * Gi), "beta2", false⟩, ⟨pair (512 * Gi) (502 * Gi), "beta2", false⟩]⟩

/-- A commit request with storage entries only: 1Gi of class `"ram"`, 2Gi
without attributes, 3Gi persistent of class `beta2` and 4Gi persistent of
class `beta3`. -/
def commitReq : List ResourceUnit :=
  [⟨{ ID := 1, CPU := none, GPU := none, Memory := none
      Storage :=
        [⟨"shm", Gi, [⟨"class", "ram"⟩]⟩, ⟨"tmp", 2 * Gi, []⟩,
         ⟨"data", 3 * Gi, [⟨"persistent", "true"⟩, ⟨"class", "beta2"⟩]⟩,
         ⟨"logs", 4 * Gi, [⟨"persistent", "true"⟩, ⟨"class", "beta3"⟩]⟩] }, 1⟩]

/-! ## The per-subscriber forwarder (`subscriber`) -/

/-- The local variables of `subscriber`: the queue `pending`, the current
message `msg` (nil, or the inventory `newInventory` wraps around a snapshot)
and whether `och` is non-nil (the output is enabled); beside them the values
sent on `out` so far, in order. -/
structure SubscriberState where
  pending : List Cluster
  msg : Option Cluster
  och : Bool
  sent : List (Option Cluster)
deriving DecidableEq, Repr

/-- The two cases of the `select` of `subscriber` that change its state: a
snapshot arrives on `in`, or `msg` is taken from `och`. -/
inductive SubscriberEvent where
  | recv (inv : Cluster)
  | send
deriving DecidableEq, Repr

/-- What a round of the loop of `subscriber` comes to: the next state; or the
case cannot be taken (a send on a nil channel is never ready); or a runtime
fault (`pending[0]` or `pending[1:]` out of range). -/
inductive SubscriberStep where
  | ok (s : SubscriberState)
  | blocked
  | fault
deriving DecidableEq, Repr

/-- The state of `subscriber` before its loop. -/
def SubscriberState.init : SubscriberState := ⟨[], none, false, []⟩

/-- One round of the loop of `subscriber`. -/
def subscriberStep (s : SubscriberState) : SubscriberEvent → SubscriberStep
  | .recv inv =>
    let pending := s.pending ++ [inv]
    if !s.och then
      match pending with
      | [] => .fault
      | p :: _ => .ok { s with pending := pending, msg := some p, och := true }
    else .ok { s with pending := pending }
  | .send =>
    if !s.och then .blocked
    else
      match s.pending with
      | [] => .fault
      | _ :: pending =>
        match pending with
        | p :: _ => .ok { s with pending := pending, msg := some p, sent := s.sent ++ [s.msg] }
        | [] => .ok { s with pending := pending, och := false, msg := none,
                             sent := s.sent ++ [s.msg] }

/-- The loop of `subscriber` over a sequence of rounds, from the state `s`; it
ends at the first round that is blocked or faults. -/
def subscriberRun (s : SubscriberState) : List SubscriberEvent → SubscriberStep
  | [] => .ok s
  | e :: rest =>
    match subscriberStep s e with
    | .ok s1 => subscriberRun s1 rest
    | .blocked => .blocked
    | .fault => .fault

/-- The input of the forwarder: the snapshots that the rounds of a sequence
deliver on `in`, in order. It is read off the rounds, not off the state. -/
def snapshotsReceived : List SubscriberEvent → List Cluster
  | [] => []
  | .recv inv :: rest => inv :: snapshotsReceived rest
  | .send :: rest => snapshotsReceived rest

/-- The number of rounds of a sequence in which `och` takes a value. -/
def sendRounds : List SubscriberEvent → Nat
  | [] => 0
  | .recv _ :: rest => sendRounds rest
  | .send :: rest => sendRounds rest + 1

/-- The invariant of the forwarder, for the snapshots `recvd` delivered on `in`
so far and the number `n` of send rounds so far: what was sent followed by what
is pending is what was delivered; one value was sent per send round; the
output is enabled exactly when `pending` is non-empty; the current message is
the head of `pending` (nil when there is none). -/
def SubscriberInv (recvd : List Cluster) (n : Nat) (s : SubscriberState) : Prop :=
  s.sent ++ s.pending.map some = recvd.map some ∧ s.sent.length = n ∧
    (s.och = true ↔ s.pending ≠ []) ∧ s.msg = s.pending.head?

/-! ## C18: what a failing `tryAdjust` leaves -/

/-- A node with one a100 and 1Gi of memory available. -/
def lowMemNode : Node :=
  { Name := "nodeA"
    Resources :=
      { CPU := pairMilli 5000 100, GPU := ⟨pair 1 0, [nvidia "a100"]⟩
        Memory := pair (32 * Gi) (31 * Gi), EphemeralStorage := pair (512 * Gi) (10 * Gi)
        VolumesAttached := pair 0 0, VolumesMounted := pair 0 0 }
    Capabilities := ⟨[]⟩ }

/-- The node of little memory, and a node as `NewNull` builds it with one
h100. -/
def lowMemInv : Cluster := ⟨[lowMemNode, gpuNode "nodeB" ⟨pair 1 0, [nvidia "h100"]⟩], []⟩

/-- A request of one CPU, 4Gi of memory and one nvidia GPU of any model. -/
def anyGpuRes : Resources :=
  { ID := 1, CPU := some ⟨1000⟩, GPU := some ⟨1, [⟨"vendor/nvidia/model/*", "true"⟩]⟩,
    Memory := some ⟨4 * Gi⟩, Storage := [] }

/-! ## C19: the outcomes of `tryAdjust` -/

/-- A storage entry that fails at cluster scope, for the node and the pools as
the entries before it left them: its attributes do not parse, or it is
persistent with a class the node supports for which no pool exists or of which
the first pool cannot hold the quantity. -/
def ClusterFailure (s : ResStorage) (nd : Node) (pools : List Storage) : Prop :=
  ParseStorageAttributes s.Attributes = none ∨
    ∃ cls, ParseStorageAttributes s.Attributes = some ⟨true, cls⟩ ∧
      nd.IsStorageClassSupported cls = true ∧
      ((∀ p ∈ pools, p.Class ≠ cls) ∨
        ∃ pre p post, pools = pre ++ p :: post ∧ (∀ x ∈ pre, x.Class ≠ cls) ∧ p.Class = cls ∧
          (p.Quantity.SubNLZ s.Quantity).2 = false)

/-- A storage entry that fails at node scope: a non-persistent entry of class
`"ram"` that the node memory cannot hold, another non-persistent entry that
the node ephemeral storage cannot hold, or a persistent entry of a class that
is not in the node's capabilities. -/
def NodeFailure (s : ResStorage) (nd : Node) : Prop :=
  ∃ a, ParseStorageAttributes s.Attributes = some a ∧
    ((a.Persistent = false ∧ a.Class = "ram" ∧
        (nd.Resources.Memory.SubNLZ s.Quantity).2 = false) ∨
      (a.Persistent = false ∧ a.Class ≠ "ram" ∧
        (nd.Resources.EphemeralStorage.SubNLZ s.Quantity).2 = false) ∨
      (a.Persistent = true ∧ nd.IsStorageClassSupported a.Class = false))

/-- The CPU, GPU and memory debits of `tryAdjust` succeed on the node, leaving
the node `nd1` and the GPU step's `out`. -/
def NodeDebits (inv : Cluster) (node : Nat) (res : Resources) (nd1 : Node) (out : GPUAdjust) :
    Prop :=
  ∃ nd c g0 mem cpu m, inv.Nodes[node]? = some nd ∧ res.CPU = some c ∧ res.GPU = some g0 ∧
    res.Memory = some mem ∧ nd.Resources.CPU.SubMilliNLZ c.Units = (cpu, true) ∧
    tryAdjustGPU nd.Resources.GPU (some g0) SchedulerParams.zero = some out ∧ out.ok = true ∧
    nd.Resources.Memory.SubNLZ mem.Quantity = (m, true) ∧ nd1 = debitNode nd cpu out.rp m

/-- A debit of `q` whole units that the pair `m` holds, in the spec's words
(§4.1): `available − q` does not drop below the floor, and `m1` is `m` with
`allocated` incremented by `q`. -/
def DebitOf (m : ResourcePair) (q : Nat) (m1 : ResourcePair) : Prop :=
  NewQuantity q + m.Floor ≤ m.Available ∧
    m1 = { m with Allocated := m.Allocated + NewQuantity q }

/-- The storage entry `s` is debited from the node `nd` and the pools `pools`,
leaving `nd1` and `pools1`, in the spec's words (§4.4 step 4): its attributes
parse; a non-persistent entry of class `"ram"` is debited from the node memory
and another non-persistent entry from the node ephemeral storage, the pools as
they were; a persistent entry of a class the node supports is debited from the
first pool of the class, the node and the other pools as they were. -/
def EntryDebited (s : ResStorage) (nd : Node) (pools : List Storage) (nd1 : Node)
    (pools1 : List Storage) : Prop :=
  ∃ a, ParseStorageAttributes s.Attributes = some a ∧
    ((a.Persistent = false ∧ a.Class = "ram" ∧ pools1 = pools ∧
        ∃ m, DebitOf nd.Resources.Memory s.Quantity m ∧
          nd1 = { nd with Resources := { nd.Resources with Memory := m } }) ∨
      (a.Persistent = false ∧ a.Class ≠ "ram" ∧ pools1 = pools ∧
        ∃ e, DebitOf nd.Resources.EphemeralStorage s.Quantity e ∧
          nd1 = { nd with Resources := { nd.Resources with EphemeralStorage := e } }) ∨
      (a.Persistent = true ∧ nd.IsStorageClassSupported a.Class = true ∧ nd1 = nd ∧
        ∃ pre p post pq, pools = pre ++ p :: post ∧ (∀ x ∈ pre, x.Class ≠ a.Class) ∧
          p.Class = a.Class ∧ DebitOf p.Quantity s.Quantity pq ∧
          pools1 = pre ++ { p with Quantity := pq } :: post))

/-- The storage entries of a list are debited one after the other, in order,
each from the node and the pools as the entries before it left them, leaving
the node `nd2` and the pools `pools2`. -/
def EntriesDebited : List ResStorage → Node → List Storage → Node → List Storage → Prop
  | [], nd, pools, nd2, pools2 => nd2 = nd ∧ pools2 = pools
  | s :: rest, nd, pools, nd2, pools2 =>
    ∃ nd1 pools1, EntryDebited s nd pools nd1 pools1 ∧ EntriesDebited rest nd1 pools1 nd2 pools2

/-- The storage entries up to `s` are debited, in order, leaving the node `nd2`
and the pools `pools2`, and `s` is the first that is not. -/
def FirstFailing (sts : List ResStorage) (nd1 : Node) (pools : List Storage) (s : ResStorage)
    (nd2 : Node) (pools2 : List Storage) : Prop :=
  ∃ pre post, sts = pre ++ s :: post ∧ EntriesDebited pre nd1 pools nd2 pools2

/-- The failures of `tryAdjust` at node scope: the CPU debit fails; or the GPU
step fails; or the memory debit fails; or the first failing storage entry is a
`"ram"`-class or ephemeral shortfall or persistent with a class that is not in
the node's capabilities. -/
def NodeScopeFailure (inv : Cluster) (node : Nat) (res : Resources) : Prop :=
  (∃ nd c, inv.Nodes[node]? = some nd ∧ res.CPU = some c ∧
      (nd.Resources.CPU.SubMilliNLZ c.Units).2 = false) ∨
    (∃ nd c cpu g0 out, inv.Nodes[node]? = some nd ∧ res.CPU = some c ∧
      nd.Resources.CPU.SubMilliNLZ c.Units = (cpu, true) ∧ res.GPU = some g0 ∧
      tryAdjustGPU nd.Resources.GPU (some g0) SchedulerParams.zero = some out ∧
      out.ok = false) ∨
    (∃ nd c cpu g0 out mem, inv.Nodes[node]? = some nd ∧ res.CPU = some c ∧
      nd.Resources.CPU.SubMilliNLZ c.Units = (cpu, true) ∧ res.GPU = some g0 ∧
      tryAdjustGPU nd.Resources.GPU (some g0) SchedulerParams.zero = some out ∧
      out.ok = true ∧ res.Memory = some mem ∧
      (nd.Resources.Memory.SubNLZ mem.Quantity).2 = false) ∨
    ∃ nd1 out s nd2 pools2, NodeDebits inv node res nd1 out ∧
      FirstFailing res.Storage nd1 inv.Storage s nd2 pools2 ∧ NodeFailure s nd2

/-- The failures of `tryAdjust` at cluster scope: the CPU, GPU and memory
debits on the node succeed and the first failing storage entry, scanning in
order with all earlier entries debited, fails as `ClusterFailure` says. -/
def ClusterScopeFailure (inv : Cluster) (node : Nat) (res : Resources) : Prop :=
  ∃ nd1 out s nd2 pools2, NodeDebits inv node res nd1 out ∧
    FirstFailing res.Storage nd1 inv.Storage s nd2 pools2 ∧ ClusterFailure s nd2 pools2

/-- A request with two persistent volumes of class `beta2`, of 300Gi each. -/
def twoVolumeRes : Resources :=
  { ID := 1, CPU := some ⟨1000⟩, GPU := some ⟨0, []⟩, Memory := some ⟨Gi⟩,
    Storage :=
      [⟨"db", 300 * Gi, [⟨"persistent", "true"⟩, ⟨"class", "beta2"⟩]⟩,
       ⟨"data", 300 * Gi, [⟨"persistent", "true"⟩, ⟨"class", "beta2"⟩]⟩] }

/-! ## C20: `tryAdjustGPU` is first-fit by count -/

/-- An info entry matches the request, in the spec's words (§4.5): the vendor
is present, the model is present or else the wildcard is, and the RAM and the
interface of the matched request entry are equal to those of the info entry
when specified. -/
def Matches (attrs : GPUAttributes) (info : GPUInfo) : Prop :=
  ∃ models, mapGet attrs info.Vendor = some models ∧
    ∃ attr, (mapGet models info.Name = some attr ∨
        (mapGet models info.Name = none ∧ mapGet models "*" = some attr)) ∧
      ∀ a, attr = some a →
        (a.RAM = "" ∨ a.RAM = info.MemorySize) ∧ (a.Interface = "" ∨ a.Interface = info.Interface)

/-! ## C21: first fit in node order -/

/-- Three nodes: the node with one a100 and 1Gi of memory available, then a
node as `NewNull` builds it with one h100, then one with one a100. -/
def firstFitInv : Cluster :=
  ⟨[lowMemNode, gpuNode "nodeB" ⟨pair 1 0, [nvidia "h100"]⟩,
    gpuNode "nodeC" ⟨pair 1 0, [nvidia "a100"]⟩], []⟩

/-! ## C22: a request without GPU section -/

/-- A request of one CPU and 1Gi of memory whose GPU section is absent (nil). -/
def noGpuRes : Resources :=
  { ID := 1, CPU := some ⟨1000⟩, GPU := none, Memory := some ⟨Gi⟩, Storage := [] }

/-! ## C23: index alignment -/

/-- The working list `rs` is a prefix of the original unit list up to counts:
it is no longer, and the unit at each index carries the resources of the
original unit at that index and a count that is not larger. -/
def PrefixUpToCounts (orig rs : List ResourceUnit) : Prop :=
  rs.length ≤ orig.length ∧
    ∀ (j : Nat) (u : ResourceUnit), rs[j]? = some u →
      ∃ o, orig[j]? = some o ∧ u.Resources = o.Resources ∧ u.Count ≤ o.Count

/-- The groups before the last one of the working list have their original
count: no replica of them has been placed. -/
def Untouched (orig rs : List ResourceUnit) : Prop :=
  ∀ (j : Nat) (u o : ResourceUnit), j + 1 < rs.length → rs[j]? = some u → orig[j]? = some o →
    u.Count = o.Count

/-- Index alignment at a call of `tryAdjust`: the group of the call is the last
element of the working list, which is a prefix of the original list up to
counts with every group before the last untouched; the group has a replica
left; and the request passed carries the resources of the original unit at the
index of the group, up to the GPU attributes. -/
def Aligned (orig : List ResourceUnit) (c : TryCall) : Prop :=
  c.group + 1 = c.resources.length ∧ PrefixUpToCounts orig c.resources ∧
    Untouched orig c.resources ∧
    (∃ u, c.resources[c.group]? = some u ∧ 1 ≤ u.Count) ∧
    ∃ o, orig[c.group]? = some o ∧ Shape o.Resources c.res

/-- From the working list `rs1` to the later working list `rs2` groups are
removed only from the end: `rs2` is no longer, and but for its last element it
is the list `rs1` up to there. -/
def ShrinksAtEnd (rs1 rs2 : List ResourceUnit) : Prop :=
  rs2.length ≤ rs1.length ∧ ∀ j, j + 1 < rs2.length → rs2[j]? = rs1[j]?

/-- The state of the placement loop as index alignment needs it: every call
made was aligned, the working lists of consecutive calls shrink at the end, and
the working list of the state continues that of the last call. -/
def AlignInv (orig : List ResourceUnit) (st : AdjustState) : Prop :=
  (∀ c ∈ st.trace, Aligned orig c) ∧
    st.trace.Chain' (fun c1 c2 => ShrinksAtEnd c1.resources c2.resources) ∧
    (∀ c, st.trace.getLast? = some c → ShrinksAtEnd c.resources st.resources) ∧
    Untouched orig st.resources

/-! ## C24: termination -/

/-- The triple of the termination argument at a call of `tryAdjust`: the number
of remaining groups, the remaining replica count of the group of the call, and
the nodes left in the scan. -/
def callMeasure (c : TryCall) : Nat × Nat × Nat :=
  (c.resources.length, ((c.resources[c.group]?).map (fun u => u.Count)).getD 0,
    c.inv.Nodes.length - c.node)

/-- The lexicographic order on the triples. -/
def MeasureLt (a b : Nat × Nat × Nat) : Prop :=
  a.1 < b.1 ∨ (a.1 = b.1 ∧ (a.2.1 < b.2.1 ∨ (a.2.1 = b.2.1 ∧ a.2.2 < b.2.2)))

/-- The state of the placement loop as the termination argument needs it, while
the scan is at node `nodeIdx`: the triples of the calls made decrease, and
against the last call made either a replica count of the current group has
dropped, or the working list is the same and the scan is one node further, or
a group has been removed. -/
def MeasInv (nodeIdx : Nat) (st : AdjustState) : Prop :=
  st.trace.Chain' (fun c1 c2 => MeasureLt (callMeasure c2) (callMeasure c1)) ∧
    ∀ c, st.trace.getLast? = some c →
      (c.group + 1 = st.resources.length ∧ st.resources.length = c.resources.length ∧
        ∃ u w, st.resources[c.group]? = some u ∧ c.resources[c.group]? = some w ∧
          u.Count < w.Count) ∨
      (c.group + 1 = st.resources.length ∧ st.resources = c.resources ∧
        st.currInventory.Nodes.length = c.inv.Nodes.length ∧ c.node < c.inv.Nodes.length ∧
        c.node + 1 = nodeIdx ∧ ∃ u, st.resources[c.group]? = some u ∧ 1 ≤ u.Count) ∨
      st.resources.length < c.resources.length

/-- Every unit of the list has its CPU, GPU and memory section. -/
def HasSections (us : List ResourceUnit) : Prop :=
  ∀ u ∈ us, u.Resources.CPU.isSome = true ∧ u.Resources.GPU.isSome = true ∧
    u.Resources.Memory.isSome = true

instance (us : List ResourceUnit) : Decidable (HasSections us) := by
  unfold HasSections; infer_instance

/-- The calls for the nodes below `k` failed at the node against the pre-call
inventory `inv`, each for a request within `Q`. -/
def FailedBelow (inv : Cluster) (Q : Resources → Prop) (k : Nat) : Prop :=
  ∀ j, j < k → ∃ a r, Q a ∧ tryAdjust inv j a = some r ∧ r.nodeOk = false

/-- The one replica was placed by the call for node `k` against the pre-call
inventory `inv`, for a request within `Q`, after the calls for the nodes below
`k` had failed; `cur` is the inventory the call left. -/
def PlacedAt (inv : Cluster) (Q : Resources → Prop) (cur : Cluster) : Prop :=
  ∃ k a r, Q a ∧ tryAdjust inv k a = some r ∧ r.nodeOk = true ∧ FailedBelow inv Q k ∧
    cur = r.inv

/-- The state of the placement loop for a reservation of one group of one
replica, while the scan is at node `nodeIdx`: the replica is not placed yet,
the working inventory is the pre-call inventory and the calls for the nodes
below `nodeIdx` failed; or the replica was placed and no replica is left. -/
def FirstFitState (inv : Cluster) (res : Resources) (Q : Resources → Prop) (nodeIdx : Nat)
    (st : AdjustState) : Prop :=
  (st.resources = [⟨res, 1⟩] ∧ st.currInventory = inv ∧
      (∃ a, st.adjustedResources[0]? = some a ∧ Q a.Resources) ∧ FailedBelow inv Q nodeIdx) ∨
    (PlacedAt inv Q st.currInventory ∧ ∀ u ∈ st.resources, u.Count = 0)

/-! # Theorems -/

/-! ## `Adjust`: what an error and what `dry_run` leave -/

/-- C1: if `Adjust` returns an error (InsufficientCapacity or
GroupResourceMismatch) the receiver inventory equals its pre-call state and the
reservation is as before the call: no `SetAllocatedResources` and no
`SetClusterParams` call was added, and its resource units are unchanged. -/
theorem adjust_error_leaves_all (inv : Cluster) (reservation : ReservationGroup)
    (opts : List InventoryOption) (r : AdjustResult) (e : AdjustError)
    (h : Adjust inv reservation opts = some r) (he : r.err = some e) :
    r.inv = inv ∧ r.reservation.calls = reservation.calls ∧
      r.reservation.Resources = reservation.Resources := by
  unfold Adjust at h
  simp only at h
  split at h
  · exact absurd h (by simp)
  · split at h
    · injection h with h; subst h; simp at he
    · split at h <;> (injection h with h; subst h; exact ⟨rfl, rfl, rfl⟩)

/-- Witness of C1 on scenario 5, where `Adjust` returns InsufficientCapacity. -/
theorem adjust_error_leaves_all_witness :
    (Adjust scenario5Inv scenario5Res []).map (fun r => r.err) =
        some (some .ErrInsufficientCapacity) ∧
      (Adjust scenario5Inv scenario5Res []).map (fun r => (r.inv, r.reservation)) =
        some (scenario5Inv, scenario5Res) := by
  have he : (Adjust scenario5Inv scenario5Res []).map (fun r => r.err) =
      some (some .ErrInsufficientCapacity) := by decide
  refine ⟨he, ?_⟩
  cases h : Adjust scenario5Inv scenario5Res [] with
  | none => rw [h] at he; exact absurd he (by simp)
  | some r =>
    rw [h] at he
    have her : r.err = some .ErrInsufficientCapacity := by simpa using he
    obtain ⟨h1, h2, h3⟩ := adjust_error_leaves_all _ _ _ r _ h her
    cases hr : r.reservation with
    | mk res calls =>
      rw [hr] at h2 h3
      simp only at h2 h3
      subst h2 h3
      simp only [Option.map_some', h1, hr]

/-- C2: with the `dry_run` option `Adjust` leaves the receiver inventory equal to
its pre-call state whether it returns OK or an error, and on OK it has called
`SetAllocatedResources` and then `SetClusterParams` on the reservation. -/
theorem adjust_dry_run_frame (inv : Cluster) (reservation : ReservationGroup)
    (opts : List InventoryOption) (r : AdjustResult)
    (hd : (applyOpts opts).DryRun = true) (h : Adjust inv reservation opts = some r) :
    r.inv = inv ∧
      (r.err = none →
        r.reservation.calls = reservation.calls ++
          [.SetAllocatedResources r.adjustedResources, .SetClusterParams r.cparams]) := by
  unfold Adjust at h
  simp only [hd] at h
  split at h
  · exact absurd h (by simp)
  · split at h
    · injection h with h; subst h
      refine ⟨by simp, fun _ => ?_⟩
      simp [ReservationGroup.SetAllocatedResources, ReservationGroup.SetClusterParams]
    · split at h <;> (injection h with h; subst h; exact ⟨rfl, fun he => absurd he (by simp)⟩)

/-- Witness of C2 on scenario 2 with `dry_run`: OK, receiver untouched, both
setters called. -/
theorem adjust_dry_run_frame_witness :
    (Adjust scenario2Inv scenario2Res [WithDryRun]).map
        (fun r => (r.err, r.inv, r.reservation.calls)) =
      some (none, scenario2Inv,
        [.SetAllocatedResources [gpuGroup 2 "vendor/nvidia/model/a100"],
         .SetClusterParams [(1, some ⟨⟨⟨"nvidia", "a100"⟩⟩⟩)]]) := by
  have he : (Adjust scenario2Inv scenario2Res [WithDryRun]).map
      (fun r => (r.err, r.adjustedResources, r.cparams)) =
      some (none, [gpuGroup 2 "vendor/nvidia/model/a100"],
        [(1, some ⟨⟨⟨"nvidia", "a100"⟩⟩⟩)]) := by decide
  cases h : Adjust scenario2Inv scenario2Res [WithDryRun] with
  | none => rw [h] at he; exact absurd he (by simp)
  | some r =>
    rw [h] at he
    simp only [Option.map_some', Option.some.injEq, Prod.mk.injEq] at he
    obtain ⟨h1, h2⟩ := adjust_dry_run_frame _ _ _ r (by decide) h
    have h3 := h2 he.1
    simp only [Option.map_some', h1, h3, he.1, he.2.1, he.2.2]
    rfl

/-! ## Capacity invariant -/

theorem SubNLZ_valid (m : ResourcePair) (q : Nat) (h : m.Valid) : (m.SubNLZ q).1.Valid := by
  unfold ResourcePair.SubNLZ
  split
  · exact h
  · rename_i hlt
    simp only [ResourcePair.Valid, ResourcePair.Available] at *
    omega

theorem SubMilliNLZ_valid (m : ResourcePair) (q : Nat) (h : m.Valid) :
    (m.SubMilliNLZ q).1.Valid := by
  unfold ResourcePair.SubMilliNLZ
  split
  · exact h
  · rename_i hlt
    simp only [ResourcePair.Valid, ResourcePair.Available] at *
    omega

theorem gpuScan_valid (rp : GPU) (res : ResGPU) (sp : SchedulerParams) (attrs : GPUAttributes)
    (infos : List GPUInfo) (n : Nat) (h : rp.Quantity.Valid) :
    (gpuScan rp res sp attrs infos n).rp.Quantity.Valid := by
  induction infos generalizing n with
  | nil => simpa [gpuScan] using h
  | cons info rest ih =>
    unfold gpuScan
    split
    · exact ih n
    · split
      · have hv := SubNLZ_valid rp.Quantity res.Units h
        split
        · exact h
        · rename_i q heq
          rw [heq] at hv
          exact hv
      · exact ih (n - 1)

theorem tryAdjustGPU_valid (rp : GPU) (res : Option ResGPU) (sp : SchedulerParams)
    (g : GPUAdjust) (h : rp.Quantity.Valid) (hg : tryAdjustGPU rp res sp = some g) :
    g.rp.Quantity.Valid := by
  unfold tryAdjustGPU at hg
  split at hg
  · exact absurd hg (by simp)
  · split at hg
    · injection hg with hg; subst hg; exact h
    · split at hg
      · injection hg with hg; subst hg; exact h
      · split at hg
        · injection hg with hg; subst hg; exact h
        · injection hg with hg; subst hg; exact gpuScan_valid _ _ _ _ _ _ h

theorem adjustPool_valid (cls : String) (q : Nat) (pools pools1 : List Storage)
    (h : ∀ p ∈ pools, p.Quantity.Valid) (hp : adjustPool cls q pools = .adjusted pools1) :
    ∀ p ∈ pools1, p.Quantity.Valid := by
  induction pools generalizing pools1 with
  | nil => simp [adjustPool] at hp
  | cons p ps ih =>
    unfold adjustPool at hp
    split at hp
    · have hv := SubNLZ_valid p.Quantity q (h p (List.mem_cons_self _ _))
      split at hp
      · simp at hp
      · rename_i pq heq
        rw [heq] at hv
        injection hp with hp
        subst hp
        intro x hx
        rcases List.mem_cons.mp hx with rfl | hx
        · exact hv
        · exact h x (List.mem_cons_of_mem _ hx)
    · split at hp
      · rename_i ps1 heq
        injection hp with hp
        subst hp
        intro x hx
        rcases List.mem_cons.mp hx with rfl | hx
        · exact h _ (List.mem_cons_self _ _)
        · exact ih ps1 (fun y hy => h y (List.mem_cons_of_mem _ hy)) heq x hx
      · simp at hp
      · simp at hp

theorem adjustStorage_valid (sts : List ResStorage) (nd nd2 : Node) (pools pools2 : List Storage)
    (hn : nd.Valid) (hp : ∀ p ∈ pools, p.Quantity.Valid)
    (h : adjustStorage sts nd pools = .placed nd2 pools2) :
    nd2.Valid ∧ ∀ p ∈ pools2, p.Quantity.Valid := by
  induction sts generalizing nd pools with
  | nil =>
    simp only [adjustStorage, StorageStep.placed.injEq] at h
    obtain ⟨rfl, rfl⟩ := h
    exact ⟨hn, hp⟩
  | cons s rest ih =>
    unfold adjustStorage at h
    split at h
    · simp at h
    · split at h
      · split at h
        · have hv := SubNLZ_valid nd.Resources.Memory s.Quantity hn.2.2.1
          split at h
          · simp at h
          · rename_i m heq
            rw [heq] at hv
            refine ih _ _ ?_ hp h
            exact ⟨hn.1, hn.2.1, hv, hn.2.2.2⟩
        · have hv := SubNLZ_valid nd.Resources.EphemeralStorage s.Quantity hn.2.2.2
          unfold tryAdjustEphemeralStorage at h
          split at h
          · simp at h
          · rename_i e heq
            rw [heq] at hv
            refine ih _ _ ?_ hp h
            exact ⟨hn.1, hn.2.1, hn.2.2.1, hv⟩
      · split at h
        · simp at h
        · split at h
          · rename_i pools1 heq
            exact ih _ _ hn (adjustPool_valid _ _ _ _ hp heq) h
          · simp at h
          · simp at h

/-- Inversion of a successful `tryAdjust`: every step succeeded. -/
theorem tryAdjust_ok_inv (inv : Cluster) (node : Nat) (res : Resources) (r : TryAdjustResult)
    (h : tryAdjust inv node res = some r) (hok : r.nodeOk = true) :
    ∃ nd c cpu g mem m nd2 pools,
      inv.Nodes[node]? = some nd ∧ res.CPU = some c ∧
      nd.Resources.CPU.SubMilliNLZ c.Units = (cpu, true) ∧
      tryAdjustGPU nd.Resources.GPU res.GPU SchedulerParams.zero = some g ∧ g.ok = true ∧
      res.Memory = some mem ∧ nd.Resources.Memory.SubNLZ mem.Quantity = (m, true) ∧
      adjustStorage res.Storage (debitNode nd cpu g.rp m) inv.Storage = .placed nd2 pools ∧
      r.inv = ⟨inv.Nodes.set node nd2, pools⟩ ∧
      r.res = { res with GPU := some g.res } ∧
      r.sparams = (if g.sparams = SchedulerParams.zero then none else some g.sparams) ∧
      r.clusterOk = true := by
  unfold tryAdjust at h
  split at h
  · simp at h
  · rename_i nd hnd
    split at h
    · simp at h
    · injection h with h; subst h; simp at hok
    · rename_i cpu hcpu
      unfold tryAdjustCPU at hcpu
      split at hcpu
      · simp at hcpu
      · rename_i c hc
        injection hcpu with hcpu
        split at h
        · simp at h
        · rename_i g hg
          simp only at h
          split at h
          · injection h with h; subst h; simp at hok
          · rename_i hgok
            split at h
            · simp at h
            · rename_i mem hmem
              split at h
              · injection h with h; subst h; simp at hok
              · rename_i m heq
                split at h
                · injection h with h; subst h; simp at hok
                · injection h with h; subst h; simp at hok
                · rename_i nd2 pools hst
                  refine ⟨nd, c, cpu, g, mem, m, nd2, pools, hnd, hc, hcpu, hg, by simpa using hgok,
                    hmem, heq, hst, ?_⟩
                  split at h <;> (injection h with h; subst h; simp [*])

/-- A failing `tryAdjust` leaves the receiver as it was and returns nil params. -/
theorem tryAdjust_fail_inv (inv : Cluster) (node : Nat) (res : Resources) (r : TryAdjustResult)
    (h : tryAdjust inv node res = some r) (hok : r.nodeOk = false) :
    r.inv = inv ∧ r.sparams = none := by
  unfold tryAdjust at h
  split at h
  · simp at h
  · split at h
    · simp at h
    · injection h with h; subst h; exact ⟨rfl, rfl⟩
    · split at h
      · simp at h
      · simp only at h
        split at h
        · injection h with h; subst h; exact ⟨rfl, rfl⟩
        · split at h
          · simp at h
          · split at h
            · injection h with h; subst h; exact ⟨rfl, rfl⟩
            · split at h
              · injection h with h; subst h; exact ⟨rfl, rfl⟩
              · injection h with h; subst h; exact ⟨rfl, rfl⟩
              · split at h <;> (injection h with h; subst h; simp at hok)

/-- `tryAdjust` reports a cluster failure only together with a node failure. -/
theorem tryAdjust_cluster_fail (inv : Cluster) (node : Nat) (res : Resources)
    (r : TryAdjustResult) (h : tryAdjust inv node res = some r) (hc : r.clusterOk = false) :
    r.nodeOk = false := by
  cases hn : r.nodeOk with
  | false => rfl
  | true =>
    obtain ⟨_, _, _, _, _, _, _, _, _, _, _, _, _, _, _, _, _, _, _, hcl⟩ :=
      tryAdjust_ok_inv inv node res r h hn
    rw [hc] at hcl
    exact absurd hcl (by simp)

/-- `tryAdjust` keeps every pair of the receiver within capacity. -/
theorem tryAdjust_valid (inv : Cluster) (node : Nat) (res : Resources) (r : TryAdjustResult)
    (h : tryAdjust inv node res = some r) (hv : inv.Valid) : r.inv.Valid := by
  cases hn : r.nodeOk with
  | false => rw [(tryAdjust_fail_inv inv node res r h hn).1]; exact hv
  | true =>
    obtain ⟨nd, c, cpu, g, mem, m, nd2, pools, hnd, _, hcpu, hg, _, _, hm, hst, hinv, _⟩ :=
      tryAdjust_ok_inv inv node res r h hn
    have hndv : nd.Valid := hv.1 nd (List.getElem?_mem hnd)
    have hcv : cpu.Valid := by
      have := SubMilliNLZ_valid nd.Resources.CPU c.Units hndv.1
      rw [hcpu] at this
      exact this
    have hgv := tryAdjustGPU_valid _ _ _ _ hndv.2.1 hg
    have hmv : m.Valid := by
      have := SubNLZ_valid nd.Resources.Memory mem.Quantity hndv.2.2.1
      rw [hm] at this
      exact this
    have hres := adjustStorage_valid _ _ _ _ _
      (show Node.Valid (debitNode nd cpu g.rp m) from ⟨hcv, hgv, hmv, hndv.2.2.2⟩) hv.2 hst
    rw [hinv]
    refine ⟨fun x hx => ?_, hres.2⟩
    rcases List.mem_or_eq_of_mem_set hx with hx | rfl
    · exact hv.1 x hx
    · exact hres.1

/-! ## What `tryAdjust` writes to `*res` -/

theorem Shape.refl (a : Resources) : Shape a a := ⟨rfl, rfl, rfl, rfl, rfl⟩

theorem Shape.trans {a b c : Resources} (h1 : Shape a b) (h2 : Shape b c) : Shape a c :=
  ⟨h1.1.trans h2.1, h1.2.1.trans h2.2.1, h1.2.2.1.trans h2.2.2.1,
    h1.2.2.2.1.trans h2.2.2.2.1, h1.2.2.2.2.trans h2.2.2.2.2⟩

theorem gpuScan_units (rp : GPU) (res : ResGPU) (sp : SchedulerParams) (attrs : GPUAttributes)
    (infos : List GPUInfo) (n : Nat) : (gpuScan rp res sp attrs infos n).res.Units = res.Units := by
  induction infos generalizing n with
  | nil => simp [gpuScan]
  | cons info rest ih =>
    unfold gpuScan
    split
    · exact ih n
    · split
      · split <;> rfl
      · exact ih (n - 1)

theorem tryAdjustGPU_units (rp : GPU) (g : ResGPU) (sp : SchedulerParams) (out : GPUAdjust)
    (h : tryAdjustGPU rp (some g) sp = some out) : out.res.Units = g.Units := by
  simp only [tryAdjustGPU] at h
  split at h
  · injection h with h; subst h; rfl
  · split at h
    · injection h with h; subst h; rfl
    · split at h
      · injection h with h; subst h; rfl
      · injection h with h; subst h; exact gpuScan_units _ _ _ _ _ _

theorem tryAdjustGPU_some (rp : GPU) (res : Option ResGPU) (sp : SchedulerParams)
    (out : GPUAdjust) (h : tryAdjustGPU rp res sp = some out) : ∃ g, res = some g := by
  cases res with
  | none => simp [tryAdjustGPU] at h
  | some g => exact ⟨g, rfl⟩

/-- `tryAdjust` changes `*res` at most in the GPU attributes. -/
theorem tryAdjust_shape (inv : Cluster) (node : Nat) (res : Resources) (r : TryAdjustResult)
    (h : tryAdjust inv node res = some r) : Shape res r.res := by
  have key : ∀ g : GPUAdjust, tryAdjustGPU (inv.Nodes[node]?.map (fun nd => nd.Resources.GPU)
      |>.getD ⟨⟨0, 0, 0⟩, []⟩) res.GPU SchedulerParams.zero = some g →
      Shape res { res with GPU := some g.res } := by
    intro g hg
    obtain ⟨g0, hg0⟩ := tryAdjustGPU_some _ _ _ _ hg
    rw [hg0] at hg
    refine ⟨rfl, rfl, rfl, rfl, ?_⟩
    simp [hg0, tryAdjustGPU_units _ _ _ _ hg]
  unfold tryAdjust at h
  split at h
  · simp at h
  · rename_i nd hnd
    simp only [hnd, Option.map_some', Option.getD_some] at key
    split at h
    · simp at h
    · injection h with h; subst h; exact Shape.refl _
    · split at h
      · simp at h
      · rename_i g hg
        have hs := key g hg
        simp only at h
        split at h
        · injection h with h; subst h; exact hs
        · split at h
          · simp at h
          · split at h
            · injection h with h; subst h; exact hs
            · split at h
              · injection h with h; subst h; exact hs
              · injection h with h; subst h; exact hs
              · split at h <;> (injection h with h; subst h; exact hs)

/-! ## Debits of one placement -/

theorem SubNLZ_true (m m1 : ResourcePair) (q : Nat) (h : m.SubNLZ q = (m1, true)) :
    m1 = { m with Allocated := m.Allocated + NewQuantity q } := by
  unfold ResourcePair.SubNLZ at h
  split at h
  · simp at h
  · simp only [Prod.mk.injEq, and_true] at h
    exact h.symm

theorem SubMilliNLZ_true (m m1 : ResourcePair) (q : Nat) (h : m.SubMilliNLZ q = (m1, true)) :
    m1 = { m with Allocated := m.Allocated + q } := by
  unfold ResourcePair.SubMilliNLZ at h
  split at h
  · simp at h
  · simp only [Prod.mk.injEq, and_true] at h
    exact h.symm

theorem adjustStorage_debits (sts : List ResStorage) (nd nd2 : Node) (pools pools2 : List Storage)
    (h : adjustStorage sts nd pools = .placed nd2 pools2) :
    nd2.Resources.CPU = nd.Resources.CPU ∧ nd2.Resources.GPU = nd.Resources.GPU ∧
      nd2.Name = nd.Name ∧ nd2.Capabilities = nd.Capabilities ∧
      nd2.Resources.Memory.Allocated =
        nd.Resources.Memory.Allocated + NewQuantity (ramStorage sts) := by
  induction sts generalizing nd pools with
  | nil =>
    simp only [adjustStorage, StorageStep.placed.injEq] at h
    obtain ⟨rfl, rfl⟩ := h
    simp [ramStorage, NewQuantity]
  | cons s rest ih =>
    unfold adjustStorage at h
    unfold ramStorage
    split at h
    · simp at h
    · rename_i attrs hattrs
      rw [hattrs]
      split at h
      · rename_i hnp
        split at h
        · rename_i hram
          split at h
          · simp at h
          · rename_i m heq
            have hm := SubNLZ_true _ _ _ heq
            obtain ⟨h1, h2, h3, h4, h5⟩ := ih _ _ h
            refine ⟨h1, h2, h3, h4, ?_⟩
            simp only [hm] at h5
            simp only [hnp, hram, Bool.true_and, beq_self_eq_true, ↓reduceIte]
            simp only [NewQuantity] at h5 ⊢
            omega
        · rename_i hram
          unfold tryAdjustEphemeralStorage at h
          split at h
          · simp at h
          · obtain ⟨h1, h2, h3, h4, h5⟩ := ih _ _ h
            refine ⟨h1, h2, h3, h4, ?_⟩
            simp only at h5
            have : (attrs.Class == StorageClassRAM) = false := by simpa using hram
            simp only [this, Bool.and_false, Bool.false_eq_true, ↓reduceIte]
            simp only [NewQuantity] at h5 ⊢
            omega
      · rename_i hp
        split at h
        · simp at h
        · split at h
          · obtain ⟨h1, h2, h3, h4, h5⟩ := ih _ _ h
            refine ⟨h1, h2, h3, h4, ?_⟩
            have : (!attrs.Persistent) = false := by simpa using hp
            simp only [this, Bool.false_and, Bool.false_eq_true, ↓reduceIte]
            simp only [NewQuantity] at h5 ⊢
            omega
          · simp at h
          · simp at h

theorem sum_map_set {α : Type} (f : α → Nat) (l : List α) (i : Nat) (x y : α)
    (h : l[i]? = some x) : ((l.set i y).map f).sum + f x = (l.map f).sum + f y := by
  induction l generalizing i with
  | nil => simp at h
  | cons a t ih =>
    cases i with
    | zero =>
      simp only [List.getElem?_cons_zero, Option.some.injEq] at h
      subst h
      simp only [List.set_cons_zero, List.map_cons, List.sum_cons]
      omega
    | succ j =>
      simp only [List.getElem?_cons_succ] at h
      have := ih j h
      simp only [List.set_cons_succ, List.map_cons, List.sum_cons]
      omega

/-- A successful `tryAdjust` debits the CPU and the memory of the cluster by
what one replica asks for. -/
theorem tryAdjust_debits (inv : Cluster) (node : Nat) (res : Resources) (r : TryAdjustResult)
    (h : tryAdjust inv node res = some r) (hok : r.nodeOk = true) :
    cpuAllocated r.inv = cpuAllocated inv + NewMilliQuantity (cpuUnits res) ∧
      memoryAllocated r.inv = memoryAllocated inv + NewQuantity (memoryUnits res) := by
  obtain ⟨nd, c, cpu, g, mem, m, nd2, pools, hnd, hc, hcpu, hg, _, hmem, hm, hst, hinv, _⟩ :=
    tryAdjust_ok_inv inv node res r h hok
  obtain ⟨h1, _, _, _, h5⟩ := adjustStorage_debits _ _ _ _ _ hst
  have hcpu1 := SubMilliNLZ_true _ _ _ hcpu
  have hm1 := SubNLZ_true _ _ _ hm
  simp only [debitNode] at h1 h5
  rw [hinv]
  constructor
  · have := sum_map_set (fun nd : Node => nd.Resources.CPU.Allocated) inv.Nodes node nd nd2 hnd
    simp only [h1, hcpu1] at this
    simp only [cpuAllocated, cpuUnits, hc, NewMilliQuantity]
    omega
  · have := sum_map_set (fun nd : Node => nd.Resources.Memory.Allocated) inv.Nodes node nd nd2 hnd
    simp only [h5, hm1] at this
    simp only [memoryAllocated, memoryUnits, hmem]
    simp only [NewQuantity] at this ⊢
    omega

/-! ## The placement loop: invariant -/

theorem getElem?_lt {α : Type} {l : List α} {i : Nat} {x : α} (h : l[i]? = some x) :
    i < l.length := by
  obtain ⟨hlt, _⟩ := List.getElem?_eq_some_iff.mp h
  exact hlt

theorem sum_map_modify {α : Type} (g : α → Nat) (f : α → α) (l : List α) (i : Nat) (x : α)
    (h : l[i]? = some x) :
    ((List.modify f i l).map g).sum + g x = (l.map g).sum + g (f x) := by
  induction l generalizing i with
  | nil => simp at h
  | cons a t ih =>
    cases i with
    | zero =>
      simp only [List.getElem?_cons_zero, Option.some.injEq] at h
      subst h
      simp only [List.modify_zero_cons, List.map_cons, List.sum_cons]
      omega
    | succ j =>
      simp only [List.getElem?_cons_succ] at h
      have := ih j h
      simp only [List.modify_succ_cons, List.map_cons, List.sum_cons]
      omega

theorem sum_map_eraseIdx {α : Type} (g : α → Nat) (l : List α) (i : Nat) (x : α)
    (h : l[i]? = some x) : ((l.eraseIdx i).map g).sum + g x = (l.map g).sum := by
  induction l generalizing i with
  | nil => simp at h
  | cons a t ih =>
    cases i with
    | zero =>
      simp only [List.getElem?_cons_zero, Option.some.injEq] at h
      subst h
      simp only [List.eraseIdx_cons_zero, List.map_cons, List.sum_cons]
      omega
    | succ j =>
      simp only [List.getElem?_cons_succ] at h
      have := ih j h
      simp only [List.eraseIdx_cons_succ, List.map_cons, List.sum_cons]
      omega

theorem cparamsGet_set (m : ReservationClusterSettings) (k k1 : Nat)
    (v : Option SchedulerParams) :
    cparamsGet (cparamsSet m k v) k1 = if k = k1 then v else cparamsGet m k1 := by
  induction m with
  | nil => simp [cparamsSet, cparamsGet]
  | cons e rest ih =>
    obtain ⟨a, w⟩ := e
    unfold cparamsSet
    by_cases hak : a = k
    · subst hak
      by_cases hk : a = k1 <;> simp [cparamsGet, hk]
    · by_cases hk : k = k1
      · subst hk; simp [hak, cparamsGet, ih]
      · simp [hak, hk, cparamsGet, ih]

theorem setCount_get (rs : List ResourceUnit) (i n j : Nat) :
    (setCount rs i n)[j]? =
      (rs[j]?).map (fun u => if i = j then { u with Count := n } else u) := by
  simp only [setCount, List.getElem?_modify]
  rfl

theorem setResources_get (rs : List ResourceUnit) (i j : Nat) (r : Resources) :
    (setResources rs i r)[j]? =
      (rs[j]?).map (fun u => if i = j then { u with Resources := r } else u) := by
  simp only [setResources, List.getElem?_modify]
  rfl

theorem setCount_length (rs : List ResourceUnit) (i n : Nat) :
    (setCount rs i n).length = rs.length := by
  simp [setCount]

theorem setResources_length (rs : List ResourceUnit) (i : Nat) (r : Resources) :
    (setResources rs i r).length = rs.length := by
  simp [setResources]

theorem cpuDemand_setCount (rs : List ResourceUnit) (i n : Nat) (u : ResourceUnit)
    (h : rs[i]? = some u) (hn : u.Count = n + 1) :
    cpuDemand (setCount rs i n) + cpuUnits u.Resources = cpuDemand rs := by
  have := sum_map_modify (fun u : ResourceUnit => u.Count * cpuUnits u.Resources)
    (fun u => { u with Count := n }) rs i u h
  simp only [hn, Nat.add_mul, Nat.one_mul] at this
  simp only [cpuDemand, setCount]
  omega

theorem memoryDemand_setCount (rs : List ResourceUnit) (i n : Nat) (u : ResourceUnit)
    (h : rs[i]? = some u) (hn : u.Count = n + 1) :
    memoryDemand (setCount rs i n) + memoryUnits u.Resources = memoryDemand rs := by
  have := sum_map_modify (fun u : ResourceUnit => u.Count * memoryUnits u.Resources)
    (fun u => { u with Count := n }) rs i u h
  simp only [hn, Nat.add_mul, Nat.one_mul] at this
  simp only [memoryDemand, setCount]
  omega

theorem DistinctIDs.index_eq {us : List ResourceUnit} (h : DistinctIDs us) {i j : Nat}
    {a b : ResourceUnit} (hi : us[i]? = some a) (hj : us[j]? = some b)
    (hid : a.Resources.ID = b.Resources.ID) : i = j := by
  have hi1 : (us.map (fun u => u.Resources.ID))[i]? = some a.Resources.ID := by
    simp [List.getElem?_map, hi]
  have hj1 : (us.map (fun u => u.Resources.ID))[j]? = some b.Resources.ID := by
    simp [List.getElem?_map, hj]
  obtain ⟨hil, hie⟩ := List.getElem?_eq_some_iff.mp hi1
  obtain ⟨hjl, hje⟩ := List.getElem?_eq_some_iff.mp hj1
  exact (List.Nodup.getElem_inj_iff h).mp (by rw [hie, hje, hid])

theorem initState_inv (inv : Cluster) (reservation : ReservationGroup) :
    Inv reservation.Resources inv (initState inv reservation) := by
  have hmap : reservation.Resources.map (fun u => (⟨u.Resources, u.Count⟩ : ResourceUnit)) =
      reservation.Resources := by
    simp
  refine ⟨?_, ?_, ?_, ?_, ?_, ?_, ?_, ?_, ?_, ?_⟩ <;>
    simp only [initState, hmap]
  · exact Nat.le_refl _
  · intro i u h; exact ⟨u, h, rfl, Nat.le_refl _⟩
  · intro i a h; exact ⟨a, h, rfl, Shape.refl _⟩
  · intro _; trivial
  · intro _; trivial
  · intro h; exact absurd rfl h
  · intro c hc; simp at hc
  · intro c hc; simp at hc
  · intro _ _ c hc; simp at hc

theorem afterCall_adj_other (st : AdjustState) (i nodeIdx : Nat) (v : Bool)
    (adjusted : Resources) (r : TryAdjustResult) (j : Nat) (hj : j ≠ i) :
    (afterCall st i nodeIdx v adjusted r).adjustedResources[j]? = st.adjustedResources[j]? := by
  cases v with
  | true => rfl
  | false =>
    simp only [afterCall, Bool.false_eq_true, ↓reduceIte, setResources_get]
    cases st.adjustedResources[j]? with
    | none => rfl
    | some a => simp [Ne.symm hj]

theorem afterCall_adj_self (st : AdjustState) (i nodeIdx : Nat) (v : Bool)
    (adjusted : Resources) (r : TryAdjustResult) (a : ResourceUnit)
    (ha : st.adjustedResources[i]? = some a) :
    (afterCall st i nodeIdx v adjusted r).adjustedResources[i]? =
      some (if v then a else { a with Resources := r.res }) := by
  cases v with
  | true => simpa [afterCall] using ha
  | false => simp [afterCall, setResources_get, ha]

/-- What holds right after a call of `tryAdjust` made at the head of the
replica loop. -/
theorem afterCall_mid {orig : List ResourceUnit} {inv0 : Cluster} {i nodeIdx : Nat} {v : Bool}
    {n : Nat} {adjusted : Resources} {st : AdjustState} {r : TryAdjustResult}
    (hP : PassInv orig inv0 i v (n + 1) adjusted st)
    (hr : tryAdjust st.currInventory nodeIdx adjusted = some r) :
    (afterCall st i nodeIdx v adjusted r).adjustedResources.length = orig.length ∧
    (∀ (j : Nat) (a : ResourceUnit),
      (afterCall st i nodeIdx v adjusted r).adjustedResources[j]? = some a →
      ∃ o, orig[j]? = some o ∧ a.Count = o.Count ∧ Shape o.Resources a.Resources) ∧
    (∀ c ∈ (afterCall st i nodeIdx v adjusted r).trace,
      tryAdjust c.inv c.node c.res = some c.result) ∧
    (∀ c ∈ (afterCall st i nodeIdx v adjusted r).trace, c.adjustedGroup = true →
      ∀ (u o : ResourceUnit), st.resources[c.group]? = some u → orig[c.group]? = some o →
        u.Count < o.Count) ∧
    (DistinctIDs orig → ∀ c ∈ st.trace, c.adjustedGroup = true → c.result.nodeOk = true →
      ∃ a, (afterCall st i nodeIdx v adjusted r).adjustedResources[c.group]? = some a ∧
        c.result.res = a.Resources ∧ c.result.sparams = cparamsGet st.cparams a.Resources.ID) := by
  obtain ⟨a, ha, hadj⟩ := hP.adj
  obtain ⟨u, hu, hcnt⟩ := hP.cnt
  have hshape := tryAdjust_shape _ _ _ _ hr
  refine ⟨?_, ?_, ?_, ?_, ?_⟩
  · cases v with
    | true => exact hP.lenA
    | false => simpa [afterCall, setResources_length] using hP.lenA
  · intro j b hb
    by_cases hj : j = i
    · subst hj
      rw [afterCall_adj_self _ _ _ _ _ _ a ha] at hb
      injection hb with hb
      obtain ⟨o, ho, hc, hs⟩ := hP.adjEq j a ha
      refine ⟨o, ho, ?_, ?_⟩
      · subst hb; cases v <;> exact hc
      · subst hb
        cases v with
        | true => exact hs
        | false =>
          simp only [Bool.false_eq_true, ↓reduceIte]
          rw [hadj] at hs
          exact hs.trans hshape
    · rw [afterCall_adj_other _ _ _ _ _ _ j hj] at hb
      exact hP.adjEq j b hb
  · intro c hc
    simp only [afterCall, List.mem_append, List.mem_singleton] at hc
    rcases hc with hc | rfl
    · exact hP.call c hc
    · exact hr
  · intro c hc hv u1 o hu1 ho
    simp only [afterCall, List.mem_append, List.mem_singleton] at hc
    rcases hc with hc | rfl
    · exact hP.ver c hc hv u1 o hu1 ho
    · simp only at hv hu1 ho
      rw [hu] at hu1
      injection hu1 with hu1
      subst hu1
      have := hP.vlt hv o ho
      omega
  · intro hd c hc hv hok
    obtain ⟨b, hb, h1, h2⟩ := hP.fin hP.noerr hd c hc hv hok
    by_cases hj : c.group = i
    · cases hvv : v with
      | true =>
        subst hvv
        exact ⟨b, by simpa [afterCall] using hb, h1, h2⟩
      | false =>
        have := hP.unv hvv c hc hj
        rw [hv] at this
        exact absurd this (by simp)
    · exact ⟨b, by rw [afterCall_adj_other _ _ _ _ _ _ _ hj]; exact hb, h1, h2⟩

theorem Shape.units {a b : Resources} (h : Shape a b) :
    cpuUnits a = cpuUnits b ∧ memoryUnits a = memoryUnits b := by
  obtain ⟨_, h2, h3, h4, _⟩ := h
  simp [cpuUnits, memoryUnits, h2, h3, h4]

/-- A failing call leaves the invariant in place. -/
theorem step_fail {orig : List ResourceUnit} {inv0 : Cluster} {i nodeIdx : Nat} {v : Bool}
    {n : Nat} {adjusted : Resources} {st : AdjustState} {r : TryAdjustResult}
    (hP : PassInv orig inv0 i v (n + 1) adjusted st)
    (hr : tryAdjust st.currInventory nodeIdx adjusted = some r) (hok : r.nodeOk = false) :
    Inv orig inv0 (afterCall st i nodeIdx v adjusted r) := by
  obtain ⟨m1, m2, m3, m4, m5⟩ := afterCall_mid hP hr
  have hinv := (tryAdjust_fail_inv _ _ _ _ hr hok).1
  refine ⟨m1, hP.lenR, hP.resEq, m2, ?_, ?_, ?_, m3, m4, ?_⟩
  · intro _
    have := hP.cpu hP.noerr
    simpa [afterCall, hinv] using this
  · intro _
    have := hP.mem hP.noerr
    simpa [afterCall, hinv] using this
  · intro h
    exact absurd hP.noerr h
  · intro _ hd c hc hv hcok
    simp only [afterCall, List.mem_append, List.mem_singleton] at hc
    rcases hc with hc | rfl
    · exact m5 hd c hc hv hcok
    · simp only at hcok
      rw [hok] at hcok
      exact absurd hcok (by simp)

/-- A mismatch leaves the invariant in place (with the error set). -/
theorem step_mismatch {orig : List ResourceUnit} {inv0 : Cluster} {i nodeIdx : Nat} {v : Bool}
    {n : Nat} {adjusted : Resources} {st : AdjustState} {r : TryAdjustResult}
    (hP : PassInv orig inv0 i v (n + 1) adjusted st)
    (hr : tryAdjust st.currInventory nodeIdx adjusted = some r) :
    Inv orig inv0
      { afterCall st i nodeIdx v adjusted r with err := some .ErrGroupResourceMismatch } := by
  obtain ⟨m1, m2, m3, m4, _⟩ := afterCall_mid hP hr
  obtain ⟨u, hu, _⟩ := hP.cnt
  refine ⟨m1, hP.lenR, hP.resEq, m2, ?_, ?_, ?_, m3, m4, ?_⟩
  · intro h; simp at h
  · intro h; simp at h
  · intro _ hnil
    have : st.resources = [] := hnil
    rw [this] at hu
    simp at hu
  · intro h; simp at h

/-- A placed replica leads to the head of the loop again. -/
theorem step_place {orig : List ResourceUnit} {inv0 : Cluster} {i nodeIdx : Nat} {v : Bool}
    {n : Nat} {adjusted : Resources} {st : AdjustState} {r : TryAdjustResult}
    (hP : PassInv orig inv0 i v (n + 1) adjusted st)
    (hr : tryAdjust st.currInventory nodeIdx adjusted = some r) (hok : r.nodeOk = true)
    (hchk : v = true → r.res = adjusted ∧ r.sparams = cparamsGet st.cparams r.res.ID) :
    PassInv orig inv0 i v n r.res (afterPlace st i nodeIdx v n adjusted r) := by
  obtain ⟨m1, m2, m3, m4, m5⟩ := afterCall_mid hP hr
  obtain ⟨a, ha, hadj⟩ := hP.adj
  obtain ⟨u, hu, hcnt⟩ := hP.cnt
  obtain ⟨o, ho, huo, hule⟩ := hP.resEq i u hu
  obtain ⟨o1, ho1, hac, has⟩ := hP.adjEq i a ha
  rw [ho] at ho1
  injection ho1 with ho1
  subst ho1
  have hshape := tryAdjust_shape _ _ _ _ hr
  have hdeb := tryAdjust_debits _ _ _ _ hr hok
  have hunits : cpuUnits adjusted = cpuUnits u.Resources ∧
      memoryUnits adjusted = memoryUnits u.Resources := by
    rw [← hadj, huo]
    exact ⟨has.units.1.symm, has.units.2.symm⟩
  have hself := afterCall_adj_self st i nodeIdx v adjusted r a ha
  refine ⟨⟨m1, ?_, ?_, m2, ?_, ?_, ?_, m3, ?_, ?_⟩, hP.noerr, ?_, ?_, ?_, ?_⟩
  · simpa [afterPlace, afterCall, setCount_length] using hP.lenR
  · intro j w hw
    simp only [afterPlace, afterCall, setCount_get] at hw
    cases hj : st.resources[j]? with
    | none => rw [hj] at hw; simp at hw
    | some w0 =>
      rw [hj] at hw
      simp only [Option.map_some', Option.some.injEq] at hw
      obtain ⟨o2, ho2, h1, h2⟩ := hP.resEq j w0 hj
      by_cases hij : i = j
      · subst hij
        rw [hu] at hj
        injection hj with hj
        subst hj
        simp only [↓reduceIte] at hw
        subst hw
        exact ⟨o2, ho2, h1, by simp only; omega⟩
      · simp only [hij, ↓reduceIte] at hw
        subst hw
        exact ⟨o2, ho2, h1, h2⟩
  · intro _
    have h1 := hP.cpu hP.noerr
    have h2 := cpuDemand_setCount st.resources i n u hu hcnt
    have h3 := hdeb.1
    simp only [afterPlace, afterCall]
    simp only [NewMilliQuantity] at h3
    omega
  · intro _
    have h1 := hP.mem hP.noerr
    have h2 := memoryDemand_setCount st.resources i n u hu hcnt
    have h3 := hdeb.2
    simp only [afterPlace, afterCall]
    simp only [NewQuantity] at h1 h3 ⊢
    omega
  · intro h
    exact absurd hP.noerr h
  · intro c hc hv w o2 hw ho2
    simp only [afterPlace, afterCall, setCount_get] at hw
    cases hj : st.resources[c.group]? with
    | none => rw [hj] at hw; simp at hw
    | some w0 =>
      rw [hj] at hw
      simp only [Option.map_some', Option.some.injEq] at hw
      have hlt := m4 c hc hv w0 o2 hj ho2
      by_cases hij : i = c.group
      · rw [← hij, hu] at hj
        injection hj with hj
        subst hj
        simp only [hij, ↓reduceIte] at hw
        subst hw
        simp only
        omega
      · simp only [hij, ↓reduceIte] at hw
        subst hw
        exact hlt
  · intro _ hd c hc hv hcok
    have hc1 : c ∈ st.trace ∨
        c = ⟨i, nodeIdx, v, st.currInventory, adjusted, r, st.resources⟩ := by
      simpa [afterPlace, afterCall] using hc
    rcases hc1 with hc1 | rfl
    · obtain ⟨b, hb, h1, h2⟩ := m5 hd c hc1 hv hcok
      refine ⟨b, hb, h1, ?_⟩
      cases hvv : v with
      | true => simpa [afterPlace, hvv] using h2
      | false =>
        have hne : c.group ≠ i := by
          intro hci
          have := hP.unv hvv c hc1 hci
          rw [hv] at this
          exact absurd this (by simp)
        simp only [afterPlace, hvv, Bool.false_eq_true, ↓reduceIte, cparamsGet_set]
        have hbid : r.res.ID ≠ b.Resources.ID := by
          intro hid
          rw [afterCall_adj_other _ _ _ _ _ _ _ hne] at hb
          obtain ⟨o3, ho3, _, hs3⟩ := hP.adjEq _ _ hb
          have h4 : o.Resources.ID = o3.Resources.ID := by
            rw [hs3.1, ← hid, ← hshape.1, ← hadj, has.1]
          exact hne (DistinctIDs.index_eq hd ho ho3 h4).symm
        simp only [hbid, ↓reduceIte]
        exact h2
    · simp only at hv
      subst hv
      obtain ⟨h1, h2⟩ := hchk rfl
      refine ⟨a, by simpa using hself, ?_, ?_⟩
      · simp only; rw [h1, hadj]
      · simp only [afterPlace, ↓reduceIte]
        rw [hadj, ← h1]
        exact h2
  · refine ⟨{ u with Count := n }, ?_, rfl⟩
    simp [afterPlace, afterCall, setCount_get, hu]
  · cases hvv : v with
    | true =>
      refine ⟨a, ?_, ?_⟩
      · simpa [afterPlace, hvv] using hself
      · rw [hadj]; exact (hchk hvv).1.symm
    | false =>
      refine ⟨{ a with Resources := r.res }, ?_, rfl⟩
      simpa [afterPlace, hvv] using hself
  · intro hvv c hc hci
    have hc1 : c ∈ st.trace ∨
        c = ⟨i, nodeIdx, v, st.currInventory, adjusted, r, st.resources⟩ := by
      simpa [afterPlace, afterCall] using hc
    rcases hc1 with hc1 | rfl
    · exact hP.unv hvv c hc1 hci
    · exact hvv
  · intro hvv o2 ho2
    have := hP.vlt hvv o2 ho2
    omega

theorem replicaLoop_succ (nodeIdx i : Nat) (v : Bool) (n : Nat) (adjusted : Resources)
    (st : AdjustState) :
    replicaLoop nodeIdx i v (n + 1) adjusted st =
      match tryAdjust st.currInventory nodeIdx adjusted with
      | none => (.fault, st)
      | some r =>
        if !r.clusterOk then (.breakNodes, afterCall st i nodeIdx v adjusted r)
        else if !r.nodeOk then (.continueNodes, afterCall st i nodeIdx v adjusted r)
        else if v then
          match (afterCall st i nodeIdx v adjusted r).adjustedResources[i]? with
          | none => (.fault, afterCall st i nodeIdx v adjusted r)
          | some a =>
            if r.res ≠ a.Resources then
              (.breakNodes,
                { afterCall st i nodeIdx v adjusted r with err := some .ErrGroupResourceMismatch })
            else if r.sparams ≠ cparamsGet st.cparams r.res.ID then
              (.breakNodes,
                { afterCall st i nodeIdx v adjusted r with err := some .ErrGroupResourceMismatch })
            else replicaLoop nodeIdx i v n r.res (afterPlace st i nodeIdx v n adjusted r)
        else replicaLoop nodeIdx i v n r.res (afterPlace st i nodeIdx v n adjusted r) := by
  cases v <;> rfl

/-- What the replica loop establishes on exit. -/
theorem replicaLoop_spec (orig : List ResourceUnit) (inv0 : Cluster) (nodeIdx i : Nat) (v : Bool)
    (n : Nat) (adjusted : Resources) (st : AdjustState)
    (hP : PassInv orig inv0 i v n adjusted st) :
    Inv orig inv0 (replicaLoop nodeIdx i v n adjusted st).2 ∧
      (replicaLoop nodeIdx i v n adjusted st).2.resources.length = st.resources.length ∧
      ((replicaLoop nodeIdx i v n adjusted st).1 = .next →
        (replicaLoop nodeIdx i v n adjusted st).2.err = none ∧
        ∃ u, (replicaLoop nodeIdx i v n adjusted st).2.resources[i]? = some u ∧ u.Count = 0) ∧
      ((replicaLoop nodeIdx i v n adjusted st).1 = .continueNodes →
        (replicaLoop nodeIdx i v n adjusted st).2.err = none) ∧
      (replicaLoop nodeIdx i v n adjusted st).1 ≠ .gotoNodes := by
  induction n generalizing adjusted st with
  | zero =>
    refine ⟨hP.toInv, rfl, fun _ => ⟨hP.noerr, hP.cnt⟩, fun h => ?_, ?_⟩
    · simp [replicaLoop] at h
    · simp [replicaLoop]
  | succ n ih =>
    rw [replicaLoop_succ]
    split
    · exact ⟨hP.toInv, rfl, fun h => by simp at h, fun h => by simp at h, by simp⟩
    · rename_i r hr
      have hcf := tryAdjust_cluster_fail _ _ _ _ hr
      split
      · rename_i hc
        have hc1 : r.clusterOk = false := by simpa using hc
        exact ⟨step_fail hP hr (hcf hc1), rfl, fun h => by simp at h, fun h => by simp at h,
          by simp⟩
      · split
        · rename_i hnk
          have hn1 : r.nodeOk = false := by simpa using hnk
          exact ⟨step_fail hP hr hn1, rfl, fun h => by simp at h, fun _ => hP.noerr, by simp⟩
        · rename_i hnk
          have hn1 : r.nodeOk = true := by simpa using hnk
          have hlen : (afterPlace st i nodeIdx v n adjusted r).resources.length =
              st.resources.length := by
            simp [afterPlace, afterCall, setCount_length]
          split
          · rename_i hv
            subst hv
            obtain ⟨a, ha, hadj⟩ := hP.adj
            have hself := afterCall_adj_self st i nodeIdx true adjusted r a ha
            simp only [↓reduceIte] at hself
            rw [hself]
            simp only
            split
            · exact ⟨step_mismatch hP hr, rfl, fun h => by simp at h,
                fun h => by simp at h, by simp⟩
            · rename_i hres
              split
              · exact ⟨step_mismatch hP hr, rfl, fun h => by simp at h,
                  fun h => by simp at h, by simp⟩
              · rename_i hsp
                have hres1 : r.res = adjusted := by
                  rw [← hadj]; exact not_not.mp hres
                have hsp1 : r.sparams = cparamsGet st.cparams r.res.ID := not_not.mp hsp
                have hP2 := step_place hP hr hn1 (fun _ => ⟨hres1, hsp1⟩)
                have := ih r.res _ hP2
                rw [hlen] at this
                exact this
          · rename_i hv
            have hv1 : v = false := by simpa using hv
            have hP2 := step_place hP hr hn1 (fun h => by rw [hv1] at h; simp at h)
            have := ih r.res _ hP2
            rw [hlen] at this
            exact this

/-- What the loop over the groups establishes at one node, entered at the last
group. -/
theorem groupLoop_spec (orig : List ResourceUnit) (inv0 : Cluster) (nodeIdx : Nat)
    (st : AdjustState) (hI : Inv orig inv0 st) (he : st.err = none) :
    Inv orig inv0 (groupLoop orig nodeIdx st.resources.length st).2 ∧
      ((groupLoop orig nodeIdx st.resources.length st).1 ≠ .breakNodes →
        (groupLoop orig nodeIdx st.resources.length st).1 ≠ .fault →
        (groupLoop orig nodeIdx st.resources.length st).2.err = none) := by
  generalize hk : st.resources.length = k
  cases k with
  | zero => exact ⟨hI, fun _ _ => he⟩
  | succ i =>
    have hil : i < st.resources.length := by omega
    obtain ⟨u, hu⟩ : ∃ u, st.resources[i]? = some u :=
      ⟨st.resources[i], List.getElem?_eq_getElem hil⟩
    obtain ⟨o, ho, huo, hule⟩ := hI.resEq i u hu
    have hia : i < st.adjustedResources.length := by
      rw [hI.lenA]; exact getElem?_lt ho
    obtain ⟨a, ha⟩ : ∃ a, st.adjustedResources[i]? = some a :=
      ⟨st.adjustedResources[i], List.getElem?_eq_getElem hia⟩
    have hP : PassInv orig inv0 i (!(o.Count == u.Count)) u.Count a.Resources st := by
      refine ⟨hI, he, ⟨u, hu, rfl⟩, ⟨a, ha, rfl⟩, ?_, ?_⟩
      · intro hv c hc hci
        have heq : o.Count = u.Count := by simpa using hv
        cases hcv : c.adjustedGroup with
        | false => rfl
        | true =>
          have := hI.ver c hc hcv u o (hci ▸ hu) (hci ▸ ho)
          omega
      · intro hv o1 ho1
        rw [ho] at ho1
        injection ho1 with ho1
        subst ho1
        have hne : o.Count ≠ u.Count := by simpa using hv
        omega
    have hspec := replicaLoop_spec orig inv0 nodeIdx i _ _ _ _ hP
    unfold groupLoop
    simp only [ho, hu, ha]
    cases hrl : replicaLoop nodeIdx i (!(o.Count == u.Count)) u.Count a.Resources st with
    | mk flow st1 =>
      rw [hrl] at hspec
      obtain ⟨hI1, hlen, hnext, hcont, hng⟩ := hspec
      simp only at hI1 hlen hnext hcont hng
      cases flow with
      | next =>
        obtain ⟨he1, u1, hu1, hc1⟩ := hnext rfl
        simp only [hu1, hc1, ↓reduceIte]
        refine ⟨?_, fun _ _ => he1⟩
        have hlast : i + 1 = st1.resources.length := by omega
        have hget : ∀ j, (st1.resources.eraseIdx i)[j]? = if j < i then st1.resources[j]? else none := by
          intro j
          rw [List.getElem?_eraseIdx]
          split
          · rfl
          · exact List.getElem?_eq_none (by omega)
        refine ⟨hI1.lenA, ?_, ?_, hI1.adjEq, ?_, ?_, ?_, hI1.call, ?_, hI1.fin⟩
        · simp only [List.length_eraseIdx]
          have := hI1.lenR
          split <;> omega
        · intro j w hw
          simp only [hget] at hw
          split at hw
          · exact hI1.resEq j w hw
          · simp at hw
        · intro h
          have h1 := hI1.cpu h
          have h2 := sum_map_eraseIdx (fun u : ResourceUnit => u.Count * cpuUnits u.Resources)
            st1.resources i u1 hu1
          simp only [hc1, Nat.zero_mul, Nat.add_zero] at h2
          simp only [cpuDemand] at h1 ⊢
          rw [h2]
          exact h1
        · intro h
          have h1 := hI1.mem h
          have h2 := sum_map_eraseIdx (fun u : ResourceUnit => u.Count * memoryUnits u.Resources)
            st1.resources i u1 hu1
          simp only [hc1, Nat.zero_mul, Nat.add_zero] at h2
          simp only [memoryDemand] at h1 ⊢
          rw [h2]
          exact h1
        · intro h
          exact absurd he1 h
        · intro c hc hv w o1 hw ho1
          simp only [hget] at hw
          split at hw
          · exact hI1.ver c hc hv w o1 hw ho1
          · simp at hw
      | continueNodes => exact ⟨hI1, fun _ _ => hcont rfl⟩
      | breakNodes => exact ⟨hI1, fun h => absurd rfl h⟩
      | gotoNodes => exact absurd rfl hng
      | fault => exact ⟨hI1, fun _ h => absurd rfl h⟩

/-- What the loop over the nodes establishes. -/
theorem nodesLoop_spec (orig : List ResourceUnit) (inv0 : Cluster) (remaining nodeIdx : Nat)
    (st : AdjustState) (hI : Inv orig inv0 st) (he : st.err = none) :
    Inv orig inv0 (nodesLoop orig remaining nodeIdx st).2 ∧
      ((nodesLoop orig remaining nodeIdx st).1 = .gotoNodes →
        (nodesLoop orig remaining nodeIdx st).2.err = none) := by
  induction remaining generalizing nodeIdx st with
  | zero => exact ⟨hI, fun _ => he⟩
  | succ k ih =>
    have hg := groupLoop_spec orig inv0 nodeIdx st hI he
    unfold nodesLoop
    cases hgl : groupLoop orig nodeIdx st.resources.length st with
    | mk flow st1 =>
      rw [hgl] at hg
      obtain ⟨hI1, he1⟩ := hg
      simp only at hI1 he1
      cases flow with
      | next => exact ih _ _ hI1 (he1 (by simp) (by simp))
      | continueNodes => exact ih _ _ hI1 (he1 (by simp) (by simp))
      | breakNodes => exact ⟨hI1, fun h => by simp at h⟩
      | gotoNodes => exact ⟨hI1, fun _ => he1 (by simp) (by simp)⟩
      | fault => exact ⟨hI1, fun h => by simp at h⟩

/-- The invariant holds in the state the placement loop ends in. -/
theorem placeLoop_spec (orig : List ResourceUnit) (inv0 : Cluster) (rounds : Nat)
    (st st1 : AdjustState) (hI : Inv orig inv0 st) (he : st.err = none)
    (h : placeLoop orig rounds st = some st1) : Inv orig inv0 st1 := by
  induction rounds generalizing st with
  | zero =>
    simp only [placeLoop, Option.some.injEq] at h
    exact h ▸ hI
  | succ k ih =>
    have hn := nodesLoop_spec orig inv0 st.currInventory.Nodes.length 0 st hI he
    unfold placeLoop at h
    cases hnl : nodesLoop orig st.currInventory.Nodes.length 0 st with
    | mk flow st2 =>
      rw [hnl] at hn h
      obtain ⟨hI2, he2⟩ := hn
      simp only at hI2 he2 h
      cases flow with
      | gotoNodes => exact ih st2 hI2 (he2 rfl) h
      | fault => simp at h
      | next => simp only [Option.some.injEq] at h; exact h ▸ hI2
      | continueNodes => simp only [Option.some.injEq] at h; exact h ▸ hI2
      | breakNodes => simp only [Option.some.injEq] at h; exact h ▸ hI2

/-- The invariant holds in the state `Adjust` leaves its loops with. -/
theorem adjust_loop_inv (inv : Cluster) (reservation : ReservationGroup) (st : AdjustState)
    (h : placeLoop reservation.Resources (reservation.Resources.length + 1)
      (initState inv reservation) = some st) :
    Inv reservation.Resources inv st :=
  placeLoop_spec _ _ _ _ _ (initState_inv inv reservation) rfl h

/-! ## The placement loop: what holds without any assumption -/

/-- The replica loop keeps every property of the working inventory that
`tryAdjust` keeps, and the number of groups. -/
theorem replicaLoop_keeps (P : Cluster → Prop)
    (hP : ∀ inv node res r, tryAdjust inv node res = some r → P inv → P r.inv)
    (nodeIdx i : Nat) (v : Bool) (n : Nat) (adjusted : Resources) (st : AdjustState)
    (h : P st.currInventory) :
    P (replicaLoop nodeIdx i v n adjusted st).2.currInventory ∧
      (replicaLoop nodeIdx i v n adjusted st).2.resources.length = st.resources.length ∧
      (replicaLoop nodeIdx i v n adjusted st).1 ≠ .gotoNodes := by
  induction n generalizing adjusted st with
  | zero => exact ⟨h, rfl, by simp [replicaLoop]⟩
  | succ n ih =>
    rw [replicaLoop_succ]
    split
    · exact ⟨h, rfl, by simp⟩
    · rename_i r hr
      have h1 : P (afterCall st i nodeIdx v adjusted r).currInventory := hP _ _ _ _ hr h
      have hlen : (afterPlace st i nodeIdx v n adjusted r).resources.length =
          st.resources.length := by
        simp [afterPlace, afterCall, setCount_length]
      have hnext := ih r.res (afterPlace st i nodeIdx v n adjusted r) h1
      rw [hlen] at hnext
      split
      · exact ⟨h1, rfl, by simp⟩
      · split
        · exact ⟨h1, rfl, by simp⟩
        · split
          · split
            · exact ⟨h1, rfl, by simp⟩
            · split
              · exact ⟨h1, rfl, by simp⟩
              · split
                · exact ⟨h1, rfl, by simp⟩
                · exact hnext
          · exact hnext

/-- The loop over the groups keeps every property of the working inventory
that `tryAdjust` keeps; it removes one group exactly when it ends with
`goto nodes`. -/
theorem groupLoop_keeps (P : Cluster → Prop)
    (hP : ∀ inv node res r, tryAdjust inv node res = some r → P inv → P r.inv)
    (orig : List ResourceUnit) (nodeIdx k : Nat) (st : AdjustState) (h : P st.currInventory) :
    P (groupLoop orig nodeIdx k st).2.currInventory ∧
      ((groupLoop orig nodeIdx k st).1 = .gotoNodes →
        (groupLoop orig nodeIdx k st).2.resources.length + 1 = st.resources.length) ∧
      ((groupLoop orig nodeIdx k st).1 ≠ .gotoNodes →
        (groupLoop orig nodeIdx k st).2.resources.length = st.resources.length) := by
  induction k generalizing st with
  | zero => exact ⟨h, fun h => by simp [groupLoop] at h, fun _ => rfl⟩
  | succ i ih =>
    unfold groupLoop
    split
    · rename_i o u a ho hu ha
      have hk := replicaLoop_keeps P hP nodeIdx i (!(o.Count == u.Count)) u.Count a.Resources st h
      dsimp only
      cases hrl : replicaLoop nodeIdx i (!(o.Count == u.Count)) u.Count a.Resources st with
      | mk flow st1 =>
        rw [hrl] at hk
        obtain ⟨h1, hlen, hng⟩ := hk
        simp only at h1 hlen hng
        cases flow with
        | next =>
          dsimp only
          cases hr1 : st1.resources[i]? with
          | none => exact ⟨h1, fun h => by simp at h, fun _ => hlen⟩
          | some r1 =>
            dsimp only
            by_cases hz : r1.Count = 0
            · simp only [hz, ↓reduceIte]
              refine ⟨h1, fun _ => ?_, fun h => by simp at h⟩
              have := getElem?_lt hr1
              simp only [List.length_eraseIdx, this, ↓reduceIte]
              omega
            · simp only [hz, ↓reduceIte]
              have := ih st1 h1
              rw [hlen] at this
              exact this
        | continueNodes => exact ⟨h1, fun h => by simp at h, fun _ => hlen⟩
        | breakNodes => exact ⟨h1, fun h => by simp at h, fun _ => hlen⟩
        | gotoNodes => exact absurd rfl hng
        | fault => exact ⟨h1, fun h => by simp at h, fun _ => hlen⟩
    · exact ⟨h, fun h => by simp at h, fun _ => rfl⟩

/-- The loop over the nodes keeps every property of the working inventory
that `tryAdjust` keeps; a `goto nodes` comes with one group fewer. -/
theorem nodesLoop_keeps (P : Cluster → Prop)
    (hP : ∀ inv node res r, tryAdjust inv node res = some r → P inv → P r.inv)
    (orig : List ResourceUnit) (remaining nodeIdx : Nat) (st : AdjustState)
    (h : P st.currInventory) :
    P (nodesLoop orig remaining nodeIdx st).2.currInventory ∧
      ((nodesLoop orig remaining nodeIdx st).1 = .gotoNodes →
        (nodesLoop orig remaining nodeIdx st).2.resources.length + 1 = st.resources.length) := by
  induction remaining generalizing nodeIdx st with
  | zero => exact ⟨h, fun h => by simp [nodesLoop] at h⟩
  | succ k ih =>
    have hg := groupLoop_keeps P hP orig nodeIdx st.resources.length st h
    unfold nodesLoop
    cases hgl : groupLoop orig nodeIdx st.resources.length st with
    | mk flow st1 =>
      rw [hgl] at hg
      obtain ⟨h1, hgo, hng⟩ := hg
      simp only at h1 hgo hng
      cases flow with
      | next =>
        have := ih (nodeIdx + 1) st1 h1
        rw [hng (by simp)] at this
        exact this
      | continueNodes =>
        have := ih (nodeIdx + 1) st1 h1
        rw [hng (by simp)] at this
        exact this
      | breakNodes => exact ⟨h1, fun h => by simp at h⟩
      | gotoNodes => exact ⟨h1, fun _ => hgo rfl⟩
      | fault => exact ⟨h1, fun h => by simp at h⟩

/-- The placement loop keeps every property of the working inventory that
`tryAdjust` keeps. -/
theorem placeLoop_keeps (P : Cluster → Prop)
    (hP : ∀ inv node res r, tryAdjust inv node res = some r → P inv → P r.inv)
    (orig : List ResourceUnit) (rounds : Nat) (st st1 : AdjustState) (h : P st.currInventory)
    (hl : placeLoop orig rounds st = some st1) : P st1.currInventory := by
  induction rounds generalizing st with
  | zero =>
    simp only [placeLoop, Option.some.injEq] at hl
    exact hl ▸ h
  | succ k ih =>
    have hn := nodesLoop_keeps P hP orig st.currInventory.Nodes.length 0 st h
    unfold placeLoop at hl
    cases hnl : nodesLoop orig st.currInventory.Nodes.length 0 st with
    | mk flow st2 =>
      rw [hnl] at hn hl
      obtain ⟨h2, _⟩ := hn
      simp only at h2 hl
      cases flow with
      | gotoNodes => exact ih st2 h2 hl
      | fault => simp at hl
      | next => simp only [Option.some.injEq] at hl; exact hl ▸ h2
      | continueNodes => simp only [Option.some.injEq] at hl; exact hl ▸ h2
      | breakNodes => simp only [Option.some.injEq] at hl; exact hl ▸ h2

/-- The rounds `placeLoop` is given are enough: with `len(resources) + 1`
passes it never stops for want of a pass, more passes change nothing. -/
theorem placeLoop_rounds (orig : List ResourceUnit) (m : Nat) (st : AdjustState)
    (hm : st.resources.length = m) (k : Nat) :
    placeLoop orig (m + 1 + k) st = placeLoop orig (m + 1) st := by
  induction m generalizing st with
  | zero =>
    have hn := (nodesLoop_keeps (fun _ => True) (fun _ _ _ _ _ _ => trivial) orig
      st.currInventory.Nodes.length 0 st trivial).2
    rw [show 0 + 1 + k = k + 1 from by omega]
    simp only [placeLoop]
    cases hnl : nodesLoop orig st.currInventory.Nodes.length 0 st with
    | mk flow st2 =>
      rw [hnl] at hn
      cases flow with
      | gotoNodes => have := hn rfl; omega
      | fault => rfl
      | next => rfl
      | continueNodes => rfl
      | breakNodes => rfl
  | succ m ih =>
    have hn := (nodesLoop_keeps (fun _ => True) (fun _ _ _ _ _ _ => trivial) orig
      st.currInventory.Nodes.length 0 st trivial).2
    rw [show m + 1 + 1 + k = (m + 1 + k) + 1 from by omega]
    simp only [placeLoop]
    cases hnl : nodesLoop orig st.currInventory.Nodes.length 0 st with
    | mk flow st2 =>
      rw [hnl] at hn
      cases flow with
      | gotoNodes =>
        have := hn rfl
        exact ih st2 (by simp only at this; omega)
      | fault => rfl
      | next => rfl
      | continueNodes => rfl
      | breakNodes => rfl

/-! ## C3: capacity is never exceeded -/

/-- C3: if every node resource pair (CPU, GPU, memory, ephemeral storage) and
every storage pool of the inventory satisfies `allocated ≤ allocatable` and
`Adjust` returns OK, the same holds in the resulting inventory. -/
theorem adjust_keeps_capacity (inv : Cluster) (reservation : ReservationGroup)
    (opts : List InventoryOption) (r : AdjustResult) (hv : inv.Valid)
    (h : Adjust inv reservation opts = some r) (hok : r.err = none) : r.inv.Valid := by
  unfold Adjust at h
  simp only at h
  split at h
  · simp at h
  · rename_i st hst
    have hval : st.currInventory.Valid :=
      placeLoop_keeps Cluster.Valid (fun inv node res r h hv => tryAdjust_valid inv node res r h hv)
        _ _ _ _ hv hst
    split at h
    · injection h with h
      subst h
      simp only
      split
      · exact hval
      · exact hv
    · split at h <;> (injection h with h; subst h; simp at hok)

/-- Witness of C3 on scenario 1. -/
theorem adjust_keeps_capacity_witness :
    scenario1Inv.Valid ∧
      ∃ r, Adjust scenario1Inv scenario1Res [] = some r ∧ r.err = none ∧ r.inv.Valid := by
  have he : (Adjust scenario1Inv scenario1Res []).map (fun r => r.err) = some none := by decide
  obtain ⟨r, hr, herr⟩ := Option.map_eq_some'.mp he
  exact ⟨by decide, r, hr, herr, adjust_keeps_capacity _ _ _ r (by decide) hr herr⟩

/-! ## C6: conservation of debits -/

/-- C6: when `Adjust` without `dry_run` returns OK, the sum over all nodes of CPU
allocated has grown by exactly the sum over groups of count × CPU milli-units,
and the sum over all nodes of memory allocated by exactly the sum over groups
of count × (memory quantity + quantities of the group's non-persistent
`"ram"`-class storage entries). Allocated quantities are held on the milli
scale: a CPU request of `q` milli-units adds `NewMilliQuantity q`, a memory
request of `q` bytes adds `NewQuantity q`. -/
theorem adjust_conserves_debits (inv : Cluster) (reservation : ReservationGroup)
    (opts : List InventoryOption) (r : AdjustResult) (hd : (applyOpts opts).DryRun = false)
    (h : Adjust inv reservation opts = some r) (hok : r.err = none) :
    cpuAllocated r.inv = cpuAllocated inv + NewMilliQuantity (cpuDemand reservation.Resources) ∧
      memoryAllocated r.inv =
        memoryAllocated inv + NewQuantity (memoryDemand reservation.Resources) := by
  unfold Adjust at h
  simp only [hd] at h
  split at h
  · simp at h
  · rename_i st hst
    have hI := adjust_loop_inv inv reservation st hst
    split at h
    · rename_i hlen
      have hnil : st.resources = [] := List.length_eq_zero.mp hlen
      have herr : st.err = none := by
        by_contra hne
        exact hI.errz hne hnil
      have h1 := hI.cpu herr
      have h2 := hI.mem herr
      simp only [hnil, cpuDemand, memoryDemand, List.map_nil, List.sum_nil, Nat.add_zero,
        NewQuantity, Nat.mul_zero] at h1 h2
      injection h with h
      subst h
      exact ⟨h1, h2⟩
    · split at h <;> (injection h with h; subst h; simp at hok)

/-- Witness of C6 on scenario 1: CPU 5000m / 100m and memory 32Gi / 1Gi, one
group of 1000m CPU and 1Gi memory, one replica: OK with CPU allocated 1100m
and memory allocated 2Gi. -/
theorem adjust_conserves_debits_witness :
    ∃ r, Adjust scenario1Inv scenario1Res [] = some r ∧ r.err = none ∧
      cpuAllocated r.inv = NewMilliQuantity 1100 ∧
      memoryAllocated r.inv = NewQuantity (2 * Gi) ∧
      r.inv.Nodes.map (fun nd => (nd.Resources.CPU.Allocated, nd.Resources.Memory.Allocated)) =
        [(NewMilliQuantity 1100, NewQuantity (2 * Gi))] := by
  have he : (Adjust scenario1Inv scenario1Res []).map (fun r => (r.err,
      r.inv.Nodes.map (fun nd => (nd.Resources.CPU.Allocated, nd.Resources.Memory.Allocated)))) =
      some (none, [(NewMilliQuantity 1100, NewQuantity (2 * Gi))]) := by decide
  obtain ⟨r, hr, hp⟩ := Option.map_eq_some'.mp he
  simp only [Prod.mk.injEq] at hp
  obtain ⟨h1, h2⟩ := adjust_conserves_debits scenario1Inv scenario1Res [] r (by decide) hr hp.1
  refine ⟨r, hr, hp.1, ?_, ?_, hp.2⟩
  · rw [h1]; decide
  · rw [h2]; decide

/-! ## C4: replicas of one group agree -/

/-- C5 fails as stated: on scenario 5 (nodeA with one a100, nodeB with one
h100, one group of two replicas asking for any nvidia model) `Adjust` does not
return GroupResourceMismatch. -/
theorem adjust_scenario5_not_mismatch :
    (Adjust scenario5Inv scenario5Res []).map (fun r => r.err) ≠
      some (some .ErrGroupResourceMismatch) := by
  decide

/-- C5 (amended): on scenario 5 `Adjust` returns InsufficientCapacity and leaves
the inventory unchanged: the first replica is placed on nodeA and rewrites the
group's GPU attributes to `vendor/nvidia/model/a100`, the second attempt on
nodeA fails for want of a GPU, and on nodeB the rewritten request matches no
info entry, so `tryAdjust` fails there at the node and no comparison is made. -/
theorem adjust_scenario5_insufficient :
    (Adjust scenario5Inv scenario5Res []).map (fun r => (r.err, r.inv, r.reservation)) =
        some (some .ErrInsufficientCapacity, scenario5Inv, scenario5Res) ∧
      (Adjust scenario5Inv scenario5Res []).map
          (fun r => r.trace.map (fun c => (c.node, c.adjustedGroup, c.res.GPU, c.result.nodeOk))) =
        some
          [(0, false, some ⟨1, [⟨"vendor/nvidia/model/*", "true"⟩]⟩, true),
           (0, false, some ⟨1, [⟨"vendor/nvidia/model/a100", "true"⟩]⟩, false),
           (1, true, some ⟨1, [⟨"vendor/nvidia/model/a100", "true"⟩]⟩, false)] := by
  constructor <;> decide

/-! ## C7: the canonical GPU request -/

theorem gpuKey_eq_canonicalKey (v : String) (info : GPUInfo) (attr : Option GPUModelAttributes) :
    gpuKey v info attr = canonicalKey v info.Name (ramOf attr) (interfaceOf attr) := by
  cases attr with
  | none => simp [gpuKey, canonicalKey, ramOf, interfaceOf]
  | some a =>
    simp only [gpuKey, canonicalKey, ramOf, interfaceOf, bne_iff_ne, ne_eq, ite_not]
    by_cases hr : a.RAM = "" <;> by_cases hi : a.Interface = "" <;>
      simp [hr, hi, String.append_assoc]

/-- The scan of the info list succeeds at the `reqCnt`-th matching entry. -/
theorem gpuScan_ok (rp : GPU) (res : ResGPU) (sp : SchedulerParams) (attrs : GPUAttributes)
    (infos : List GPUInfo) (n : Nat) (hn : 1 ≤ n)
    (hok : (gpuScan rp res sp attrs infos n).ok = true) :
    ∃ pre info post attr, infos = pre ++ info :: post ∧ gpuMatch attrs info = some attr ∧
      (pre.filter (fun x => (gpuMatch attrs x).isSome)).length + 1 = n ∧
      gpuScan rp res sp attrs infos n =
        ⟨{ rp with Quantity :=
            { rp.Quantity with Allocated := rp.Quantity.Allocated + NewQuantity res.Units } },
          { res with Attributes := [⟨gpuKey (toLower info.Vendor) info attr, "true"⟩] },
          ⟨⟨⟨toLower info.Vendor, info.Name⟩⟩⟩, true⟩ := by
  induction infos generalizing n with
  | nil => simp [gpuScan] at hok
  | cons info rest ih =>
    unfold gpuScan at hok ⊢
    cases hm : gpuMatch attrs info with
    | none =>
      simp only [hm] at hok ⊢
      obtain ⟨pre, x, post, attr, h1, h2, h3, h4⟩ := ih n hn hok
      refine ⟨info :: pre, x, post, attr, by simp [h1], h2, ?_, h4⟩
      simp [List.filter_cons, hm, h3]
    | some attr =>
      simp only [hm] at hok ⊢
      by_cases hz : n - 1 = 0
      · simp only [hz, ↓reduceIte] at hok ⊢
        cases hs : rp.Quantity.SubNLZ res.Units with
        | mk q b =>
          cases b with
          | false => simp [hs] at hok
          | true =>
            simp only [hs]
            have hq := SubNLZ_true _ _ _ hs
            refine ⟨[], info, rest, attr, rfl, hm, ?_, ?_⟩
            · simp only [List.filter_nil, List.length_nil]; omega
            · rw [hq]
      · simp only [hz, ↓reduceIte] at hok ⊢
        obtain ⟨pre, x, post, attr1, h1, h2, h3, h4⟩ := ih (n - 1) (by omega) hok
        refine ⟨info :: pre, x, post, attr1, by simp [h1], h2, ?_, h4⟩
        simp only [List.filter_cons, hm, Option.isSome_some, ↓reduceIte, List.length_cons]
        omega

theorem unplaced_replicaLoop (inv : Cluster) (res0 : Resources) (oc n : Nat)
    (Q : Resources → Prop)
    (hQ : ∀ node res, node < inv.Nodes.length → Q res →
      ∃ r, tryAdjust inv node res = some r ∧ r.nodeOk = false ∧ Q r.res)
    (nodeIdx : Nat) (hnode : nodeIdx < inv.Nodes.length) (v : Bool) (a : Resources)
    (st : AdjustState)
    (hres : st.resources = [⟨res0, n + 1⟩]) (hadj : st.adjustedResources = [⟨a, oc⟩])
    (hq : Q a) (herr : st.err = none) (hinv : st.currInventory = inv) :
    ((replicaLoop nodeIdx 0 v (n + 1) a st).1 = .breakNodes ∨
      (replicaLoop nodeIdx 0 v (n + 1) a st).1 = .continueNodes) ∧
      Unplaced inv res0 oc (n + 1) Q (replicaLoop nodeIdx 0 v (n + 1) a st).2 := by
  obtain ⟨r, hr, hok, hqr⟩ := hQ nodeIdx a hnode hq
  have hri := (tryAdjust_fail_inv _ _ _ _ hr hok).1
  have hU : Unplaced inv res0 oc (n + 1) Q (afterCall st 0 nodeIdx v a r) := by
    cases v with
    | true => exact ⟨hres, ⟨a, hadj, hq⟩, herr, hri⟩
    | false =>
      refine ⟨hres, ⟨r.res, ?_, hqr⟩, herr, hri⟩
      simp [afterCall, hadj, setResources]
  rw [replicaLoop_succ, hinv, hr]
  simp only [hok, Bool.not_false, ↓reduceIte]
  cases hc : r.clusterOk with
  | false => exact ⟨Or.inl rfl, by simpa [hinv] using hU⟩
  | true => exact ⟨Or.inr rfl, by simpa [hinv] using hU⟩

theorem unplaced_groupLoop (inv : Cluster) (res0 orig0 : Resources) (oc n : Nat)
    (Q : Resources → Prop)
    (hQ : ∀ node res, node < inv.Nodes.length → Q res →
      ∃ r, tryAdjust inv node res = some r ∧ r.nodeOk = false ∧ Q r.res)
    (nodeIdx : Nat) (hnode : nodeIdx < inv.Nodes.length) (st : AdjustState)
    (hU : Unplaced inv res0 oc (n + 1) Q st) :
    ((groupLoop [⟨orig0, oc⟩] nodeIdx st.resources.length st).1 = .breakNodes ∨
      (groupLoop [⟨orig0, oc⟩] nodeIdx st.resources.length st).1 = .continueNodes) ∧
      Unplaced inv res0 oc (n + 1) Q (groupLoop [⟨orig0, oc⟩] nodeIdx st.resources.length st).2 := by
  obtain ⟨hres, ⟨a, hadj, hq⟩, herr, hinv⟩ := hU
  have h := unplaced_replicaLoop inv res0 oc n Q hQ nodeIdx hnode (!(oc == n + 1)) a st hres hadj
    hq herr hinv
  have hlen : st.resources.length = 1 := by rw [hres]; rfl
  rw [hlen]
  unfold groupLoop
  simp only [hres, hadj, List.getElem?_cons_zero]
  cases hrl : replicaLoop nodeIdx 0 (!(oc == n + 1)) (n + 1) a st with
  | mk flow st1 =>
    rw [hrl] at h
    obtain ⟨hf, hU1⟩ := h
    simp only at hf hU1
    rcases hf with hf | hf <;> (subst hf; exact ⟨by simp, hU1⟩)

theorem unplaced_nodesLoop (inv : Cluster) (res0 orig0 : Resources) (oc n : Nat)
    (Q : Resources → Prop)
    (hQ : ∀ node res, node < inv.Nodes.length → Q res →
      ∃ r, tryAdjust inv node res = some r ∧ r.nodeOk = false ∧ Q r.res)
    (remaining nodeIdx : Nat) (hnode : nodeIdx + remaining = inv.Nodes.length)
    (st : AdjustState) (hU : Unplaced inv res0 oc (n + 1) Q st) :
    (nodesLoop [⟨orig0, oc⟩] remaining nodeIdx st).1 = .next ∧
      Unplaced inv res0 oc (n + 1) Q (nodesLoop [⟨orig0, oc⟩] remaining nodeIdx st).2 := by
  induction remaining generalizing nodeIdx st with
  | zero => exact ⟨rfl, hU⟩
  | succ k ih =>
    have h := unplaced_groupLoop inv res0 orig0 oc n Q hQ nodeIdx (by omega) st hU
    unfold nodesLoop
    cases hgl : groupLoop [⟨orig0, oc⟩] nodeIdx st.resources.length st with
    | mk flow st1 =>
      rw [hgl] at h
      obtain ⟨hf, hU1⟩ := h
      simp only at hf hU1
      rcases hf with hf | hf
      · subst hf; exact ⟨rfl, hU1⟩
      · subst hf; exact ih (nodeIdx + 1) (by omega) st1 hU1

/-- A single group that `tryAdjust` places on no node: `Adjust` returns
InsufficientCapacity and leaves inventory and reservation as they were. -/
theorem adjust_unplaced (inv : Cluster) (res0 : Resources) (count : Nat)
    (calls : List ReservationCall) (opts : List InventoryOption) (Q : Resources → Prop)
    (hcount : 1 ≤ count) (hq : Q res0)
    (hQ : ∀ node res, node < inv.Nodes.length → Q res →
      ∃ r, tryAdjust inv node res = some r ∧ r.nodeOk = false ∧ Q r.res) :
    ∃ r, Adjust inv ⟨[⟨res0, count⟩], calls⟩ opts = some r ∧
      r.err = some .ErrInsufficientCapacity ∧ r.inv = inv ∧
      r.reservation = ⟨[⟨res0, count⟩], calls⟩ := by
  obtain ⟨n, rfl⟩ : ∃ n, count = n + 1 := ⟨count - 1, by omega⟩
  have hU0 : Unplaced inv res0 (n + 1) (n + 1) Q (initState inv ⟨[⟨res0, n + 1⟩], calls⟩) :=
    ⟨rfl, ⟨res0, rfl, hq⟩, rfl, rfl⟩
  have h := unplaced_nodesLoop inv res0 res0 (n + 1) n Q hQ inv.Nodes.length 0 (by omega) _ hU0
  unfold Adjust
  simp only [List.length_singleton, placeLoop]
  cases hnl : nodesLoop [⟨res0, n + 1⟩] (initState inv ⟨[⟨res0, n + 1⟩], calls⟩).currInventory.Nodes.length
      0 (initState inv ⟨[⟨res0, n + 1⟩], calls⟩) with
  | mk flow st1 =>
    have h1 : (initState inv ⟨[⟨res0, n + 1⟩], calls⟩).currInventory.Nodes.length =
        inv.Nodes.length := rfl
    rw [h1] at hnl
    rw [hnl] at h
    obtain ⟨hf, hres, _, herr, _⟩ := h
    simp only at hf hres herr
    subst hf
    simp only [hres, herr, List.length_singleton]
    exact ⟨_, rfl, rfl, rfl, rfl⟩

theorem mapGet_mapSet {β : Type} (l : List (String × β)) (k k1 : String) (v : β) :
    mapGet (mapSet l k v) k1 = if k = k1 then some v else mapGet l k1 := by
  induction l with
  | nil => simp [mapSet, mapGet]
  | cons e rest ih =>
    obtain ⟨a, w⟩ := e
    unfold mapSet
    by_cases hak : a = k
    · subst hak
      by_cases hk : a = k1 <;> simp [mapGet, hk]
    · by_cases hk : k = k1
      · subst hk; simp [hak, mapGet, ih]
      · simp [hak, hk, mapGet, ih]

/-! ## C8: GPU RAM mismatch -/

theorem gpuAttrsInsert_allRam (R : String) (hR : R ≠ "") (acc acc1 : GPUAttributes) (k : GPUKey)
    (ga : GPUModelAttributes) (hk : k.Attr = some ga) (hga : ga.RAM = R)
    (hacc : AllRamMap R acc) (h : gpuAttrsInsert acc k = some acc1) : AllRamMap R acc1 := by
  have hmodels : ∀ md a, mapGet ((mapGet acc k.Vendor).getD []) md = some a →
      ∃ ga, a = some ga ∧ ga.RAM = R := by
    intro md a hmd
    cases hv : mapGet acc k.Vendor with
    | none => rw [hv] at hmd; simp [mapGet] at hmd
    | some models => rw [hv] at hmd; exact hacc _ _ hv md a hmd
  have hset : ∀ (x : Option GPUModelAttributes), (∃ gx, x = some gx ∧ gx.RAM = R) →
      AllRamMap R (mapSet acc k.Vendor (mapSet ((mapGet acc k.Vendor).getD []) k.Model x)) := by
    intro x hx v models hv md a hmd
    rw [mapGet_mapSet] at hv
    split at hv
    · injection hv with hv
      subst hv
      rw [mapGet_mapSet] at hmd
      split at hmd
      · injection hmd with hmd
        subst hmd
        exact hx
      · exact hmodels md a hmd
    · exact hacc v models hv md a hmd
  unfold gpuAttrsInsert at h
  simp only at h
  split at h
  · injection h with h
    subst h
    exact hset _ ⟨ga, hk, hga⟩
  · rename_i old hold
    split at h
    · simp at h
    · rename_i merged hmerge
      injection h with h
      subst h
      apply hset
      obtain ⟨go, hgo, hgor⟩ := hmodels _ _ hold
      subst hgo
      rw [hk] at hmerge
      simp only [mergeAttr] at hmerge
      split at hmerge
      · rename_i r i hr hi
        injection hmerge with hmerge
        subst hmerge
        refine ⟨_, rfl, ?_⟩
        simp only [hgor, hga, mergeField, hR, ↓reduceIte, Option.some.injEq] at hr
        exact hr.symm
      · simp at hmerge

theorem parseGPUScan_allRam (R : String) (hR : R ≠ "") (attrs : List Attribute)
    (acc out : GPUAttributes) (hall : AllRam R attrs) (hacc : AllRamMap R acc)
    (h : parseGPUScan attrs acc = some out) : AllRamMap R out := by
  induction attrs generalizing acc with
  | nil =>
    simp only [parseGPUScan, Option.some.injEq] at h
    exact h ▸ hacc
  | cons a rest ih =>
    unfold parseGPUScan at h
    split at h
    · simp at h
    · rename_i k hk
      split at h
      · simp at h
      · rename_i acc1 hins
        obtain ⟨ga, hga, hgr⟩ := hall a (List.mem_cons_self _ _) k hk
        exact ih acc1 (fun b hb => hall b (List.mem_cons_of_mem _ hb))
          (gpuAttrsInsert_allRam R hR acc acc1 k ga hga hgr hacc hins) h

theorem gpuMatch_allRam (R : String) (hR : R ≠ "") (attrs : GPUAttributes) (info : GPUInfo)
    (hattrs : AllRamMap R attrs) (hinfo : info.MemorySize ≠ R) : gpuMatch attrs info = none := by
  unfold gpuMatch
  split
  · rfl
  · rename_i models hmodels
    split
    · rfl
    · rename_i attr hattr
      have hga : ∃ ga, attr = some ga ∧ ga.RAM = R := by
        unfold GPUModels.ExistsOrWildcard at hattr
        split at hattr
        · rename_i a ha
          injection hattr with hattr
          subst hattr
          exact hattrs _ _ hmodels _ _ ha
        · exact hattrs _ _ hmodels _ _ hattr
      obtain ⟨ga, rfl, hgr⟩ := hga
      have : gpuSkip (some ga) info = true := by
        simp only [gpuSkip, hgr, bne_iff_ne, ne_eq, Bool.or_eq_true, Bool.and_eq_true,
          decide_eq_true_eq]
        exact Or.inl ⟨hR, fun h => hinfo h.symm⟩
      simp [this]

theorem gpuScan_no_match (rp : GPU) (res : ResGPU) (sp : SchedulerParams) (attrs : GPUAttributes)
    (infos : List GPUInfo) (n : Nat) (h : ∀ info ∈ infos, gpuMatch attrs info = none) :
    gpuScan rp res sp attrs infos n = ⟨rp, res, sp, false⟩ := by
  induction infos with
  | nil => rfl
  | cons info rest ih =>
    unfold gpuScan
    rw [h info (List.mem_cons_self _ _)]
    exact ih (fun x hx => h x (List.mem_cons_of_mem _ hx))

/-- A request whose entries all carry `ram R` fails on a node GPU none of
whose info entries has that memory size, and is left as it was. -/
theorem tryAdjustGPU_ram_mismatch (R : String) (hR : R ≠ "") (rp : GPU) (g : ResGPU)
    (sp : SchedulerParams) (hu : 1 ≤ g.Units) (hall : AllRam R g.Attributes)
    (hinfo : ∀ info ∈ rp.Info, info.MemorySize ≠ R) :
    tryAdjustGPU rp (some g) sp = some ⟨rp, g, sp, false⟩ := by
  simp only [tryAdjustGPU]
  have hne : g.Units ≠ 0 := by omega
  simp only [hne, ↓reduceIte]
  split
  · rfl
  · split
    · rfl
    · rename_i attrs hattrs
      have hmap : AllRamMap R attrs :=
        parseGPUScan_allRam R hR g.Attributes [] attrs hall
          (fun v models hv => by simp [mapGet] at hv) hattrs
      rw [gpuScan_no_match _ _ _ _ _ _
        (fun info hi => gpuMatch_allRam R hR attrs info hmap (hinfo info hi))]

theorem tryAdjust_ram_mismatch (R : String) (hR : R ≠ "") (inv : Cluster)
    (hinv : ∀ nd ∈ inv.Nodes, ∀ info ∈ nd.Resources.GPU.Info, info.MemorySize ≠ R)
    (node : Nat) (res : Resources) (hnode : node < inv.Nodes.length) (hq : RamRequest R res) :
    ∃ r, tryAdjust inv node res = some r ∧ r.nodeOk = false ∧ RamRequest R r.res := by
  obtain ⟨⟨c, hc⟩, ⟨m, hm⟩, g, hg, hu, hall⟩ := hq
  obtain ⟨id, cpu0, gpu0, mem0, sts⟩ := res
  simp only at hc hm hg
  subst hc hm hg
  have hnd : inv.Nodes[node]? = some inv.Nodes[node] := List.getElem?_eq_getElem hnode
  have hgpu := tryAdjustGPU_ram_mismatch R hR inv.Nodes[node].Resources.GPU g SchedulerParams.zero
    hu hall (hinv _ (List.getElem_mem hnode))
  unfold tryAdjust
  simp only [hnd, tryAdjustCPU, hgpu]
  cases hs : inv.Nodes[node].Resources.CPU.SubMilliNLZ c.Units with
  | mk cpu b =>
    cases b with
    | false => exact ⟨_, rfl, rfl, ⟨c, rfl⟩, ⟨m, rfl⟩, g, rfl, hu, hall⟩
    | true =>
      simp only [Bool.not_false, ↓reduceIte]
      exact ⟨_, rfl, rfl, ⟨c, rfl⟩, ⟨m, rfl⟩, g, rfl, hu, hall⟩

/-- C8: GPU RAM mismatch. If no GPU info entry of any node has memory size `R`
and the single group of the reservation (count ≥ 1, CPU and memory sections
present, GPU units ≥ 1) has only GPU attribute entries that carry the
constraint `ram R` (`R` not empty), `Adjust` returns InsufficientCapacity and
the inventory is unchanged. -/
theorem adjust_gpu_ram_mismatch (R : String) (inv : Cluster) (res0 : Resources) (count : Nat)
    (calls : List ReservationCall) (opts : List InventoryOption) (hR : R ≠ "")
    (hinv : ∀ nd ∈ inv.Nodes, ∀ info ∈ nd.Resources.GPU.Info, info.MemorySize ≠ R)
    (hcount : 1 ≤ count) (hq : RamRequest R res0) :
    ∃ r, Adjust inv ⟨[⟨res0, count⟩], calls⟩ opts = some r ∧
      r.err = some .ErrInsufficientCapacity ∧ r.inv = inv ∧
      r.reservation = ⟨[⟨res0, count⟩], calls⟩ :=
  adjust_unplaced inv res0 count calls opts (RamRequest R) hcount hq
    (fun node res hnode hres => tryAdjust_ram_mismatch R hR inv hinv node res hnode hres)

theorem scenario3_ramRequest :
    RamRequest "80Gi" (gpuGroup 2 "vendor/nvidia/model/*/ram/80Gi").Resources := by
  refine ⟨⟨_, rfl⟩, ⟨_, rfl⟩, _, rfl, by decide, ?_⟩
  intro a ha k hk
  have ha1 : a = ⟨"vendor/nvidia/model/*/ram/80Gi", "true"⟩ := by simpa using ha
  subst ha1
  have hp : parseGPUKey "vendor/nvidia/model/*/ram/80Gi" =
      some ⟨"nvidia", "*", some ⟨"80Gi", ""⟩⟩ := by decide
  rw [hp] at hk
  injection hk with hk
  subst hk
  exact ⟨_, rfl, rfl⟩

/-- Witness of C8 on scenario 3: nodes with 40Gi GPUs, request
`vendor/nvidia/model/*/ram/80Gi`. -/
theorem adjust_gpu_ram_mismatch_witness :
    (∀ nd ∈ scenario2Inv.Nodes, ∀ info ∈ nd.Resources.GPU.Info, info.MemorySize ≠ "80Gi") ∧
      ∃ r, Adjust scenario2Inv scenario3Res [] = some r ∧
        r.err = some .ErrInsufficientCapacity ∧ r.inv = scenario2Inv ∧
        r.reservation = scenario3Res :=
  ⟨by decide,
    adjust_gpu_ram_mismatch "80Gi" scenario2Inv _ 2 [] [] (by decide) (by decide) (by decide)
      scenario3_ramRequest⟩

/-! ## C9: missing storage class -/

theorem adjustPool_class (cls : String) (q : Nat) (pools pools1 : List Storage) (c : String)
    (h : adjustPool cls q pools = .adjusted pools1) (hc : ∀ p ∈ pools, p.Class ≠ c) :
    ∀ p ∈ pools1, p.Class ≠ c := by
  induction pools generalizing pools1 with
  | nil => simp [adjustPool] at h
  | cons p ps ih =>
    unfold adjustPool at h
    split at h
    · split at h
      · simp at h
      · injection h with h
        subst h
        intro x hx
        rcases List.mem_cons.mp hx with rfl | hx
        · exact hc p (List.mem_cons_self _ _)
        · exact hc x (List.mem_cons_of_mem _ hx)
    · split at h
      · rename_i ps1 heq
        injection h with h
        subst h
        intro x hx
        rcases List.mem_cons.mp hx with rfl | hx
        · exact hc _ (List.mem_cons_self _ _)
        · exact ih ps1 heq (fun y hy => hc y (List.mem_cons_of_mem _ hy)) x hx
      · simp at h
      · simp at h

theorem adjustPool_absent (cls : String) (q : Nat) (pools : List Storage)
    (hc : ∀ p ∈ pools, p.Class ≠ cls) : adjustPool cls q pools = .absent := by
  induction pools with
  | nil => rfl
  | cons p ps ih =>
    unfold adjustPool
    simp only [hc p (List.mem_cons_self _ _), ↓reduceIte,
      ih (fun y hy => hc y (List.mem_cons_of_mem _ hy))]

/-- With a persistent entry of a class no pool has, the storage loop places
nothing. -/
theorem adjustStorage_missing_class (cls : String) (sts : List ResStorage) (nd : Node)
    (pools : List Storage)
    (hs : ∃ s ∈ sts, ParseStorageAttributes s.Attributes = some ⟨true, cls⟩)
    (hc : ∀ p ∈ pools, p.Class ≠ cls) :
    adjustStorage sts nd pools = .nodeFail ∨ adjustStorage sts nd pools = .clusterFail := by
  induction sts generalizing nd pools with
  | nil => obtain ⟨s, hs, _⟩ := hs; simp at hs
  | cons s rest ih =>
    obtain ⟨s1, hs1, hp1⟩ := hs
    unfold adjustStorage
    rcases List.mem_cons.mp hs1 with rfl | hrest
    · simp only [hp1, Bool.not_true, Bool.false_eq_true, ↓reduceIte, adjustPool_absent cls _ _ hc]
      split
      · exact Or.inl rfl
      · exact Or.inr rfl
    · have hex : ∃ s ∈ rest, ParseStorageAttributes s.Attributes = some ⟨true, cls⟩ :=
        ⟨s1, hrest, hp1⟩
      split
      · exact Or.inr rfl
      · split
        · split
          · split
            · exact Or.inl rfl
            · exact ih _ _ hex hc
          · split
            · exact Or.inl rfl
            · exact ih _ _ hex hc
        · split
          · exact Or.inl rfl
          · split
            · rename_i pools1 heq
              exact ih _ _ hex (adjustPool_class _ _ _ _ cls heq hc)
            · exact Or.inr rfl
            · exact Or.inr rfl

theorem tryAdjust_missing_class (cls : String) (inv : Cluster)
    (hinv : ∀ p ∈ inv.Storage, p.Class ≠ cls)
    (node : Nat) (res : Resources) (hnode : node < inv.Nodes.length)
    (hq : PersistentRequest cls res) :
    ∃ r, tryAdjust inv node res = some r ∧ r.nodeOk = false ∧ PersistentRequest cls r.res := by
  obtain ⟨⟨c, hc⟩, ⟨m, hm⟩, ⟨g, hg⟩, hs⟩ := hq
  obtain ⟨id, cpu0, gpu0, mem0, sts⟩ := res
  simp only at hc hm hg hs
  subst hc hm hg
  have hnd : inv.Nodes[node]? = some inv.Nodes[node] := List.getElem?_eq_getElem hnode
  obtain ⟨gout, hgout⟩ : ∃ gout, tryAdjustGPU inv.Nodes[node].Resources.GPU (some g)
      SchedulerParams.zero = some gout := by
    simp only [tryAdjustGPU]
    split
    · exact ⟨_, rfl⟩
    · split
      · exact ⟨_, rfl⟩
      · split <;> exact ⟨_, rfl⟩
  unfold tryAdjust
  simp only [hnd, tryAdjustCPU, hgout]
  cases hcs : inv.Nodes[node].Resources.CPU.SubMilliNLZ c.Units with
  | mk cpu b =>
    cases b with
    | false => exact ⟨_, rfl, rfl, ⟨c, rfl⟩, ⟨m, rfl⟩, ⟨g, rfl⟩, hs⟩
    | true =>
      simp only
      cases hgok : gout.ok with
      | false => exact ⟨_, rfl, rfl, ⟨c, rfl⟩, ⟨m, rfl⟩, ⟨_, rfl⟩, hs⟩
      | true =>
        simp only [Bool.not_true, Bool.false_eq_true, ↓reduceIte]
        cases hms : inv.Nodes[node].Resources.Memory.SubNLZ m.Quantity with
        | mk mq b2 =>
          cases b2 with
          | false => exact ⟨_, rfl, rfl, ⟨c, rfl⟩, ⟨m, rfl⟩, ⟨_, rfl⟩, hs⟩
          | true =>
            simp only
            rcases adjustStorage_missing_class cls sts _ inv.Storage hs hinv with h | h <;>
              (rw [h]; exact ⟨_, rfl, rfl, ⟨c, rfl⟩, ⟨m, rfl⟩, ⟨_, rfl⟩, hs⟩)

/-- C9: missing storage class. If no storage pool of the inventory has class
`cls` and the single group of the reservation (count ≥ 1, CPU, GPU and memory
sections present) has a persistent storage entry of class `cls`, `Adjust`
returns InsufficientCapacity and the inventory is unchanged. -/
theorem adjust_missing_storage_class (cls : String) (inv : Cluster) (res0 : Resources)
    (count : Nat) (calls : List ReservationCall) (opts : List InventoryOption)
    (hinv : ∀ p ∈ inv.Storage, p.Class ≠ cls) (hcount : 1 ≤ count)
    (hq : PersistentRequest cls res0) :
    ∃ r, Adjust inv ⟨[⟨res0, count⟩], calls⟩ opts = some r ∧
      r.err = some .ErrInsufficientCapacity ∧ r.inv = inv ∧
      r.reservation = ⟨[⟨res0, count⟩], calls⟩ :=
  adjust_unplaced inv res0 count calls opts (PersistentRequest cls) hcount hq
    (fun node res hnode hres => tryAdjust_missing_class cls inv hinv node res hnode hres)

/-- Witness of C9 on scenario 4: pools `["beta2"]`, request class `"beta3"`. -/
theorem adjust_missing_storage_class_witness :
    scenario4Inv.Storage.map (fun p => p.Class) = ["beta2"] ∧
      ∃ r, Adjust scenario4Inv scenario4Res [] = some r ∧
        r.err = some .ErrInsufficientCapacity ∧ r.inv = scenario4Inv ∧
        r.reservation = scenario4Res :=
  ⟨by decide,
    adjust_missing_storage_class "beta3" scenario4Inv _ 1 [] [] (by decide) (by decide)
      ⟨⟨_, rfl⟩, ⟨_, rfl⟩, ⟨_, rfl⟩, _, List.mem_singleton.mpr rfl, by decide⟩⟩

/-! ## C5 on every inventory of the scenario's shape -/

theorem tryAdjustGPU_exhausted (rp : GPU) (g : ResGPU) (sp : SchedulerParams)
    (hu : g.Units ≠ 0) (h : rp.Quantity.Available = 0) :
    tryAdjustGPU rp (some g) sp = some ⟨rp, g, sp, false⟩ := by
  simp [tryAdjustGPU, hu, h, Value]

theorem tryAdjustGPU_no_match (rp : GPU) (g : ResGPU) (sp : SchedulerParams) (hu : g.Units ≠ 0)
    (h : ∀ attrs, ParseGPUAttributes g.Attributes = some attrs →
      ∀ info ∈ rp.Info, gpuMatch attrs info = none) :
    tryAdjustGPU rp (some g) sp = some ⟨rp, g, sp, false⟩ := by
  simp only [tryAdjustGPU, hu, ↓reduceIte]
  split
  · rfl
  · split
    · rfl
    · rename_i attrs hattrs
      rw [gpuScan_no_match _ _ _ _ _ _ (h attrs hattrs)]

/-- When the GPU step fails, `tryAdjust` fails at the node and leaves `*res`. -/
theorem tryAdjust_gpu_fail (inv : Cluster) (node : Nat) (res : Resources) (nd : Node)
    (c : ResCPU) (g : ResGPU) (hnd : inv.Nodes[node]? = some nd) (hc : res.CPU = some c)
    (hg : res.GPU = some g)
    (hgpu : tryAdjustGPU nd.Resources.GPU (some g) SchedulerParams.zero =
      some ⟨nd.Resources.GPU, g, SchedulerParams.zero, false⟩) :
    tryAdjust inv node res = some ⟨inv, res, none, false, true⟩ := by
  obtain ⟨id, cpu0, gpu0, mem0, sts⟩ := res
  simp only at hc hg
  subst hc hg
  unfold tryAdjust
  simp only [hnd, tryAdjustCPU, hgpu]
  cases hs : nd.Resources.CPU.SubMilliNLZ c.Units with
  | mk cpu b => cases b <;> rfl

theorem tryAdjust_wildcard_a100 (A B : Node) (pools : List Storage) (id c m : Nat)
    (ma ia : String) (hA : A.Resources.GPU.Info = [⟨"nvidia", "a100", ma, ia⟩])
    (hAq : A.Resources.GPU.Quantity.Available = NewQuantity 1)
    (hAf : A.Resources.GPU.Quantity.Floor = 0)
    (hcpu : NewMilliQuantity c + A.Resources.CPU.Floor ≤ A.Resources.CPU.Available)
    (hmem : NewQuantity m + A.Resources.Memory.Floor ≤ A.Resources.Memory.Available) :
    tryAdjust ⟨[A, B], pools⟩ 0 (wildcardRequest id c m) =
      some ⟨⟨[placedOn A c m, B], pools⟩, a100Request id c m,
        some ⟨⟨⟨"nvidia", "a100"⟩⟩⟩, true, true⟩ := by
  have hparse : ParseGPUAttributes [⟨"vendor/nvidia/model/*", "true"⟩] =
      some [("nvidia", [("*", none)])] := by decide
  have hmatch : gpuMatch [("nvidia", [("*", none)])] ⟨"nvidia", "a100", ma, ia⟩ = some none := by
    have h1 : ("*" : String) ≠ "a100" := by decide
    simp [gpuMatch, mapGet, GPUModels.ExistsOrWildcard, gpuSkip, h1]
  have hlow : toLower "nvidia" = "nvidia" := by decide
  have hkey : gpuKey "nvidia" ⟨"nvidia", "a100", ma, ia⟩ none = "vendor/nvidia/model/a100" := by
    simp only [gpuKey]
    decide
  have hzero : (⟨⟨⟨"nvidia", "a100"⟩⟩⟩ : SchedulerParams) ≠ SchedulerParams.zero := by decide
  have hgpu : tryAdjustGPU A.Resources.GPU (some ⟨1, [⟨"vendor/nvidia/model/*", "true"⟩]⟩)
      SchedulerParams.zero =
      some ⟨{ A.Resources.GPU with Quantity := { A.Resources.GPU.Quantity with
          Allocated := A.Resources.GPU.Quantity.Allocated + NewQuantity 1 } },
        ⟨1, [⟨"vendor/nvidia/model/a100", "true"⟩]⟩, ⟨⟨⟨"nvidia", "a100"⟩⟩⟩, true⟩ := by
    have hsub : A.Resources.GPU.Quantity.SubNLZ 1 =
        ({ A.Resources.GPU.Quantity with
            Allocated := A.Resources.GPU.Quantity.Allocated + NewQuantity 1 },
          true) := by
      simp [ResourcePair.SubNLZ, hAq, hAf]
    have hval : Value (NewQuantity 1) ≠ 0 := by decide
    simp [tryAdjustGPU, hAq, hval, hparse, hA, gpuScan, hmatch, hlow, hkey, hsub]
  have hc : A.Resources.CPU.SubMilliNLZ c =
      ({ A.Resources.CPU with Allocated := A.Resources.CPU.Allocated + NewMilliQuantity c },
        true) := by
    simp only [ResourcePair.SubMilliNLZ]
    rw [if_neg (by omega)]
  have hm : A.Resources.Memory.SubNLZ m =
      ({ A.Resources.Memory with Allocated := A.Resources.Memory.Allocated + NewQuantity m },
        true) := by
    simp only [ResourcePair.SubNLZ]
    rw [if_neg (by omega)]
  simp [tryAdjust, wildcardRequest, a100Request, tryAdjustCPU, hc, hgpu, hm, adjustStorage,
    hzero, placedOn, debitNode]

theorem tryAdjust_a100_stuck (A B : Node) (pools : List Storage) (id c m : Nat)
    (mb ib : String) (hAq : A.Resources.GPU.Quantity.Available = NewQuantity 1)
    (hB : B.Resources.GPU.Info = [⟨"nvidia", "h100", mb, ib⟩]) (node : Nat) (res : Resources)
    (hnode : node < 2) (hres : res = a100Request id c m) :
    ∃ r, tryAdjust ⟨[placedOn A c m, B], pools⟩ node res = some r ∧ r.nodeOk = false ∧
      r.res = a100Request id c m := by
  subst hres
  have hparse : ParseGPUAttributes [⟨"vendor/nvidia/model/a100", "true"⟩] =
      some [("nvidia", [("a100", none)])] := by decide
  have hmatch : gpuMatch [("nvidia", [("a100", none)])] ⟨"nvidia", "h100", mb, ib⟩ = none := by
    have h1 : ("a100" : String) ≠ "h100" := by decide
    have h2 : ("a100" : String) ≠ "*" := by decide
    simp [gpuMatch, mapGet, GPUModels.ExistsOrWildcard, h1, h2]
  have hcases : node = 0 ∨ node = 1 := by omega
  rcases hcases with rfl | rfl
  · refine ⟨_, tryAdjust_gpu_fail _ 0 _ (placedOn A c m) ⟨c⟩ _ rfl rfl rfl ?_, rfl, rfl⟩
    apply tryAdjustGPU_exhausted _ _ _ (by decide)
    simp only [placedOn, debitNode, ResourcePair.Available] at hAq ⊢
    omega
  · refine ⟨_, tryAdjust_gpu_fail _ 1 _ B ⟨c⟩ _ rfl rfl rfl ?_, rfl, rfl⟩
    apply tryAdjustGPU_no_match _ _ _ (by decide)
    intro attrs hattrs info hinfo
    rw [hparse] at hattrs
    injection hattrs with hattrs
    subst hattrs
    rw [hB] at hinfo
    rw [List.mem_singleton.mp hinfo]
    exact hmatch

/-- C5 (amended), on every inventory of the scenario's shape: nodeA with one
available GPU whose only info entry is nvidia/a100 and CPU and memory for a
replica, nodeB whose only info entry is nvidia/h100; a single group of count 2,
GPU units 1 and GPU attributes `vendor/nvidia/model/*`. `Adjust` returns
InsufficientCapacity and leaves inventory and reservation unchanged. -/
theorem adjust_heterogeneous_insufficient (A B : Node) (pools : List Storage) (id c m : Nat)
    (ma ia mb ib : String) (calls : List ReservationCall) (opts : List InventoryOption)
    (hA : A.Resources.GPU.Info = [⟨"nvidia", "a100", ma, ia⟩])
    (hAq : A.Resources.GPU.Quantity.Available = NewQuantity 1)
    (hAf : A.Resources.GPU.Quantity.Floor = 0)
    (hB : B.Resources.GPU.Info = [⟨"nvidia", "h100", mb, ib⟩])
    (hcpu : NewMilliQuantity c + A.Resources.CPU.Floor ≤ A.Resources.CPU.Available)
    (hmem : NewQuantity m + A.Resources.Memory.Floor ≤ A.Resources.Memory.Available) :
    ∃ r, Adjust ⟨[A, B], pools⟩ ⟨[⟨wildcardRequest id c m, 2⟩], calls⟩ opts = some r ∧
      r.err = some .ErrInsufficientCapacity ∧ r.inv = ⟨[A, B], pools⟩ ∧
      r.reservation = ⟨[⟨wildcardRequest id c m, 2⟩], calls⟩ := by
  have hcall1 := tryAdjust_wildcard_a100 A B pools id c m ma ia hA hAq hAf hcpu hmem
  have hQ : ∀ node res, node < (⟨[placedOn A c m, B], pools⟩ : Cluster).Nodes.length →
      res = a100Request id c m →
      ∃ r, tryAdjust ⟨[placedOn A c m, B], pools⟩ node res = some r ∧ r.nodeOk = false ∧
        r.res = a100Request id c m :=
    fun node res hn hr => tryAdjust_a100_stuck A B pools id c m mb ib hAq hB node res hn hr
  have hstep : replicaLoop 0 0 false 2 (wildcardRequest id c m)
      (initState ⟨[A, B], pools⟩ ⟨[⟨wildcardRequest id c m, 2⟩], calls⟩) =
      replicaLoop 0 0 false 1 (a100Request id c m)
        (afterPlace (initState ⟨[A, B], pools⟩ ⟨[⟨wildcardRequest id c m, 2⟩], calls⟩) 0 0 false 1
          (wildcardRequest id c m)
          ⟨⟨[placedOn A c m, B], pools⟩, a100Request id c m,
            some ⟨⟨⟨"nvidia", "a100"⟩⟩⟩, true, true⟩) := by
    rw [replicaLoop_succ]
    have : (initState ⟨[A, B], pools⟩ ⟨[⟨wildcardRequest id c m, 2⟩], calls⟩).currInventory =
        ⟨[A, B], pools⟩ := rfl
    rw [this, hcall1]
    rfl
  have hrep := unplaced_replicaLoop ⟨[placedOn A c m, B], pools⟩ (wildcardRequest id c m) 2 0
    (fun a => a = a100Request id c m) hQ 0 (by simp) false (a100Request id c m)
    (afterPlace (initState ⟨[A, B], pools⟩ ⟨[⟨wildcardRequest id c m, 2⟩], calls⟩) 0 0 false 1
      (wildcardRequest id c m)
      ⟨⟨[placedOn A c m, B], pools⟩, a100Request id c m,
        some ⟨⟨⟨"nvidia", "a100"⟩⟩⟩, true, true⟩)
    rfl rfl rfl rfl rfl
  rw [← hstep] at hrep
  have hloop : ∃ st, placeLoop [⟨wildcardRequest id c m, 2⟩] 2
      (initState ⟨[A, B], pools⟩ ⟨[⟨wildcardRequest id c m, 2⟩], calls⟩) = some st ∧
      Unplaced ⟨[placedOn A c m, B], pools⟩ (wildcardRequest id c m) 2 1
        (fun a => a = a100Request id c m) st := by
    cases hrl : replicaLoop 0 0 false 2 (wildcardRequest id c m)
        (initState ⟨[A, B], pools⟩ ⟨[⟨wildcardRequest id c m, 2⟩], calls⟩) with
    | mk flow st1 =>
      rw [hrl] at hrep
      obtain ⟨hf, hU1⟩ := hrep
      simp only at hf hU1
      have hg : groupLoop [⟨wildcardRequest id c m, 2⟩] 0 1
          (initState ⟨[A, B], pools⟩ ⟨[⟨wildcardRequest id c m, 2⟩], calls⟩) = (flow, st1) := by
        unfold groupLoop
        simp only [initState, List.map_cons, List.map_nil, List.getElem?_cons_zero,
          beq_self_eq_true, Bool.not_true]
        simp only [initState, List.map_cons, List.map_nil] at hrl
        rw [hrl]
        rcases hf with hf | hf <;> (subst hf; rfl)
      have hn := unplaced_nodesLoop ⟨[placedOn A c m, B], pools⟩ (wildcardRequest id c m)
        (wildcardRequest id c m) 2 0 (fun a => a = a100Request id c m) hQ 1 1 (by simp) st1 hU1
      have hnl : nodesLoop [⟨wildcardRequest id c m, 2⟩] 2 0
          (initState ⟨[A, B], pools⟩ ⟨[⟨wildcardRequest id c m, 2⟩], calls⟩) =
          (.next, if flow = .breakNodes then st1
            else (nodesLoop [⟨wildcardRequest id c m, 2⟩] 1 1 st1).2) := by
        rw [nodesLoop]
        have hl : (initState ⟨[A, B], pools⟩
            ⟨[⟨wildcardRequest id c m, 2⟩], calls⟩).resources.length = 1 := rfl
        rw [hl, hg]
        rcases hf with hf | hf
        · subst hf; rfl
        · subst hf
          simp only [reduceCtorEq, ↓reduceIte]
          rw [← hn.1]
      refine ⟨if flow = .breakNodes then st1
        else (nodesLoop [⟨wildcardRequest id c m, 2⟩] 1 1 st1).2, ?_, ?_⟩
      · rw [placeLoop]
        have hl : (initState ⟨[A, B], pools⟩
            ⟨[⟨wildcardRequest id c m, 2⟩], calls⟩).currInventory.Nodes.length = 2 := rfl
        rw [hl, hnl]
      · rcases hf with hf | hf
        · subst hf; simpa using hU1
        · subst hf; simpa using hn.2
  obtain ⟨st, hst, hres, _, herr, _⟩ := hloop
  unfold Adjust
  simp only [List.length_singleton, hst, hres, herr]
  exact ⟨_, rfl, rfl, rfl, rfl⟩

/-- Witness of C5 (amended): scenario 5 itself. -/
theorem adjust_heterogeneous_insufficient_witness :
    ∃ r, Adjust scenario5Inv scenario5Res [] = some r ∧
      r.err = some .ErrInsufficientCapacity ∧ r.inv = scenario5Inv ∧
      r.reservation = scenario5Res :=
  adjust_heterogeneous_insufficient (gpuNode "nodeA" ⟨pair 1 0, [nvidia "a100"]⟩)
    (gpuNode "nodeB" ⟨pair 1 0, [nvidia "h100"]⟩) [] 1 1000 Gi "40Gi" "pcie" "40Gi" "pcie" [] []
    rfl (by decide) (by decide) rfl (by decide) (by decide)

/-- The replicas placed in the first pass on one node are not compared: on
`slashNameInv` the two replicas of the one group are placed by two successful
calls that return different scheduler params, and `Adjust` returns OK. -/
theorem adjust_first_pass_params_differ :
    (Adjust slashNameInv scenario5Res []).map (fun r => (r.err, cparamsGet r.cparams 1)) =
        some (none, some ⟨⟨⟨"nvidia", "a100"⟩⟩⟩) ∧
      (Adjust slashNameInv scenario5Res []).map (fun r =>
          r.trace.map (fun c => (c.group, c.adjustedGroup, c.result.nodeOk, c.result.sparams))) =
        some
          [(0, false, true, some ⟨⟨⟨"nvidia", "a100/ram/80Gi"⟩⟩⟩),
           (0, false, true, some ⟨⟨⟨"nvidia", "a100"⟩⟩⟩)] := by
  constructor <;> decide

/-! ## C11: `dry_run` against the run that commits -/

/-- C11: on equal inventories and reservations, `Adjust` with `dry_run` and
`Adjust` without it fault together and return the same result; the record of
calls, and so the allocated resources and the cluster params passed to the
reservation on OK, are the same. Only the receiver differs: the dry run leaves
it as it was, the other run leaves it as it was on an error and makes it the
working copy `currInventory` of the placement loop on OK. -/
theorem adjust_dry_run_equiv (inv : Cluster) (reservation : ReservationGroup)
    (opts1 opts2 : List InventoryOption) (hd1 : (applyOpts opts1).DryRun = true)
    (hd2 : (applyOpts opts2).DryRun = false) :
    Adjust inv reservation opts1 =
        (Adjust inv reservation opts2).map (fun r => { r with inv := inv }) ∧
      ∀ r2, Adjust inv reservation opts2 = some r2 →
        (r2.err ≠ none → r2.inv = inv) ∧
        (r2.err = none →
          r2.reservation.calls = reservation.calls ++
            [.SetAllocatedResources r2.adjustedResources, .SetClusterParams r2.cparams] ∧
          ∃ st, placeLoop reservation.Resources (reservation.Resources.length + 1)
              (initState inv reservation) = some st ∧ r2.inv = st.currInventory) := by
  unfold Adjust
  simp only [hd1, hd2]
  cases hp : placeLoop reservation.Resources (reservation.Resources.length + 1)
      (initState inv reservation) with
  | none => simp
  | some st =>
    simp only
    split
    · refine ⟨by simp, ?_⟩
      intro r2 h
      injection h with h
      subst h
      refine ⟨fun hne => absurd rfl hne, fun _ => ⟨?_, st, rfl, by simp⟩⟩
      simp [ReservationGroup.SetAllocatedResources, ReservationGroup.SetClusterParams]
    · split
      · refine ⟨by simp, ?_⟩
        intro r2 h
        injection h with h
        subst h
        exact ⟨fun _ => rfl, fun he => absurd he (by simp)⟩
      · refine ⟨by simp, ?_⟩
        intro r2 h
        injection h with h
        subst h
        exact ⟨fun _ => rfl, fun he => absurd he (by simp)⟩

/-- Witness of C11 on scenario 2: both runs return OK and pass the same
allocated resources and cluster params; the dry run leaves the receiver with no
GPU allocated, the other run leaves two allocated. -/
theorem adjust_dry_run_equiv_witness :
    Adjust scenario2Inv scenario2Res [WithDryRun] =
        (Adjust scenario2Inv scenario2Res []).map (fun r => { r with inv := scenario2Inv }) ∧
      (Adjust scenario2Inv scenario2Res []).map (fun r => (r.err, r.reservation.calls)) =
        some (none,
          [.SetAllocatedResources [gpuGroup 2 "vendor/nvidia/model/a100"],
           .SetClusterParams [(1, some ⟨⟨⟨"nvidia", "a100"⟩⟩⟩)]]) ∧
      (Adjust scenario2Inv scenario2Res []).map
          (fun r => r.inv.Nodes.map (fun nd => nd.Resources.GPU.Quantity.Allocated)) =
        some [NewQuantity 2] ∧
      (Adjust scenario2Inv scenario2Res [WithDryRun]).map
          (fun r => r.inv.Nodes.map (fun nd => nd.Resources.GPU.Quantity.Allocated)) =
        some [NewQuantity 0] :=
  ⟨(adjust_dry_run_equiv scenario2Inv scenario2Res [WithDryRun] [] (by decide) (by decide)).1,
    by decide, by decide, by decide⟩

/-! ## The placement loop: further invariants from step conditions -/

/-- The replica loop under step conditions. -/
theorem replicaLoop_steps {orig : List ResourceUnit} {inv0 : Cluster}
    {J : Nat → AdjustState → Prop} {F : AdjustState → Prop} (hS : LoopSteps orig inv0 J F)
    (nodeIdx i : Nat) (v : Bool) (n : Nat) (adjusted : Resources) (st : AdjustState)
    (hP : PassInv orig inv0 i v n adjusted st) (hi : i + 1 = st.resources.length)
    (hJ : J nodeIdx st) :
    ((replicaLoop nodeIdx i v n adjusted st).1 = .next →
        J nodeIdx (replicaLoop nodeIdx i v n adjusted st).2) ∧
      ((replicaLoop nodeIdx i v n adjusted st).1 = .continueNodes →
        J (nodeIdx + 1) (replicaLoop nodeIdx i v n adjusted st).2) ∧
      ((replicaLoop nodeIdx i v n adjusted st).1 = .breakNodes →
        F (replicaLoop nodeIdx i v n adjusted st).2) := by
  induction n generalizing adjusted st with
  | zero =>
    refine ⟨fun _ => hJ, fun h => ?_, fun h => ?_⟩ <;> simp [replicaLoop] at h
  | succ n ih =>
    rw [replicaLoop_succ]
    split
    · exact ⟨fun h => by simp at h, fun h => by simp at h, fun h => by simp at h⟩
    · rename_i r hr
      have hcf := tryAdjust_cluster_fail _ _ _ _ hr
      split
      · rename_i hc
        have hc1 : r.clusterOk = false := by simpa using hc
        exact ⟨fun h => by simp at h, fun h => by simp at h,
          fun _ => hS.cfail i nodeIdx v n adjusted st r hP hi hJ hr (hcf hc1) hc1⟩
      · rename_i hc
        have hc1 : r.clusterOk = true := by simpa using hc
        split
        · rename_i hnk
          have hn1 : r.nodeOk = false := by simpa using hnk
          exact ⟨fun h => by simp at h,
            fun _ => hS.fail i nodeIdx v n adjusted st r hP hi hJ hr hn1 hc1,
            fun h => by simp at h⟩
        · rename_i hnk
          have hn1 : r.nodeOk = true := by simpa using hnk
          have hlen : i + 1 = (afterPlace st i nodeIdx v n adjusted r).resources.length := by
            simp [afterPlace, afterCall, setCount_length, hi]
          split
          · rename_i hv
            subst hv
            obtain ⟨a, ha, hadj⟩ := hP.adj
            have hself := afterCall_adj_self st i nodeIdx true adjusted r a ha
            simp only [↓reduceIte] at hself
            rw [hself]
            simp only
            have hmis := hS.mismatch i nodeIdx true n adjusted st r hP hi hJ hr hn1 rfl
            split
            · exact ⟨fun h => by simp at h, fun h => by simp at h, fun _ => hmis⟩
            · rename_i hres
              split
              · exact ⟨fun h => by simp at h, fun h => by simp at h, fun _ => hmis⟩
              · rename_i hsp
                have hres1 : r.res = adjusted := by
                  rw [← hadj]; exact not_not.mp hres
                have hsp1 : r.sparams = cparamsGet st.cparams r.res.ID := not_not.mp hsp
                have hP2 := step_place hP hr hn1 (fun _ => ⟨hres1, hsp1⟩)
                exact ih r.res _ hP2 hlen
                  (hS.place i nodeIdx true n adjusted st r hP hi hJ hr hn1
                    (fun _ => ⟨hres1, hsp1⟩))
          · rename_i hv
            have hv1 : v = false := by simpa using hv
            have hvf : v = true → r.res = adjusted ∧
                r.sparams = cparamsGet st.cparams r.res.ID := fun h => by
              rw [hv1] at h; simp at h
            have hP2 := step_place hP hr hn1 hvf
            exact ih r.res _ hP2 hlen (hS.place i nodeIdx v n adjusted st r hP hi hJ hr hn1 hvf)

/-- The head of the replica loop for the last group. -/
theorem groupLoop_head {orig : List ResourceUnit} {inv0 : Cluster} {st : AdjustState}
    (hI : Inv orig inv0 st) (he : st.err = none) (i : Nat) (hk : st.resources.length = i + 1) :
    ∃ o u a, orig[i]? = some o ∧ st.resources[i]? = some u ∧
      st.adjustedResources[i]? = some a ∧
      PassInv orig inv0 i (!(o.Count == u.Count)) u.Count a.Resources st := by
  have hil : i < st.resources.length := by omega
  obtain ⟨u, hu⟩ : ∃ u, st.resources[i]? = some u :=
    ⟨st.resources[i], List.getElem?_eq_getElem hil⟩
  obtain ⟨o, ho, huo, hule⟩ := hI.resEq i u hu
  have hia : i < st.adjustedResources.length := by
    rw [hI.lenA]; exact getElem?_lt ho
  obtain ⟨a, ha⟩ : ∃ a, st.adjustedResources[i]? = some a :=
    ⟨st.adjustedResources[i], List.getElem?_eq_getElem hia⟩
  refine ⟨o, u, a, ho, hu, ha, hI, he, ⟨u, hu, rfl⟩, ⟨a, ha, rfl⟩, ?_, ?_⟩
  · intro hv c hc hci
    have heq : o.Count = u.Count := by simpa using hv
    cases hcv : c.adjustedGroup with
    | false => rfl
    | true =>
      have := hI.ver c hc hcv u o (hci ▸ hu) (hci ▸ ho)
      omega
  · intro hv o1 ho1
    rw [ho] at ho1
    injection ho1 with ho1
    subst ho1
    have hne : o.Count ≠ u.Count := by simpa using hv
    omega

/-- The loop over the groups under step conditions, entered at the last
group: it falls through only when no group is left. -/
theorem groupLoop_steps {orig : List ResourceUnit} {inv0 : Cluster}
    {J : Nat → AdjustState → Prop} {F : AdjustState → Prop} (hS : LoopSteps orig inv0 J F)
    (nodeIdx : Nat) (st : AdjustState) (hI : Inv orig inv0 st) (he : st.err = none)
    (hJ : J nodeIdx st) :
    ((groupLoop orig nodeIdx st.resources.length st).1 = .next →
        st.resources = [] ∧ (groupLoop orig nodeIdx st.resources.length st).2 = st) ∧
      ((groupLoop orig nodeIdx st.resources.length st).1 = .gotoNodes →
        J 0 (groupLoop orig nodeIdx st.resources.length st).2) ∧
      ((groupLoop orig nodeIdx st.resources.length st).1 = .continueNodes →
        J (nodeIdx + 1) (groupLoop orig nodeIdx st.resources.length st).2) ∧
      ((groupLoop orig nodeIdx st.resources.length st).1 = .breakNodes →
        F (groupLoop orig nodeIdx st.resources.length st).2) := by
  generalize hk : st.resources.length = k
  cases k with
  | zero =>
    refine ⟨fun _ => ⟨List.length_eq_zero.mp hk, rfl⟩, fun h => ?_, fun h => ?_, fun h => ?_⟩ <;>
      simp [groupLoop] at h
  | succ i =>
    obtain ⟨o, u, a, ho, hu, ha, hP⟩ := groupLoop_head hI he i hk
    have hspec := replicaLoop_spec orig inv0 nodeIdx i _ _ _ _ hP
    have hstep := replicaLoop_steps hS nodeIdx i _ _ _ _ hP hk.symm hJ
    unfold groupLoop
    simp only [ho, hu, ha]
    cases hrl : replicaLoop nodeIdx i (!(o.Count == u.Count)) u.Count a.Resources st with
    | mk flow st1 =>
      rw [hrl] at hspec hstep
      obtain ⟨hI1, hlen, hnext, hcont, hng⟩ := hspec
      obtain ⟨hj1, hj2, hj3⟩ := hstep
      simp only at hI1 hlen hnext hcont hng hj1 hj2 hj3
      cases flow with
      | next =>
        obtain ⟨he1, u1, hu1, hc1⟩ := hnext rfl
        simp only [hu1, hc1, ↓reduceIte]
        refine ⟨fun h => by simp at h, fun _ => ?_, fun h => by simp at h, fun h => by simp at h⟩
        exact hS.erase i nodeIdx st1 u1 hI1 he1 (by omega) hu1 hc1 (hj1 rfl)
      | continueNodes =>
        exact ⟨fun h => by simp at h, fun h => by simp at h, fun _ => hj2 rfl,
          fun h => by simp at h⟩
      | breakNodes =>
        exact ⟨fun h => by simp at h, fun h => by simp at h, fun h => by simp at h,
          fun _ => hj3 rfl⟩
      | gotoNodes => exact absurd rfl hng
      | fault =>
        exact ⟨fun h => by simp at h, fun h => by simp at h, fun h => by simp at h,
          fun h => by simp at h⟩

/-- With no group left the loop over the nodes changes nothing. -/
theorem nodesLoop_nil (orig : List ResourceUnit) (remaining nodeIdx : Nat) (st : AdjustState)
    (h : st.resources = []) : nodesLoop orig remaining nodeIdx st = (.next, st) := by
  induction remaining generalizing nodeIdx with
  | zero => rfl
  | succ k ih =>
    unfold nodesLoop
    simp only [h, List.length_nil, groupLoop]
    exact ih (nodeIdx + 1)

/-- The loop over the nodes under step conditions. -/
theorem nodesLoop_steps {orig : List ResourceUnit} {inv0 : Cluster}
    {J : Nat → AdjustState → Prop} {F : AdjustState → Prop} (hS : LoopSteps orig inv0 J F)
    (remaining nodeIdx : Nat) (st : AdjustState) (hI : Inv orig inv0 st) (he : st.err = none)
    (hJ : J nodeIdx st) :
    ((nodesLoop orig remaining nodeIdx st).1 = .gotoNodes →
        J 0 (nodesLoop orig remaining nodeIdx st).2) ∧
      ((nodesLoop orig remaining nodeIdx st).1 = .next →
        F (nodesLoop orig remaining nodeIdx st).2) := by
  induction remaining generalizing nodeIdx st with
  | zero => exact ⟨fun h => by simp [nodesLoop] at h, fun _ => hS.final _ _ hJ⟩
  | succ k ih =>
    have hg := groupLoop_spec orig inv0 nodeIdx st hI he
    have hs := groupLoop_steps hS nodeIdx st hI he hJ
    unfold nodesLoop
    cases hgl : groupLoop orig nodeIdx st.resources.length st with
    | mk flow st1 =>
      rw [hgl] at hg hs
      obtain ⟨hI1, he1⟩ := hg
      obtain ⟨hs1, hs2, hs3, hs4⟩ := hs
      simp only at hI1 he1 hs1 hs2 hs3 hs4
      cases flow with
      | next =>
        obtain ⟨hnil, hst⟩ := hs1 rfl
        subst hst
        simp only
        rw [nodesLoop_nil orig k (nodeIdx + 1) st1 hnil]
        exact ⟨fun h => by simp at h, fun _ => hS.final _ _ hJ⟩
      | continueNodes => exact ih _ _ hI1 (he1 (by simp) (by simp)) (hs3 rfl)
      | breakNodes => exact ⟨fun h => by simp at h, fun _ => hs4 rfl⟩
      | gotoNodes => exact ⟨fun _ => hs2 rfl, fun h => by simp at h⟩
      | fault => exact ⟨fun h => by simp at h, fun h => by simp at h⟩

/-- The loop over the nodes ends by exhausting the range (or `break nodes`),
by `goto nodes`, or by a fault. -/
theorem nodesLoop_flow (orig : List ResourceUnit) (remaining nodeIdx : Nat) (st : AdjustState) :
    (nodesLoop orig remaining nodeIdx st).1 = .next ∨
      (nodesLoop orig remaining nodeIdx st).1 = .gotoNodes ∨
      (nodesLoop orig remaining nodeIdx st).1 = .fault := by
  induction remaining generalizing nodeIdx st with
  | zero => exact Or.inl rfl
  | succ k ih =>
    unfold nodesLoop
    cases hgl : groupLoop orig nodeIdx st.resources.length st with
    | mk flow st1 =>
      cases flow with
      | next => exact ih _ _
      | continueNodes => exact ih _ _
      | breakNodes => exact Or.inl rfl
      | gotoNodes => exact Or.inr (Or.inl rfl)
      | fault => exact Or.inr (Or.inr rfl)

/-- The placement loop under step conditions. -/
theorem placeLoop_steps {orig : List ResourceUnit} {inv0 : Cluster}
    {J : Nat → AdjustState → Prop} {F : AdjustState → Prop} (hS : LoopSteps orig inv0 J F)
    (rounds : Nat) (st st1 : AdjustState) (hI : Inv orig inv0 st) (he : st.err = none)
    (hJ : J 0 st) (h : placeLoop orig rounds st = some st1) : F st1 := by
  induction rounds generalizing st with
  | zero =>
    simp only [placeLoop, Option.some.injEq] at h
    exact h ▸ hS.final _ _ hJ
  | succ k ih =>
    have hn := nodesLoop_spec orig inv0 st.currInventory.Nodes.length 0 st hI he
    have hs := nodesLoop_steps hS st.currInventory.Nodes.length 0 st hI he hJ
    unfold placeLoop at h
    cases hnl : nodesLoop orig st.currInventory.Nodes.length 0 st with
    | mk flow st2 =>
      rw [hnl] at hn hs h
      obtain ⟨hI2, he2⟩ := hn
      obtain ⟨hs1, hs2⟩ := hs
      simp only at hI2 he2 hs1 hs2 h
      have hflow := (nodesLoop_flow orig st.currInventory.Nodes.length 0 st)
      rw [hnl] at hflow
      simp only at hflow
      cases flow with
      | gotoNodes => exact ih st2 hI2 (he2 rfl) (hs1 rfl) h
      | fault => simp at h
      | next => simp only [Option.some.injEq] at h; exact h ▸ hs2 rfl
      | continueNodes => simp at hflow
      | breakNodes => simp at hflow

/-! ## `tryAdjust`: the decision tree -/

/-- Every way `tryAdjust` returns: the CPU debit fails; or the GPU step
fails; or the memory debit fails; or the storage loop ends in a cluster
failure, a node failure or a placement. From the GPU step on, `*res` carries
what `tryAdjustGPU` left in the GPU section. -/
theorem tryAdjust_cases (inv : Cluster) (node : Nat) (res : Resources) (r : TryAdjustResult)
    (h : tryAdjust inv node res = some r) :
    ∃ nd c, inv.Nodes[node]? = some nd ∧ res.CPU = some c ∧
      (((nd.Resources.CPU.SubMilliNLZ c.Units).2 = false ∧ r = ⟨inv, res, none, false, true⟩) ∨
        ∃ cpu g0 out, nd.Resources.CPU.SubMilliNLZ c.Units = (cpu, true) ∧ res.GPU = some g0 ∧
          tryAdjustGPU nd.Resources.GPU (some g0) SchedulerParams.zero = some out ∧
          ((out.ok = false ∧ r = ⟨inv, { res with GPU := some out.res }, none, false, true⟩) ∨
            (out.ok = true ∧ ∃ mem, res.Memory = some mem ∧
              (((nd.Resources.Memory.SubNLZ mem.Quantity).2 = false ∧
                  r = ⟨inv, { res with GPU := some out.res }, none, false, true⟩) ∨
                ∃ m, nd.Resources.Memory.SubNLZ mem.Quantity = (m, true) ∧
                  ((adjustStorage res.Storage (debitNode nd cpu out.rp m) inv.Storage =
                        .clusterFail ∧
                      r = ⟨inv, { res with GPU := some out.res }, none, false, false⟩) ∨
                    (adjustStorage res.Storage (debitNode nd cpu out.rp m) inv.Storage =
                        .nodeFail ∧
                      r = ⟨inv, { res with GPU := some out.res }, none, false, true⟩) ∨
                    ∃ nd2 pools,
                      adjustStorage res.Storage (debitNode nd cpu out.rp m) inv.Storage =
                        .placed nd2 pools ∧
                      r = ⟨⟨inv.Nodes.set node nd2, pools⟩, { res with GPU := some out.res },
                        if out.sparams = SchedulerParams.zero then none else some out.sparams,
                        true, true⟩))))) := by
  unfold tryAdjust at h
  split at h
  · simp at h
  · rename_i nd hnd
    cases hc : res.CPU with
    | none => simp [hc, tryAdjustCPU] at h
    | some c =>
      refine ⟨nd, c, hnd, rfl, ?_⟩
      simp only [hc, tryAdjustCPU] at h
      cases hcpu : nd.Resources.CPU.SubMilliNLZ c.Units with
      | mk cpu b =>
        rw [hcpu] at h
        cases b with
        | false =>
          simp only at h
          injection h with h
          exact Or.inl ⟨rfl, h.symm⟩
        | true =>
          simp only at h
          refine Or.inr ?_
          cases hg0 : res.GPU with
          | none => simp [hg0, tryAdjustGPU] at h
          | some g0 =>
            rw [hg0] at h
            cases hout : tryAdjustGPU nd.Resources.GPU (some g0) SchedulerParams.zero with
            | none => simp [hout] at h
            | some out =>
              rw [hout] at h
              refine ⟨cpu, g0, out, rfl, rfl, hout, ?_⟩
              simp only at h
              cases hok : out.ok with
              | false =>
                simp only [hok, Bool.not_false, ↓reduceIte] at h
                injection h with h
                exact Or.inl ⟨rfl, h.symm⟩
              | true =>
                simp only [hok, Bool.not_true, Bool.false_eq_true, ↓reduceIte] at h
                refine Or.inr ⟨rfl, ?_⟩
                cases hmem : res.Memory with
                | none => simp [hmem] at h
                | some mem =>
                  rw [hmem] at h
                  refine ⟨mem, rfl, ?_⟩
                  simp only at h
                  cases hm : nd.Resources.Memory.SubNLZ mem.Quantity with
                  | mk m b =>
                    rw [hm] at h
                    cases b with
                    | false =>
                      simp only at h
                      injection h with h
                      exact Or.inl ⟨rfl, h.symm⟩
                    | true =>
                      simp only at h
                      refine Or.inr ⟨m, rfl, ?_⟩
                      simp only [debitNode]
                      split at h
                      · rename_i hs
                        injection h with h
                        exact Or.inl ⟨hs, h.symm⟩
                      · rename_i hs
                        injection h with h
                        exact Or.inr (Or.inl ⟨hs, h.symm⟩)
                      · rename_i nd2 pools hs
                        refine Or.inr (Or.inr ⟨nd2, pools, hs, ?_⟩)
                        split at h <;> rename_i hz
                        · injection h with h
                          rw [← h]; simp [hz]
                        · injection h with h
                          rw [← h]; simp [hz]

/-! ## C12: the allocated resources -/

/-- A scan that fails leaves everything as it was. -/
theorem gpuScan_fail (rp : GPU) (res : ResGPU) (sp : SchedulerParams) (attrs : GPUAttributes)
    (infos : List GPUInfo) (n : Nat) (h : (gpuScan rp res sp attrs infos n).ok = false) :
    gpuScan rp res sp attrs infos n = ⟨rp, res, sp, false⟩ := by
  induction infos generalizing n with
  | nil => rfl
  | cons info rest ih =>
    unfold gpuScan at h ⊢
    split
    · rename_i hm
      simp only [hm] at h
      exact ih n h
    · rename_i attr hm
      simp only [hm] at h
      split
      · rename_i hz
        simp only [hz, ↓reduceIte] at h
        split
        · rfl
        · rename_i q hq
          simp [hq] at h
      · rename_i hz
        simp only [hz, ↓reduceIte] at h
        exact ih (n - 1) h

/-- When `tryAdjustGPU` returns false it leaves the node GPU, the request
and the scheduler params as they were. -/
theorem tryAdjustGPU_fail (rp : GPU) (g : ResGPU) (sp : SchedulerParams) (out : GPUAdjust)
    (h : tryAdjustGPU rp (some g) sp = some out) (hok : out.ok = false) :
    out = ⟨rp, g, sp, false⟩ := by
  simp only [tryAdjustGPU] at h
  split at h
  · injection h with h; subst h; simp at hok
  · split at h
    · injection h with h; exact h.symm
    · split at h
      · injection h with h; exact h.symm
      · injection h with h
        subst h
        exact gpuScan_fail _ _ _ _ _ _ hok

/-- When `tryAdjustGPU` returns true the request it leaves is canonical. -/
theorem tryAdjustGPU_ok_canonical (rp : GPU) (g : ResGPU) (sp : SchedulerParams)
    (out : GPUAdjust) (res : Resources)
    (h : tryAdjustGPU rp (some g) sp = some out) (hok : out.ok = true) :
    CanonicalGPU { res with GPU := some out.res } := by
  intro g1 hg1 hu
  simp only [Option.some.injEq] at hg1
  subst hg1
  have hunits := tryAdjustGPU_units _ _ _ _ h
  simp only [tryAdjustGPU] at h
  have hne : g.Units ≠ 0 := by omega
  simp only [hne, ↓reduceIte] at h
  split at h
  · injection h with h; subst h; simp at hok
  · split at h
    · injection h with h; subst h; simp at hok
    · injection h with h
      subst h
      obtain ⟨_, info, _, attr, _, _, _, h4⟩ := gpuScan_ok _ _ _ _ _ _ (by omega) hok
      rw [h4]
      exact ⟨_, _, _, _, by rw [gpuKey_eq_canonicalKey]⟩

/-- What `tryAdjust` leaves in `*res` is what it was given or canonical, and
canonical whenever the replica was placed. -/
theorem tryAdjust_res_canonical (inv : Cluster) (node : Nat) (res : Resources)
    (r : TryAdjustResult) (h : tryAdjust inv node res = some r) :
    (r.res = res ∨ CanonicalGPU r.res) ∧ (r.nodeOk = true → CanonicalGPU r.res) := by
  obtain ⟨nd, c, _, _, h1 | ⟨cpu, g0, out, _, hg0, hout, h2⟩⟩ := tryAdjust_cases _ _ _ _ h
  · obtain ⟨_, rfl⟩ := h1
    exact ⟨Or.inl rfl, fun h => by simp at h⟩
  · rcases h2 with ⟨hok, rfl⟩ | ⟨hok, mem, _, h3⟩
    · have := tryAdjustGPU_fail _ _ _ _ hout hok
      subst this
      refine ⟨Or.inl ?_, fun h => by simp at h⟩
      simp only
      rw [← hg0]
    · have hcan : CanonicalGPU { res with GPU := some out.res } :=
        tryAdjustGPU_ok_canonical _ _ _ _ res hout hok
      rcases h3 with ⟨_, rfl⟩ | ⟨m, _, ⟨_, rfl⟩ | ⟨_, rfl⟩ | ⟨nd2, pools, _, rfl⟩⟩ <;>
        exact ⟨Or.inr hcan, fun _ => hcan⟩

/-- A call of `tryAdjust` keeps the canonical form of the placed groups. -/
theorem canon_afterCall {orig : List ResourceUnit} {inv0 : Cluster} {i nodeIdx : Nat} {v : Bool}
    {n : Nat} {adjusted : Resources} {st : AdjustState} {r : TryAdjustResult}
    (hP : PassInv orig inv0 i v (n + 1) adjusted st) (hK : CanonInv orig st)
    (hr : tryAdjust st.currInventory nodeIdx adjusted = some r) :
    CanonInv orig (afterCall st i nodeIdx v adjusted r) := by
  intro j a ha hpl
  have hpl0 : Placed orig st j := hpl
  by_cases hj : j = i
  · subst hj
    obtain ⟨a0, ha0, hadj⟩ := hP.adj
    rw [afterCall_adj_self st j nodeIdx v adjusted r a0 ha0] at ha
    injection ha with ha
    cases v with
    | true =>
      simp only [↓reduceIte] at ha
      subst ha
      exact hK j a0 ha0 hpl0
    | false =>
      simp only [Bool.false_eq_true, ↓reduceIte] at ha
      subst ha
      rcases (tryAdjust_res_canonical _ _ _ _ hr).1 with h1 | h1
      · simp only [h1, ← hadj]
        exact hK j a0 ha0 hpl0
      · exact h1
  · rw [afterCall_adj_other st i nodeIdx v adjusted r j hj] at ha
    exact hK j a ha hpl0

/-- The canonical form of the placed groups is kept by every step of the
placement loop. -/
theorem canon_steps (orig : List ResourceUnit) (inv0 : Cluster) :
    LoopSteps orig inv0 (fun _ st => CanonInv orig st) (CanonInv orig) where
  fail := fun i nodeIdx v n adjusted st r hP _ hK hr _ _ => canon_afterCall hP hK hr
  cfail := fun i nodeIdx v n adjusted st r hP _ hK hr _ _ => canon_afterCall hP hK hr
  mismatch := fun i nodeIdx v n adjusted st r hP _ hK hr _ _ => canon_afterCall hP hK hr
  place := by
    intro i nodeIdx v n adjusted st r hP _ hK hr hok hchk j a ha hpl
    have hK1 : CanonInv orig (afterCall st i nodeIdx v adjusted r) :=
      canon_afterCall hP hK hr
    have ha1 : (afterCall st i nodeIdx v adjusted r).adjustedResources[j]? = some a := ha
    by_cases hj : j = i
    · subst hj
      obtain ⟨a0, ha0, hadj⟩ := hP.adj
      rw [afterCall_adj_self st j nodeIdx v adjusted r a0 ha0] at ha1
      injection ha1 with ha1
      cases v with
      | true =>
        simp only [↓reduceIte] at ha1
        subst ha1
        obtain ⟨o, ho, _⟩ := hpl
        obtain ⟨u, hu, hcnt⟩ := hP.cnt
        exact hK j a0 ha0 ⟨o, ho, Or.inl ⟨u, hu, by have := hP.vlt rfl o ho; omega⟩⟩
      | false =>
        simp only [Bool.false_eq_true, ↓reduceIte] at ha1
        subst ha1
        exact (tryAdjust_res_canonical _ _ _ _ hr).2 hok
    · apply hK1 j a ha1
      obtain ⟨o, ho, hcase⟩ := hpl
      refine ⟨o, ho, ?_⟩
      rcases hcase with ⟨u, hu, hlt⟩ | ⟨hlen, hc⟩
      · left
        simp only [afterPlace, afterCall, setCount_get] at hu
        cases hj0 : st.resources[j]? with
        | none => rw [hj0] at hu; simp at hu
        | some w =>
          rw [hj0] at hu
          simp only [Option.map_some', Option.some.injEq] at hu
          have hij : ¬ i = j := fun h => hj h.symm
          simp only [hij, ↓reduceIte] at hu
          subst hu
          exact ⟨w, hj0, hlt⟩
      · right
        simp only [afterPlace, afterCall, setCount_length] at hlen
        exact ⟨hlen, hc⟩
  erase := by
    intro i nodeIdx st u hI he hi hu hc hK j a ha hpl
    apply hK j a ha
    obtain ⟨o, ho, hcase⟩ := hpl
    refine ⟨o, ho, ?_⟩
    rcases hcase with ⟨w, hw, hlt⟩ | ⟨hlen, hc1⟩
    · left
      simp only [List.getElem?_eraseIdx] at hw
      split at hw
      · exact ⟨w, hw, hlt⟩
      · have := getElem?_lt hw
        omega
    · simp only [List.length_eraseIdx] at hlen
      by_cases hji : j = i
      · subst hji
        exact Or.inl ⟨u, hu, by omega⟩
      · right
        refine ⟨?_, hc1⟩
        split at hlen <;> omega
  final := fun _ _ h => h

/-- Before the loop no group has had a replica placed. -/
theorem canon_init (inv : Cluster) (reservation : ReservationGroup) :
    CanonInv reservation.Resources (initState inv reservation) := by
  intro i a _ hpl
  obtain ⟨o, ho, ⟨u, hu, hlt⟩ | ⟨hlen, _⟩⟩ := hpl
  · simp only [initState, List.getElem?_map, ho, Option.map_some', Option.some.injEq] at hu
    subst hu
    simp at hlt
  · have := getElem?_lt ho
    simp only [initState, List.length_map] at hlen
    omega

/-- C12: when `Adjust` returns OK, the list passed to `SetAllocatedResources`
(the local `adjustedResources`) has the length and order of the reservation's
resource units; the entry at each index keeps the original replica count, id,
CPU, memory, storage entries and GPU units of the input unit at that index, so
it differs from it at most in the GPU attributes; and for every group with at
least one replica (every placed group) that asks for at least one GPU unit the
GPU attributes are a single entry with value `"true"` and a canonical key. -/
theorem adjust_allocated_resources (inv : Cluster) (reservation : ReservationGroup)
    (opts : List InventoryOption) (r : AdjustResult)
    (h : Adjust inv reservation opts = some r) (hok : r.err = none) :
    r.reservation.calls = reservation.calls ++
        [.SetAllocatedResources r.adjustedResources, .SetClusterParams r.cparams] ∧
      r.adjustedResources.length = reservation.Resources.length ∧
      ∀ (i : Nat) (u : ResourceUnit), reservation.Resources[i]? = some u →
        ∃ a : ResourceUnit, r.adjustedResources[i]? = some a ∧ a.Count = u.Count ∧
          a.Resources.ID = u.Resources.ID ∧ a.Resources.CPU = u.Resources.CPU ∧
          a.Resources.Memory = u.Resources.Memory ∧
          a.Resources.Storage = u.Resources.Storage ∧
          a.Resources.GPU.map (fun g => g.Units) = u.Resources.GPU.map (fun g => g.Units) ∧
          (1 ≤ u.Count → ∀ g : ResGPU, a.Resources.GPU = some g → 1 ≤ g.Units →
            ∃ v m ram ifc : String,
              g.Attributes = [⟨canonicalKey v m ram ifc, "true"⟩]) := by
  unfold Adjust at h
  simp only at h
  split at h
  · simp at h
  · rename_i st hst
    have hI := adjust_loop_inv inv reservation st hst
    have hK : CanonInv reservation.Resources st :=
      placeLoop_steps (canon_steps reservation.Resources inv) _ _ _
        (initState_inv inv reservation) rfl (canon_init inv reservation) hst
    split at h
    · rename_i hlen
      injection h with h
      subst h
      refine ⟨by simp [ReservationGroup.SetAllocatedResources,
        ReservationGroup.SetClusterParams], hI.lenA, ?_⟩
      intro i u hu
      have hia : i < st.adjustedResources.length := by
        rw [hI.lenA]; exact getElem?_lt hu
      obtain ⟨a, ha⟩ : ∃ a, st.adjustedResources[i]? = some a :=
        ⟨st.adjustedResources[i], List.getElem?_eq_getElem hia⟩
      obtain ⟨o, ho, hc, hs1, hs2, hs3, hs4, hs5⟩ := hI.adjEq i a ha
      rw [hu] at ho
      injection ho with ho
      subst ho
      refine ⟨a, ha, hc, hs1.symm, hs2.symm, hs3.symm, hs4.symm, hs5.symm, fun h1 => ?_⟩
      exact hK i a ha ⟨u, hu, Or.inr ⟨by omega, h1⟩⟩
    · split at h <;> (injection h with h; subst h; simp at hok)

/-- Witness of C12 on scenario 2: the list passed is the one group with its
count 2 and the GPU attributes rewritten to `vendor/nvidia/model/a100`. -/
theorem adjust_allocated_resources_witness :
    ∃ r, Adjust scenario2Inv scenario2Res [] = some r ∧ r.err = none ∧
      r.adjustedResources = [gpuGroup 2 "vendor/nvidia/model/a100"] ∧
      r.reservation.calls =
        [.SetAllocatedResources r.adjustedResources, .SetClusterParams r.cparams] ∧
      r.adjustedResources.length = 1 := by
  have he : (Adjust scenario2Inv scenario2Res []).map
      (fun r => (r.err, r.adjustedResources)) =
      some (none, [gpuGroup 2 "vendor/nvidia/model/a100"]) := by decide
  obtain ⟨r, hr, hp⟩ := Option.map_eq_some'.mp he
  simp only [Prod.mk.injEq] at hp
  obtain ⟨h1, h2, _⟩ := adjust_allocated_resources scenario2Inv scenario2Res [] r hr hp.1
  exact ⟨r, hr, hp.1, hp.2, h1, h2⟩

/-! ## C13: where the scan goes on after a group is exhausted -/

/-- One more call at the scan position keeps the order of the calls. -/
theorem follows_append {nodeIdx i : Nat} {st : AdjustState} (c : TryCall)
    (hch : st.trace.Chain' Follows) (hL : LastCall nodeIdx st)
    (hi : i + 1 = st.resources.length) (hg : c.group = i) (hn : c.node = nodeIdx) :
    (st.trace ++ [c]).Chain' Follows := by
  rw [List.chain'_append]
  refine ⟨hch, List.chain'_singleton c, ?_⟩
  intro x hx y hy
  simp only [List.head?_cons, Option.mem_def, Option.some.injEq] at hx hy
  subst hy
  rcases hL x hx with ⟨h1, h2, h3⟩ | ⟨h1, h2, h3, h4, _⟩ | ⟨h1, h2, h3⟩
  · exact Or.inl ⟨by omega, h2, by omega⟩
  · exact Or.inr (Or.inl ⟨by omega, h2, h3, by omega⟩)
  · exact Or.inr (Or.inr ⟨by omega, h3, by omega⟩)

/-- The order of the calls is kept by every step of the placement loop. -/
theorem follows_steps (orig : List ResourceUnit) (inv0 : Cluster) :
    LoopSteps orig inv0 (fun nodeIdx st => st.trace.Chain' Follows ∧ LastCall nodeIdx st)
      (fun st => st.trace.Chain' Follows) where
  fail := by
    intro i nodeIdx v n adjusted st r hP hi hJ hr hok hc
    refine ⟨follows_append _ hJ.1 hJ.2 hi rfl rfl, ?_⟩
    intro c hc1
    simp only [afterCall, List.getLast?_concat, Option.some.injEq] at hc1
    subst hc1
    obtain ⟨u, hu, hcnt⟩ := hP.cnt
    exact Or.inr (Or.inl ⟨hi, hok, hc, rfl, u, hu, by omega⟩)
  cfail := fun i nodeIdx v n adjusted st r hP hi hJ hr _ _ =>
    follows_append _ hJ.1 hJ.2 hi rfl rfl
  mismatch := fun i nodeIdx v n adjusted st r hP hi hJ hr _ _ =>
    follows_append _ hJ.1 hJ.2 hi rfl rfl
  place := by
    intro i nodeIdx v n adjusted st r hP hi hJ hr hok _
    refine ⟨follows_append _ hJ.1 hJ.2 hi rfl rfl, ?_⟩
    intro c hc1
    simp only [afterPlace, afterCall, List.getLast?_concat, Option.some.injEq] at hc1
    subst hc1
    refine Or.inl ⟨?_, hok, rfl⟩
    simp only [afterPlace, afterCall, setCount_length]
    exact hi
  erase := by
    intro i nodeIdx st u hI he hi hu hc hJ
    refine ⟨hJ.1, ?_⟩
    intro c hc1
    have hlen : (st.resources.eraseIdx i).length = i := by
      simp only [List.length_eraseIdx]
      split <;> omega
    rw [hlen]
    rcases hJ.2 c hc1 with ⟨h1, h2, _⟩ | ⟨h1, _, _, _, w, hw, hw1⟩ | ⟨_, h2, h3⟩
    · exact Or.inr (Or.inr ⟨rfl, by omega, h2⟩)
    · have hci : c.group = i := by omega
      rw [hci, hu] at hw
      injection hw with hw
      subst hw
      omega
    · exact Or.inr (Or.inr ⟨rfl, by omega, h3⟩)
  final := fun _ _ h => h.1

/-- The calls `Adjust` makes follow each other as `Follows` says. -/
theorem adjust_trace_chain (inv : Cluster) (reservation : ReservationGroup)
    (opts : List InventoryOption) (r : AdjustResult)
    (h : Adjust inv reservation opts = some r) : r.trace.Chain' Follows := by
  unfold Adjust at h
  simp only at h
  split at h
  · simp at h
  · rename_i st hst
    have hF : st.trace.Chain' Follows :=
      placeLoop_steps (follows_steps reservation.Resources inv) _ _ _
        (initState_inv inv reservation) rfl
        ⟨List.chain'_nil, fun c hc => by simp [initState] at hc⟩ hst
    split at h
    · injection h with h; subst h; exact hF
    · split at h <;> (injection h with h; subst h; exact hF)

/-- The loop over the nodes appends one entry per node, in order, and adds the
entry's fields to the running totals in `uint64` arithmetic. -/
theorem metricsNodes_spec (nds : List Node) (s : MetricsState) :
    (metricsNodes nds s).nodes = s.nodes ++ nds.map nodeEntry ∧
      (metricsNodes nds s).cpuTotal % 2 ^ 64 =
        (s.cpuTotal + ((nds.map nodeEntry).map (fun m => m.Allocatable.CPU)).sum) % 2 ^ 64 ∧
      (metricsNodes nds s).gpuTotal % 2 ^ 64 =
        (s.gpuTotal + ((nds.map nodeEntry).map (fun m => m.Allocatable.GPU)).sum) % 2 ^ 64 ∧
      (metricsNodes nds s).memoryTotal % 2 ^ 64 =
        (s.memoryTotal + ((nds.map nodeEntry).map (fun m => m.Allocatable.Memory)).sum) %
          2 ^ 64 ∧
      (metricsNodes nds s).storageEphemeralTotal % 2 ^ 64 =
        (s.storageEphemeralTotal +
          ((nds.map nodeEntry).map (fun m => m.Allocatable.StorageEphemeral)).sum) % 2 ^ 64 ∧
      (metricsNodes nds s).cpuAvailable % 2 ^ 64 =
        (s.cpuAvailable + ((nds.map nodeEntry).map (fun m => m.Available.CPU)).sum) % 2 ^ 64 ∧
      (metricsNodes nds s).gpuAvailable % 2 ^ 64 =
        (s.gpuAvailable + ((nds.map nodeEntry).map (fun m => m.Available.GPU)).sum) % 2 ^ 64 ∧
      (metricsNodes nds s).memoryAvailable % 2 ^ 64 =
        (s.memoryAvailable + ((nds.map nodeEntry).map (fun m => m.Available.Memory)).sum) %
          2 ^ 64 ∧
      (metricsNodes nds s).storageEphemeralAvailable % 2 ^ 64 =
        (s.storageEphemeralAvailable +
          ((nds.map nodeEntry).map (fun m => m.Available.StorageEphemeral)).sum) % 2 ^ 64 := by
  induction nds generalizing s with
  | nil => simp [metricsNodes]
  | cons nd rest ih =>
    unfold metricsNodes
    obtain ⟨h0, h1, h2, h3, h4, h5, h6, h7, h8⟩ := ih
      { cpuTotal := u64 (s.cpuTotal + u64 (MilliValue nd.Resources.CPU.Allocatable))
        gpuTotal := u64 (s.gpuTotal + u64 (Value nd.Resources.GPU.Quantity.Allocatable))
        memoryTotal := u64 (s.memoryTotal + u64 (Value nd.Resources.Memory.Allocatable))
        storageEphemeralTotal :=
          u64 (s.storageEphemeralTotal + u64 (Value nd.Resources.EphemeralStorage.Allocatable))
        cpuAvailable := u64 (s.cpuAvailable + u64 (MilliValue nd.Resources.CPU.Available))
        gpuAvailable := u64 (s.gpuAvailable + u64 (Value nd.Resources.GPU.Quantity.Available))
        memoryAvailable := u64 (s.memoryAvailable + u64 (Value nd.Resources.Memory.Available))
        storageEphemeralAvailable :=
          u64 (s.storageEphemeralAvailable + u64 (Value nd.Resources.EphemeralStorage.Available))
        nodes := s.nodes ++ [nodeEntry nd] }
    simp only [List.map_cons, List.sum_cons]
    refine ⟨h0.trans ?_, h1.trans ?_, h2.trans ?_, h3.trans ?_, h4.trans ?_, h5.trans ?_,
      h6.trans ?_, h7.trans ?_, h8.trans ?_⟩
    · simp
    · simp only [u64, nodeEntry]; omega
    · simp only [u64, nodeEntry]; omega
    · simp only [u64, nodeEntry]; omega
    · simp only [u64, nodeEntry]; omega
    · simp only [u64, nodeEntry]; omega
    · simp only [u64, nodeEntry]; omega
    · simp only [u64, nodeEntry]; omega
    · simp only [u64, nodeEntry]; omega

/-- The running totals stay within `uint64`. -/
theorem metricsNodes_lt (nds : List Node) (s : MetricsState)
    (h : s.cpuTotal < 2 ^ 64 ∧ s.gpuTotal < 2 ^ 64 ∧ s.memoryTotal < 2 ^ 64 ∧
      s.storageEphemeralTotal < 2 ^ 64 ∧ s.cpuAvailable < 2 ^ 64 ∧ s.gpuAvailable < 2 ^ 64 ∧
      s.memoryAvailable < 2 ^ 64 ∧ s.storageEphemeralAvailable < 2 ^ 64) :
    (metricsNodes nds s).cpuTotal < 2 ^ 64 ∧ (metricsNodes nds s).gpuTotal < 2 ^ 64 ∧
      (metricsNodes nds s).memoryTotal < 2 ^ 64 ∧
      (metricsNodes nds s).storageEphemeralTotal < 2 ^ 64 ∧
      (metricsNodes nds s).cpuAvailable < 2 ^ 64 ∧ (metricsNodes nds s).gpuAvailable < 2 ^ 64 ∧
      (metricsNodes nds s).memoryAvailable < 2 ^ 64 ∧
      (metricsNodes nds s).storageEphemeralAvailable < 2 ^ 64 := by
  induction nds generalizing s with
  | nil => exact h
  | cons nd rest ih =>
    unfold metricsNodes
    apply ih
    simp only [u64]
    refine ⟨?_, ?_, ?_, ?_, ?_, ?_, ?_, ?_⟩ <;> exact Nat.mod_lt _ (by decide)

/-- A class no pool carries is not written by the loop over the pools. -/
theorem metricsStorage_other (ps : List Storage) (t a : List (String × Nat)) (k : String)
    (hk : k ∉ ps.map (fun p => p.Class)) :
    mapGet (metricsStorage ps (t, a)).1 k = mapGet t k ∧
      mapGet (metricsStorage ps (t, a)).2 k = mapGet a k := by
  induction ps generalizing t a with
  | nil => exact ⟨rfl, rfl⟩
  | cons p rest ih =>
    simp only [List.map_cons, List.mem_cons, not_or] at hk
    unfold metricsStorage
    obtain ⟨h1, h2⟩ := ih (mapSet t p.Class (Value p.Quantity.Allocatable))
      (mapSet a p.Class (Value p.Quantity.Available)) hk.2
    rw [h1, h2, mapGet_mapSet, mapGet_mapSet]
    have hne : ¬ p.Class = k := fun h => hk.1 h.symm
    simp [hne]

/-- With pairwise distinct classes, the maps hold each pool's quantities under
its class. -/
theorem metricsStorage_get (ps : List Storage) (t a : List (String × Nat))
    (hnd : (ps.map (fun p => p.Class)).Nodup) (p : Storage) (hp : p ∈ ps) :
    mapGet (metricsStorage ps (t, a)).1 p.Class = some (Value p.Quantity.Allocatable) ∧
      mapGet (metricsStorage ps (t, a)).2 p.Class = some (Value p.Quantity.Available) := by
  induction ps generalizing t a with
  | nil => simp at hp
  | cons q rest ih =>
    simp only [List.map_cons, List.nodup_cons] at hnd
    unfold metricsStorage
    rcases List.mem_cons.mp hp with rfl | hp1
    · obtain ⟨h1, h2⟩ := metricsStorage_other rest
        (mapSet t p.Class (Value p.Quantity.Allocatable))
        (mapSet a p.Class (Value p.Quantity.Available)) p.Class hnd.1
      rw [h1, h2, mapGet_mapSet, mapGet_mapSet]
      simp
    · exact ih _ _ hnd.2 hp1

/-- C14: `Metrics` leaves the inventory unchanged and returns one node entry
per node in node order, carrying the node's name and its allocatable and
available CPU (milli), GPU, memory and ephemeral storage; each field of
`TotalAllocatable` and `TotalAvailable` is the sum, in 64-bit unsigned
arithmetic, of that field over the node entries; no class other than a pool's
is a key of the storage maps, and when the pool classes are pairwise distinct
the maps hold under each pool's class that pool's allocatable and available
quantity. -/
theorem metrics_spec (inv : Cluster) :
    (Metrics inv).1 = inv ∧
      (Metrics inv).2.Nodes = inv.Nodes.map nodeEntry ∧
      ((Metrics inv).2.TotalAllocatable.CPU =
          u64 (((Metrics inv).2.Nodes.map (fun m => m.Allocatable.CPU)).sum) ∧
        (Metrics inv).2.TotalAllocatable.GPU =
          u64 (((Metrics inv).2.Nodes.map (fun m => m.Allocatable.GPU)).sum) ∧
        (Metrics inv).2.TotalAllocatable.Memory =
          u64 (((Metrics inv).2.Nodes.map (fun m => m.Allocatable.Memory)).sum) ∧
        (Metrics inv).2.TotalAllocatable.StorageEphemeral =
          u64 (((Metrics inv).2.Nodes.map (fun m => m.Allocatable.StorageEphemeral)).sum) ∧
        (Metrics inv).2.TotalAvailable.CPU =
          u64 (((Metrics inv).2.Nodes.map (fun m => m.Available.CPU)).sum) ∧
        (Metrics inv).2.TotalAvailable.GPU =
          u64 (((Metrics inv).2.Nodes.map (fun m => m.Available.GPU)).sum) ∧
        (Metrics inv).2.TotalAvailable.Memory =
          u64 (((Metrics inv).2.Nodes.map (fun m => m.Available.Memory)).sum) ∧
        (Metrics inv).2.TotalAvailable.StorageEphemeral =
          u64 (((Metrics inv).2.Nodes.map (fun m => m.Available.StorageEphemeral)).sum)) ∧
      (∀ k, k ∉ inv.Storage.map (fun p => p.Class) →
        mapGet (Metrics inv).2.TotalAllocatable.Storage k = none ∧
          mapGet (Metrics inv).2.TotalAvailable.Storage k = none) ∧
      ((inv.Storage.map (fun p => p.Class)).Nodup →
        ∀ p ∈ inv.Storage,
          mapGet (Metrics inv).2.TotalAllocatable.Storage p.Class =
              some (Value p.Quantity.Allocatable) ∧
            mapGet (Metrics inv).2.TotalAvailable.Storage p.Class =
              some (Value p.Quantity.Available)) := by
  obtain ⟨h0, h1, h2, h3, h4, h5, h6, h7, h8⟩ :=
    metricsNodes_spec inv.Nodes ⟨0, 0, 0, 0, 0, 0, 0, 0, []⟩
  obtain ⟨l1, l2, l3, l4, l5, l6, l7, l8⟩ :=
    metricsNodes_lt inv.Nodes ⟨0, 0, 0, 0, 0, 0, 0, 0, []⟩ (by decide)
  simp only [List.nil_append, Nat.zero_add] at h0 h1 h2 h3 h4 h5 h6 h7 h8
  rw [Nat.mod_eq_of_lt l1] at h1
  rw [Nat.mod_eq_of_lt l2] at h2
  rw [Nat.mod_eq_of_lt l3] at h3
  rw [Nat.mod_eq_of_lt l4] at h4
  rw [Nat.mod_eq_of_lt l5] at h5
  rw [Nat.mod_eq_of_lt l6] at h6
  rw [Nat.mod_eq_of_lt l7] at h7
  rw [Nat.mod_eq_of_lt l8] at h8
  refine ⟨rfl, h0, ?_, ?_, ?_⟩
  · simp only [Metrics, h0, u64]
    exact ⟨h1, h2, h3, h4, h5, h6, h7, h8⟩
  · intro k hk
    exact metricsStorage_other inv.Storage [] [] k hk
  · intro hnd p hp
    exact metricsStorage_get inv.Storage [] [] hnd p hp

/-- The metrics of the inventory `NewNull` builds: the node `solo` with
CPU 5000m (4900m available), two GPUs (one available), 32Gi of memory (31Gi
available), 512Gi of ephemeral storage (502Gi available), and 10Gi available in
the pool `beta2`. -/
theorem metrics_nullInv :
    (Metrics nullInv).2 =
      { Nodes := [⟨"solo", ⟨5000, 2, 32 * Gi, 512 * Gi⟩, ⟨4900, 1, 31 * Gi, 502 * Gi⟩⟩]
        TotalAllocatable := ⟨5000, 2, 32 * Gi, 512 * Gi, [("beta2", 512 * Gi)]⟩
        TotalAvailable := ⟨4900, 1, 31 * Gi, 502 * Gi, [("beta2", 10 * Gi)]⟩ } := by
  decide

/-! ## C15: the commit step -/

/-- The pool loop of the commit step debits the first pool whose class matches
and no other. -/
theorem commitPool_eq (cls : String) (q : Nat) (pools : List Storage) :
    commitPool cls q pools =
      match pools.findIdx? (fun p => p.Class == cls) with
      | none => pools
      | some idx => pools.modify (fun p => { p with Quantity := debitPair p.Quantity q }) idx := by
  induction pools with
  | nil => rfl
  | cons p ps ih =>
    unfold commitPool
    by_cases hc : p.Class = cls
    · simp [hc, debitPair]
    · have hb : (p.Class == cls) = false := by simpa using hc
      simp only [hc, ↓reduceIte, List.findIdx?_cons, hb, Bool.false_eq_true, Nat.zero_add,
        List.findIdx?_succ]
      rw [ih]
      cases List.findIdx? (fun p => p.Class == cls) ps <;> simp

/-- Where the commit step debits one storage entry is where the spec's words
put it. -/
theorem applyDebit_storage (a : StorageAttributes) (q : Nat) (ndRes : NodeResources)
    (pools : List Storage) :
    applyDebit (ndRes, pools) (storageDebit a q) =
      if !a.Persistent then
        if a.Class = StorageClassRAM then
          ({ ndRes with Memory := (ndRes.Memory.SubNLZ q).1 }, pools)
        else ({ ndRes with EphemeralStorage := (ndRes.EphemeralStorage.SubNLZ q).1 }, pools)
      else (ndRes, commitPool a.Class q pools) := by
  obtain ⟨pers, cls⟩ := a
  cases pers with
  | false =>
    by_cases hc : cls = "ram"
    · simp [storageDebit, applyDebit, debitPair, StorageClassRAM, hc]
    · simp [storageDebit, applyDebit, debitPair, StorageClassRAM, hc]
  | true =>
    simp only [storageDebit, Bool.true_eq_false, false_and, ↓reduceIte, applyDebit,
      Bool.not_true, Bool.false_eq_true]
    rw [commitPool_eq]
    cases List.findIdx? (fun p => p.Class == cls) pools <;> rfl

/-- The storage loop of the commit step makes the debits of the entries, in
order. -/
theorem commitStorage_eq (errAttrs : StorageAttributes) (sts : List ResStorage)
    (ndRes : NodeResources) (pools : List Storage) :
    commitStorage errAttrs sts ndRes pools =
      (sts.map (fun s =>
        storageDebit ((ParseStorageAttributes s.Attributes).getD errAttrs) s.Quantity)).foldl
        applyDebit (ndRes, pools) := by
  induction sts generalizing ndRes pools with
  | nil => rfl
  | cons s rest ih =>
    unfold commitStorage
    simp only [List.map_cons, List.foldl_cons]
    rw [applyDebit_storage]
    split
    · split
      · exact ih _ _
      · exact ih _ _
    · exact ih _ _

/-- The CPU, GPU and memory debits of one unit, as debits in the spec's words. -/
theorem commitNode_eq (ndRes : NodeResources) (res : Resources) (pools : List Storage) :
    (commitNode ndRes res, pools) =
      ((res.CPU.toList.map (fun c => Debit.cpu c.Units)) ++
        (res.GPU.toList.map (fun g => Debit.gpu g.Units)) ++
        (res.Memory.toList.map (fun m => Debit.memory m.Quantity))).foldl applyDebit
        (ndRes, pools) := by
  obtain ⟨id, cpu, gpu, mem, sts⟩ := res
  cases cpu <;> cases gpu <;> cases mem <;> rfl

/-- The commit step makes the debits of the request, in order. -/
theorem commitUnits_eq (errAttrs : StorageAttributes) (ru : List ResourceUnit)
    (ndRes : NodeResources) (pools : List Storage) :
    commitUnits errAttrs ru ndRes pools =
      (requestDebits errAttrs ru).foldl applyDebit (ndRes, pools) := by
  induction ru generalizing ndRes pools with
  | nil => rfl
  | cons u rest ih =>
    unfold commitUnits
    simp only
    rw [ih, Prod.mk.eta, commitStorage_eq, commitNode_eq, ← List.foldl_append,
      ← List.foldl_append]
    simp only [requestDebits, List.flatMap_cons, List.append_assoc]

theorem debited_refl (m : ResourcePair) : Debited m m := ⟨rfl, rfl, Nat.le_refl _⟩

theorem debited_trans {a b c : ResourcePair} (h1 : Debited a b) (h2 : Debited b c) :
    Debited a c :=
  ⟨h2.1.trans h1.1, h2.2.1.trans h1.2.1, Nat.le_trans h1.2.2 h2.2.2⟩

theorem debitPair_debited (m : ResourcePair) (q : Nat) : Debited m (debitPair m q) := by
  unfold debitPair ResourcePair.SubNLZ
  split
  · exact debited_refl m
  · exact ⟨rfl, rfl, Nat.le_add_right _ _⟩

theorem poolsFrame_refl (ps : List Storage) : PoolsFrame ps ps := by
  induction ps with
  | nil => exact List.Forall₂.nil
  | cons p ps ih => exact List.Forall₂.cons ⟨rfl, rfl, debited_refl _⟩ ih

theorem poolsFrame_trans {a b c : List Storage} (h1 : PoolsFrame a b) (h2 : PoolsFrame b c) :
    PoolsFrame a c := by
  induction h1 generalizing c with
  | nil => cases h2; exact List.Forall₂.nil
  | cons hab _ ih =>
    cases h2 with
    | cons hbc hrest =>
      exact List.Forall₂.cons
        ⟨hbc.1.trans hab.1, hbc.2.1.trans hab.2.1, debited_trans hab.2.2 hbc.2.2⟩ (ih hrest)

theorem commitPool_frame (cls : String) (q : Nat) (pools : List Storage) :
    PoolsFrame pools (commitPool cls q pools) := by
  induction pools with
  | nil => exact List.Forall₂.nil
  | cons p ps ih =>
    unfold commitPool
    split
    · exact List.Forall₂.cons ⟨rfl, rfl, debitPair_debited _ _⟩ (poolsFrame_refl ps)
    · exact List.Forall₂.cons ⟨rfl, rfl, debited_refl _⟩ ih

theorem nodeFrame_refl (r : NodeResources) : NodeFrame r r :=
  ⟨debited_refl _, debited_refl _, rfl, debited_refl _, debited_refl _, rfl, rfl⟩

theorem nodeFrame_trans {a b c : NodeResources} (h1 : NodeFrame a b) (h2 : NodeFrame b c) :
    NodeFrame a c :=
  ⟨debited_trans h1.1 h2.1, debited_trans h1.2.1 h2.2.1, h2.2.2.1.trans h1.2.2.1,
    debited_trans h1.2.2.2.1 h2.2.2.2.1, debited_trans h1.2.2.2.2.1 h2.2.2.2.2.1,
    h2.2.2.2.2.2.1.trans h1.2.2.2.2.2.1, h2.2.2.2.2.2.2.trans h1.2.2.2.2.2.2⟩

/-- One debit changes only the pair it is made on. -/
theorem applyDebit_frame (s : NodeResources × List Storage) (d : Debit) :
    NodeFrame s.1 (applyDebit s d).1 ∧ PoolsFrame s.2 (applyDebit s d).2 := by
  cases d with
  | cpu q =>
    exact ⟨⟨debitPair_debited _ _, debited_refl _, rfl, debited_refl _, debited_refl _, rfl,
      rfl⟩, poolsFrame_refl _⟩
  | gpu q =>
    exact ⟨⟨debited_refl _, debitPair_debited _ _, rfl, debited_refl _, debited_refl _, rfl,
      rfl⟩, poolsFrame_refl _⟩
  | memory q =>
    exact ⟨⟨debited_refl _, debited_refl _, rfl, debitPair_debited _ _, debited_refl _, rfl,
      rfl⟩, poolsFrame_refl _⟩
  | ephemeral q =>
    exact ⟨⟨debited_refl _, debited_refl _, rfl, debited_refl _, debitPair_debited _ _, rfl,
      rfl⟩, poolsFrame_refl _⟩
  | pool cls q =>
    have h := commitPool_frame cls q s.2
    rw [commitPool_eq] at h
    simp only [applyDebit]
    cases hf : List.findIdx? (fun p => p.Class == cls) s.2 with
    | none => exact ⟨nodeFrame_refl _, poolsFrame_refl _⟩
    | some idx =>
      rw [hf] at h
      exact ⟨nodeFrame_refl _, h⟩

/-- A sequence of debits changes only the pairs debits are made on. -/
theorem foldl_applyDebit_frame (ds : List Debit) (s : NodeResources × List Storage) :
    NodeFrame s.1 (ds.foldl applyDebit s).1 ∧ PoolsFrame s.2 (ds.foldl applyDebit s).2 := by
  induction ds generalizing s with
  | nil => exact ⟨nodeFrame_refl _, poolsFrame_refl _⟩
  | cons d rest ih =>
    simp only [List.foldl_cons]
    have h1 := applyDebit_frame s d
    have h2 := ih (applyDebit s d)
    exact ⟨nodeFrame_trans h1.1 h2.1, poolsFrame_trans h1.2 h2.2⟩

/-- C15: the commit step changes only node 0 and the storage pools. On a
cluster with node 0 it returns the cluster in which every node of index ≥ 1 is
unchanged, node 0 keeps its name and capabilities and has resources `R`, and
the pools are `P`, where: of `R` only the CPU, GPU, memory and ephemeral storage
pairs can differ from before (each by debits: allocatable and floor kept,
allocated not smaller), the pools of `P` are the pools before, in order, each
with its pair debited or unchanged, and `(R, P)` is the result of the debits of
the request made in order, a non-persistent `"ram"`-class storage entry being
debited from node 0 memory, any other non-persistent entry from node 0
ephemeral storage, and a persistent entry from the first pool whose class
matches and from no other (no pool changes when none matches). -/
theorem commit_frame (errAttrs : StorageAttributes) (nd0 : Node) (nds : List Node)
    (pools : List Storage) (ru : List ResourceUnit) :
    ∃ R P, commit errAttrs ⟨nd0 :: nds, pools⟩ ru = some ⟨{ nd0 with Resources := R } :: nds, P⟩ ∧
      NodeFrame nd0.Resources R ∧ PoolsFrame pools P ∧
      (R, P) = (requestDebits errAttrs ru).foldl applyDebit (nd0.Resources, pools) := by
  refine ⟨(commitUnits errAttrs ru nd0.Resources pools).1,
    (commitUnits errAttrs ru nd0.Resources pools).2, rfl, ?_, ?_, ?_⟩
  · rw [commitUnits_eq]
    exact (foldl_applyDebit_frame _ (nd0.Resources, pools)).1
  · rw [commitUnits_eq]
    exact (foldl_applyDebit_frame _ (nd0.Resources, pools)).2
  · rw [commitUnits_eq]

/-- The commit step on `commitInv`: the `"ram"` entry goes to node 0 memory
(1Gi + 1Gi), the entry without attributes to node 0 ephemeral storage
(10Gi + 2Gi), the `beta2` entry to the first `beta2` pool (502Gi + 3Gi), the
`beta3` entry nowhere; the second node and the second pool are as before. -/
theorem commit_example :
    (commit ⟨false, ""⟩ commitInv commitReq).map (fun c =>
        (c.Nodes.map (fun nd =>
          (nd.Resources.Memory.Allocated, nd.Resources.EphemeralStorage.Allocated)),
          c.Storage.map (fun p => p.Quantity.Allocated))) =
      some ([(NewQuantity (2 * Gi), NewQuantity (12 * Gi)), (NewQuantity Gi, NewQuantity (10 * Gi))],
        [NewQuantity (505 * Gi), NewQuantity (502 * Gi)]) ∧
    (commit ⟨false, ""⟩ commitInv commitReq).map (fun c => c.Nodes.tail) =
      some commitInv.Nodes.tail := by
  constructor <;> decide

/-! ## C16: the unit of the CPU debit of the commit step -/

/-- The commit step debits node 0's CPU in whole units: for a request of `q`
milli-units the CPU allocated is left as it was or grows by `NewQuantity q`,
a thousand times the `q` milli-units that `tryAdjustCPU` debits. -/
theorem commit_cpu_whole_units (errAttrs : StorageAttributes) (nd0 : Node) (nds : List Node)
    (pools : List Storage) (id q cnt : Nat) (g : Option ResGPU) (m : Option ResMemory) :
    ∃ R P, commit errAttrs ⟨nd0 :: nds, pools⟩ [⟨⟨id, some ⟨q⟩, g, m, []⟩, cnt⟩] =
        some ⟨{ nd0 with Resources := R } :: nds, P⟩ ∧
      R.CPU = (nd0.Resources.CPU.SubNLZ q).1 ∧
      (R.CPU.Allocated = nd0.Resources.CPU.Allocated ∨
        R.CPU.Allocated = nd0.Resources.CPU.Allocated + NewQuantity q) ∧
      (1 ≤ q → R.CPU.Allocated ≠ nd0.Resources.CPU.Allocated + NewMilliQuantity q) := by
  have hcpu : (commitUnits errAttrs [⟨⟨id, some ⟨q⟩, g, m, []⟩, cnt⟩] nd0.Resources pools).1.CPU =
      (nd0.Resources.CPU.SubNLZ q).1 := by
    cases g <;> cases m <;> rfl
  refine ⟨_, _, rfl, hcpu, ?_, ?_⟩
  · rw [hcpu]
    unfold ResourcePair.SubNLZ
    split
    · exact Or.inl rfl
    · exact Or.inr rfl
  · intro hq
    rw [hcpu]
    unfold ResourcePair.SubNLZ
    simp only [NewQuantity, NewMilliQuantity]
    split <;> simp only <;> omega

/-- C16, where the code departs from it: the claim is that the commit step
debits node 0's CPU in milli-units as placement does. The commit step against
placement on the inventory `NewNull` builds, for
the one-replica, storage-less group of scenario 1 (CPU 1000m, 1Gi memory): the
request fits the 4900m of CPU available; `Adjust` returns OK and leaves CPU
allocated at 1100m; the commit step leaves it at 100m (1000 whole CPUs do not
fit), with the same GPU and memory pairs as `Adjust`. -/
theorem commit_cpu_not_milli :
    (nullInv.Nodes.map (fun nd =>
        decide (NewMilliQuantity 1000 + nd.Resources.CPU.Floor ≤ nd.Resources.CPU.Available))) =
      [true] ∧
    (Adjust nullInv scenario1Res []).map (fun r => (r.err, r.inv.Nodes.map (fun nd =>
        (nd.Resources.CPU.Allocated, nd.Resources.GPU.Quantity.Allocated,
          nd.Resources.Memory.Allocated)))) =
      some (none, [(NewMilliQuantity 1100, NewQuantity 1, NewQuantity (2 * Gi))]) ∧
    (commit ⟨false, ""⟩ nullInv scenario1Res.Resources).map (fun c => c.Nodes.map (fun nd =>
        (nd.Resources.CPU.Allocated, nd.Resources.GPU.Quantity.Allocated,
          nd.Resources.Memory.Allocated))) =
      some [(NewMilliQuantity 100, NewQuantity 1, NewQuantity (2 * Gi))] := by
  refine ⟨by decide, by decide, by decide⟩

/-! ## C17: the per-subscriber forwarder -/

theorem snapshotsReceived_append (es1 es2 : List SubscriberEvent) :
    snapshotsReceived (es1 ++ es2) = snapshotsReceived es1 ++ snapshotsReceived es2 := by
  induction es1 with
  | nil => rfl
  | cons e rest ih => cases e <;> simp [snapshotsReceived, ih]

theorem sendRounds_append (es1 es2 : List SubscriberEvent) :
    sendRounds (es1 ++ es2) = sendRounds es1 + sendRounds es2 := by
  induction es1 with
  | nil => simp [sendRounds]
  | cons e rest ih =>
    cases e with
    | recv inv => simpa [sendRounds] using ih
    | send =>
      have h1 : sendRounds (.send :: rest ++ es2) = sendRounds (rest ++ es2) + 1 := rfl
      rw [h1, ih]
      simp only [sendRounds]
      omega

/-- One round keeps the invariant of the forwarder and does not fault: a
receive round adds its snapshot to what was delivered, a send round adds one to
the number of sends. -/
theorem subscriberStep_inv (recvd : List Cluster) (n : Nat) (s : SubscriberState)
    (e : SubscriberEvent) (h : SubscriberInv recvd n s) :
    subscriberStep s e ≠ .fault ∧
      ∀ s1, subscriberStep s e = .ok s1 →
        SubscriberInv (recvd ++ snapshotsReceived [e]) (n + sendRounds [e]) s1 := by
  obtain ⟨pending, msg, och, sent⟩ := s
  obtain ⟨h1, hn, h2, h3⟩ := h
  simp only at h1 hn h2 h3
  cases e with
  | recv inv =>
    cases och with
    | false =>
      have hp : pending = [] := by
        by_contra hne
        exact absurd (h2.mpr hne) (by simp)
      subst hp
      simp only [subscriberStep, Bool.not_false, ↓reduceIte, List.nil_append]
      refine ⟨by simp, ?_⟩
      intro s1 hs1
      injection hs1 with hs1
      subst hs1
      simp only [List.map_nil, List.append_nil] at h1
      exact ⟨by simp [h1, snapshotsReceived], by simpa [sendRounds] using hn, by simp, rfl⟩
    | true =>
      have hp : pending ≠ [] := h2.mp rfl
      simp only [subscriberStep, Bool.not_true, Bool.false_eq_true, ↓reduceIte]
      refine ⟨by simp, ?_⟩
      intro s1 hs1
      injection hs1 with hs1
      subst hs1
      refine ⟨?_, by simpa [sendRounds] using hn, by simp, ?_⟩
      · simp only [snapshotsReceived, List.map_append, List.map_cons, List.map_nil,
          ← List.append_assoc, h1]
      · cases pending with
        | nil => exact absurd rfl hp
        | cons p ps => simpa using h3
  | send =>
    cases och with
    | false => exact ⟨by simp [subscriberStep], fun s1 hs1 => by simp [subscriberStep] at hs1⟩
    | true =>
      have hp : pending ≠ [] := h2.mp rfl
      cases pending with
      | nil => exact absurd rfl hp
      | cons p ps =>
        simp only [List.head?_cons] at h3
        subst h3
        cases ps with
        | nil =>
          simp only [subscriberStep, Bool.not_true, Bool.false_eq_true, ↓reduceIte]
          refine ⟨by simp, ?_⟩
          intro s1 hs1
          injection hs1 with hs1
          subst hs1
          exact ⟨by simpa [snapshotsReceived] using h1, by simp [sendRounds, hn], by simp, rfl⟩
        | cons p1 ps1 =>
          simp only [subscriberStep, Bool.not_true, Bool.false_eq_true, ↓reduceIte]
          refine ⟨by simp, ?_⟩
          intro s1 hs1
          injection hs1 with hs1
          subst hs1
          exact ⟨by simpa [snapshotsReceived] using h1, by simp [sendRounds, hn], by simp, rfl⟩

/-- The loop keeps the invariant of the forwarder and does not fault. -/
theorem subscriberRun_inv (recvd : List Cluster) (n : Nat) (s : SubscriberState)
    (events : List SubscriberEvent) (h : SubscriberInv recvd n s) :
    subscriberRun s events ≠ .fault ∧
      ∀ s1, subscriberRun s events = .ok s1 →
        SubscriberInv (recvd ++ snapshotsReceived events) (n + sendRounds events) s1 := by
  induction events generalizing recvd n s with
  | nil =>
    refine ⟨by simp [subscriberRun], ?_⟩
    intro s1 hs1
    simp only [subscriberRun, SubscriberStep.ok.injEq] at hs1
    simpa [snapshotsReceived, sendRounds, ← hs1] using h
  | cons e rest ih =>
    obtain ⟨hf, hok⟩ := subscriberStep_inv recvd n s e h
    unfold subscriberRun
    cases hstep : subscriberStep s e with
    | ok s1 =>
      have h1 := ih _ _ s1 (hok s1 hstep)
      have e1 : recvd ++ snapshotsReceived [e] ++ snapshotsReceived rest =
          recvd ++ snapshotsReceived (e :: rest) := by
        rw [List.append_assoc, ← snapshotsReceived_append]
        rfl
      have e2 : n + sendRounds [e] + sendRounds rest = n + sendRounds (e :: rest) := by
        rw [Nat.add_assoc, ← sendRounds_append]
        rfl
      rw [e1, e2] at h1
      exact h1
    | blocked => exact ⟨by simp, fun s1 hs1 => by simp at hs1⟩
    | fault => exact absurd hstep hf

/-- C17: the per-subscriber forwarder as a state machine over the rounds
"receive a snapshot" and "send to the output". In every state reached from the
initial one by a sequence of rounds, the values sent so far followed by the
pending queue are the snapshots those rounds delivered on `in`, in the order of
delivery, so the output is a prefix of the input, without reordering,
duplication or loss, and one value was sent per send round; the output is
enabled exactly when `pending` is non-empty, and the current message is the
head of `pending`; a receive can always be taken, a send exactly when the
output is enabled, and no round faults. -/
theorem subscriber_forwarder (events : List SubscriberEvent) (s : SubscriberState)
    (h : subscriberRun SubscriberState.init events = .ok s) :
    s.sent ++ s.pending.map some = (snapshotsReceived events).map some ∧
      s.sent <+: (snapshotsReceived events).map some ∧
      s.sent.length = sendRounds events ∧
      (s.och = true ↔ s.pending ≠ []) ∧
      (s.och = true → ∃ p, s.pending.head? = some p ∧ s.msg = some p) ∧
      (s.och = false → s.msg = none) ∧
      (∀ inv, ∃ s1, subscriberStep s (.recv inv) = .ok s1) ∧
      (s.och = true → ∃ s1, subscriberStep s .send = .ok s1) ∧
      (s.och = false → subscriberStep s .send = .blocked) := by
  have hinit : SubscriberInv [] 0 SubscriberState.init :=
    ⟨rfl, rfl, by simp [SubscriberState.init], rfl⟩
  have hI := (subscriberRun_inv _ _ _ events hinit).2 s h
  simp only [List.nil_append, Nat.zero_add] at hI
  obtain ⟨h1, hn, h2, h3⟩ := hI
  have hstep : ∀ e, subscriberStep s e ≠ .fault := fun e =>
    (subscriberStep_inv _ _ s e ⟨h1, hn, h2, h3⟩).1
  refine ⟨h1, ⟨_, h1⟩, hn, h2, ?_, ?_, ?_, ?_, ?_⟩
  · intro ho
    have hp := h2.mp ho
    cases hpd : s.pending with
    | nil => exact absurd hpd hp
    | cons p ps => exact ⟨p, rfl, by rw [h3, hpd]; rfl⟩
  · intro ho
    have hp : s.pending = [] := by
      by_contra hne
      rw [h2.mpr hne] at ho
      exact absurd ho (by simp)
    rw [h3, hp]
    rfl
  · intro inv
    have hf := hstep (.recv inv)
    cases hs : subscriberStep s (.recv inv) with
    | ok s1 => exact ⟨s1, rfl⟩
    | blocked =>
      simp only [subscriberStep] at hs
      split at hs
      · split at hs <;> simp at hs
      · simp at hs
    | fault => exact absurd hs hf
  · intro ho
    have hf := hstep .send
    cases hs : subscriberStep s .send with
    | ok s1 => exact ⟨s1, rfl⟩
    | blocked =>
      simp only [subscriberStep, ho, Bool.not_true, Bool.false_eq_true, ↓reduceIte] at hs
      split at hs
      · simp at hs
      · split at hs <;> simp at hs
    | fault => exact absurd hs hf
  · intro ho
    simp [subscriberStep, ho]

/-- Witness of C17: two snapshots received, then one sent: the first snapshot
is on the output, the second is pending and is the current message, the output
is enabled. -/
theorem subscriber_forwarder_witness :
    subscriberRun SubscriberState.init [.recv scenario1Inv, .recv scenario2Inv, .send] =
        .ok ⟨[scenario2Inv], some scenario2Inv, true, [some scenario1Inv]⟩ ∧
      [some scenario1Inv] ++ [scenario2Inv].map some =
        (snapshotsReceived [.recv scenario1Inv, .recv scenario2Inv, .send]).map some :=
  have h : subscriberRun SubscriberState.init [.recv scenario1Inv, .recv scenario2Inv, .send] =
      .ok ⟨[scenario2Inv], some scenario2Inv, true, [some scenario1Inv]⟩ := by decide
  ⟨h, (subscriber_forwarder _ _ h).1⟩

/-! ## C18: what a failing `tryAdjust` leaves -/

/-- C18, where the code departs from it: the claim is that a failing
`tryAdjust` leaves the inventory and the resources value passed in as they
were. On `lowMemInv` the call for node 0 fails at the memory debit, after the
GPU step has rewritten the request: `tryAdjust` returns `(nil, false, true)`
and leaves the inventory as it was, but the GPU attributes of the resources
value passed in are `vendor/nvidia/model/a100`, no longer
`vendor/nvidia/model/*`. -/
theorem tryAdjust_failure_rewrites_request :
    tryAdjust lowMemInv 0 anyGpuRes =
        some ⟨lowMemInv,
          { anyGpuRes with GPU := some ⟨1, [⟨"vendor/nvidia/model/a100", "true"⟩]⟩ },
          none, false, true⟩ ∧
      (tryAdjust lowMemInv 0 anyGpuRes).map (fun r => decide (r.res = anyGpuRes)) =
        some false := by
  constructor <;> decide

/-- What the rewrite costs `Adjust`: on `lowMemInv` the one replica of the
request is refused with InsufficientCapacity after the failed call on node 0
left the request asking for an a100, which node 1 (an h100) does not match;
with node 1 alone, or with the two nodes in the other order, the same request
is placed. -/
theorem adjust_after_failed_rewrite :
    (Adjust lowMemInv ⟨[⟨anyGpuRes, 1⟩], []⟩ []).map (fun r => r.err) =
      some (some .ErrInsufficientCapacity) ∧
    (Adjust lowMemInv ⟨[⟨anyGpuRes, 1⟩], []⟩ []).map
        (fun r => r.trace.map (fun c => (c.node, c.result.nodeOk))) =
      some [(0, false), (1, false)] ∧
    (Adjust lowMemInv ⟨[⟨anyGpuRes, 1⟩], []⟩ []).map
        (fun r => r.trace.map (fun c => c.res.GPU.map (fun g => g.Attributes))) =
      some [some [⟨"vendor/nvidia/model/*", "true"⟩],
        some [⟨"vendor/nvidia/model/a100", "true"⟩]] ∧
    (Adjust ⟨lowMemInv.Nodes.tail, []⟩ ⟨[⟨anyGpuRes, 1⟩], []⟩ []).map (fun r => r.err) =
      some none ∧
    (Adjust ⟨lowMemInv.Nodes.reverse, []⟩ ⟨[⟨anyGpuRes, 1⟩], []⟩ []).map (fun r => r.err) =
      some none := by
  refine ⟨by decide, by decide, by decide, by decide, by decide⟩

/-! ## C19: the outcomes of `tryAdjust` -/

/-- The storage loop entry by entry. -/
theorem adjustStorage_cons (s : ResStorage) (rest : List ResStorage) (nd : Node)
    (pools : List Storage) :
    adjustStorage (s :: rest) nd pools =
      match adjustStorage [s] nd pools with
      | .placed nd1 pools1 => adjustStorage rest nd1 pools1
      | .nodeFail => .nodeFail
      | .clusterFail => .clusterFail := by
  simp only [adjustStorage, tryAdjustEphemeralStorage]
  split
  · rfl
  · split
    · split
      · split <;> rfl
      · split <;> rfl
    · split
      · rfl
      · split <;> rfl

/-- The storage loop over a list in two parts. -/
theorem adjustStorage_append (pre rest : List ResStorage) (nd : Node) (pools : List Storage) :
    adjustStorage (pre ++ rest) nd pools =
      match adjustStorage pre nd pools with
      | .placed nd1 pools1 => adjustStorage rest nd1 pools1
      | .nodeFail => .nodeFail
      | .clusterFail => .clusterFail := by
  induction pre generalizing nd pools with
  | nil => rfl
  | cons s pre1 ih =>
    rw [List.cons_append, adjustStorage_cons, adjustStorage_cons s pre1]
    cases adjustStorage [s] nd pools with
    | placed nd1 pools1 => exact ih nd1 pools1
    | nodeFail => rfl
    | clusterFail => rfl

/-- A debit by `SubNLZ` that succeeds is a debit in the spec's words. -/
theorem subNLZ_debitOf (m m1 : ResourcePair) (q : Nat) :
    m.SubNLZ q = (m1, true) ↔ DebitOf m q m1 := by
  unfold ResourcePair.SubNLZ DebitOf
  constructor
  · intro h
    split at h
    · simp at h
    · rename_i hlt
      simp only [Prod.mk.injEq, and_true] at h
      exact ⟨by omega, h.symm⟩
  · rintro ⟨h1, rfl⟩
    rw [if_neg (by omega)]

/-- The pool loop debits a pool exactly when the first pool of the class holds
the quantity; that pool is debited and no other pool changes. -/
theorem adjustPool_adjusted_iff (cls : String) (q : Nat) (pools pools1 : List Storage) :
    adjustPool cls q pools = .adjusted pools1 ↔
      ∃ pre p post pq, pools = pre ++ p :: post ∧ (∀ x ∈ pre, x.Class ≠ cls) ∧ p.Class = cls ∧
        DebitOf p.Quantity q pq ∧ pools1 = pre ++ { p with Quantity := pq } :: post := by
  induction pools generalizing pools1 with
  | nil => simp [adjustPool]
  | cons p ps ih =>
    unfold adjustPool
    by_cases hc : p.Class = cls
    · subst hc
      simp only [↓reduceIte]
      constructor
      · intro h
        cases hs : p.Quantity.SubNLZ q with
        | mk pq b =>
          rw [hs] at h
          cases b with
          | false => simp at h
          | true =>
            simp only [PoolStep.adjusted.injEq] at h
            exact ⟨[], p, ps, pq, rfl, by simp, rfl, (subNLZ_debitOf _ _ _).mp hs, h.symm⟩
      · rintro ⟨pre, x, post, pq, hsplit, hpre, hx, hd, rfl⟩
        cases pre with
        | nil =>
          simp only [List.nil_append, List.cons.injEq] at hsplit
          obtain ⟨rfl, rfl⟩ := hsplit
          rw [(subNLZ_debitOf _ _ _).mpr hd]
          rfl
        | cons y pre1 =>
          simp only [List.cons_append, List.cons.injEq] at hsplit
          obtain ⟨rfl, _⟩ := hsplit
          exact absurd rfl (hpre p (List.mem_cons_self _ _))
    · simp only [hc, ↓reduceIte]
      constructor
      · intro h
        cases hr : adjustPool cls q ps with
        | adjusted ps1 =>
          rw [hr] at h
          simp only [PoolStep.adjusted.injEq] at h
          obtain ⟨pre, x, post, pq, hsplit, hpre, hx, hd, hps1⟩ := (ih ps1).mp hr
          refine ⟨p :: pre, x, post, pq, by rw [hsplit]; rfl, ?_, hx, hd, ?_⟩
          · intro y hy
            rcases List.mem_cons.mp hy with rfl | hy1
            · exact hc
            · exact hpre y hy1
          · rw [← h, hps1]
            rfl
        | full => rw [hr] at h; simp at h
        | absent => rw [hr] at h; simp at h
      · rintro ⟨pre, x, post, pq, hsplit, hpre, hx, hd, rfl⟩
        cases pre with
        | nil =>
          simp only [List.nil_append, List.cons.injEq] at hsplit
          obtain ⟨rfl, _⟩ := hsplit
          exact absurd hx hc
        | cons y pre1 =>
          simp only [List.cons_append, List.cons.injEq] at hsplit
          obtain ⟨rfl, rfl⟩ := hsplit
          have h1 : adjustPool cls q (pre1 ++ x :: post) =
              .adjusted (pre1 ++ { x with Quantity := pq } :: post) :=
            (ih _).mpr ⟨pre1, x, post, pq, rfl,
              fun z hz => hpre z (List.mem_cons_of_mem _ hz), hx, hd, rfl⟩
          rw [h1]
          rfl

/-- The storage loop places one entry exactly when the entry is debited in the
spec's words. -/
theorem adjustStorage_one_placed (s : ResStorage) (nd : Node) (pools : List Storage)
    (nd1 : Node) (pools1 : List Storage) :
    adjustStorage [s] nd pools = .placed nd1 pools1 ↔ EntryDebited s nd pools nd1 pools1 := by
  unfold EntryDebited
  simp only [adjustStorage, tryAdjustEphemeralStorage]
  cases hp : ParseStorageAttributes s.Attributes with
  | none => simp
  | some a =>
    obtain ⟨pers, cls⟩ := a
    simp only [Option.some.injEq, exists_eq_left']
    cases pers with
    | false =>
      simp only [Bool.not_false, ↓reduceIte, true_and, Bool.false_eq_true, false_and, or_false]
      by_cases hc : cls = "ram"
      · have hc1 : cls = StorageClassRAM := hc
        simp only [hc1, ↓reduceIte]
        cases hs : nd.Resources.Memory.SubNLZ s.Quantity with
        | mk m b =>
          cases b with
          | false =>
            simp only [reduceCtorEq, StorageClassRAM, ne_eq, not_true_eq_false, false_and,
              or_false, true_and, false_iff, not_and, not_exists]
            intro _ m1 hd
            have := (subNLZ_debitOf _ _ _).mpr hd
            rw [hs] at this
            simp at this
          | true =>
            simp only [StorageStep.placed.injEq, StorageClassRAM, ne_eq, not_true_eq_false,
              false_and, or_false, true_and]
            constructor
            · rintro ⟨rfl, rfl⟩
              exact ⟨rfl, m, (subNLZ_debitOf _ _ _).mp hs, rfl⟩
            · rintro ⟨rfl, m1, hd, rfl⟩
              have := (subNLZ_debitOf _ _ _).mpr hd
              rw [hs] at this
              simp only [Prod.mk.injEq, and_true] at this
              subst this
              exact ⟨rfl, rfl⟩
      · have hc1 : ¬ cls = StorageClassRAM := hc
        simp only [hc1, ↓reduceIte, hc, false_and, false_or, ne_eq, not_false_eq_true, true_and]
        cases hs : nd.Resources.EphemeralStorage.SubNLZ s.Quantity with
        | mk m b =>
          cases b with
          | false =>
            simp only [reduceCtorEq, false_iff, not_and, not_exists]
            intro _ m1 hd
            have := (subNLZ_debitOf _ _ _).mpr hd
            rw [hs] at this
            simp at this
          | true =>
            simp only [StorageStep.placed.injEq]
            constructor
            · rintro ⟨rfl, rfl⟩
              exact ⟨rfl, m, (subNLZ_debitOf _ _ _).mp hs, rfl⟩
            · rintro ⟨rfl, m1, hd, rfl⟩
              have := (subNLZ_debitOf _ _ _).mpr hd
              rw [hs] at this
              simp only [Prod.mk.injEq, and_true] at this
              subst this
              exact ⟨rfl, rfl⟩
    | true =>
      simp only [Bool.not_true, Bool.false_eq_true, Bool.true_eq_false, ↓reduceIte, false_and,
        true_and, false_or]
      cases hsup : nd.IsStorageClassSupported cls with
      | false => simp
      | true =>
        simp only [Bool.not_true, Bool.false_eq_true, ↓reduceIte, true_and]
        cases ha : adjustPool cls s.Quantity pools with
        | adjusted ps1 =>
          simp only [StorageStep.placed.injEq]
          constructor
          · rintro ⟨rfl, rfl⟩
            exact ⟨rfl, (adjustPool_adjusted_iff _ _ _ _).mp ha⟩
          · rintro ⟨rfl, hx⟩
            have := (adjustPool_adjusted_iff _ _ _ _).mpr hx
            rw [ha] at this
            simp only [PoolStep.adjusted.injEq] at this
            exact ⟨rfl, this⟩
        | full =>
          simp only [reduceCtorEq, false_iff, not_and]
          intro _ hx
          have := (adjustPool_adjusted_iff _ _ _ _).mpr hx
          rw [ha] at this
          simp at this
        | absent =>
          simp only [reduceCtorEq, false_iff, not_and]
          intro _ hx
          have := (adjustPool_adjusted_iff _ _ _ _).mpr hx
          rw [ha] at this
          simp at this

/-- The storage loop places all entries exactly when they are debited one after
the other in the spec's words, and it leaves the node and the pools that these
debits leave. -/
theorem adjustStorage_placed_iff (sts : List ResStorage) (nd : Node) (pools : List Storage)
    (nd2 : Node) (pools2 : List Storage) :
    adjustStorage sts nd pools = .placed nd2 pools2 ↔ EntriesDebited sts nd pools nd2 pools2 := by
  induction sts generalizing nd pools with
  | nil =>
    simp only [adjustStorage, StorageStep.placed.injEq, EntriesDebited]
    exact ⟨fun h => ⟨h.1.symm, h.2.symm⟩, fun h => ⟨h.1.symm, h.2.symm⟩⟩
  | cons s rest ih =>
    rw [adjustStorage_cons]
    simp only [EntriesDebited]
    constructor
    · intro h
      cases hs : adjustStorage [s] nd pools with
      | placed nd1 pools1 =>
        rw [hs] at h
        exact ⟨nd1, pools1, (adjustStorage_one_placed _ _ _ _ _).mp hs, (ih _ _).mp h⟩
      | nodeFail => rw [hs] at h; simp at h
      | clusterFail => rw [hs] at h; simp at h
    · rintro ⟨nd1, pools1, h1, h2⟩
      rw [(adjustStorage_one_placed _ _ _ _ _).mpr h1]
      exact (ih _ _).mpr h2

/-- A failure of the storage loop is the failure of its first failing entry,
all entries before it debited. -/
theorem adjustStorage_fail_iff (f : StorageStep) (hf : ∀ nd1 pools1, f ≠ .placed nd1 pools1)
    (sts : List ResStorage) (nd : Node) (pools : List Storage) :
    adjustStorage sts nd pools = f ↔
      ∃ s nd1 pools1, FirstFailing sts nd pools s nd1 pools1 ∧
        adjustStorage [s] nd1 pools1 = f := by
  constructor
  · intro h
    induction sts generalizing nd pools with
    | nil => exact absurd h.symm (hf nd pools)
    | cons s rest ih =>
      rw [adjustStorage_cons] at h
      cases hs : adjustStorage [s] nd pools with
      | placed nd1 pools1 =>
        rw [hs] at h
        obtain ⟨s1, nd2, pools2, ⟨pre, post, hsplit, hpre⟩, hfail⟩ := ih nd1 pools1 h
        exact ⟨s1, nd2, pools2, ⟨s :: pre, post, by rw [hsplit]; rfl,
          nd1, pools1, (adjustStorage_one_placed _ _ _ _ _).mp hs, hpre⟩, hfail⟩
      | nodeFail =>
        rw [hs] at h
        exact ⟨s, nd, pools, ⟨[], rest, rfl, rfl, rfl⟩, by rw [hs]; exact h⟩
      | clusterFail =>
        rw [hs] at h
        exact ⟨s, nd, pools, ⟨[], rest, rfl, rfl, rfl⟩, by rw [hs]; exact h⟩
  · rintro ⟨s, nd1, pools1, ⟨pre, post, hsplit, hpre⟩, hfail⟩
    rw [hsplit, adjustStorage_append, (adjustStorage_placed_iff _ _ _ _ _).mpr hpre]
    simp only
    rw [adjustStorage_cons, hfail]
    cases f with
    | placed a b => exact absurd rfl (hf a b)
    | nodeFail => rfl
    | clusterFail => rfl

/-- The pool loop finds no pool exactly when no pool has the class. -/
theorem adjustPool_absent_iff (cls : String) (q : Nat) (pools : List Storage) :
    adjustPool cls q pools = .absent ↔ ∀ p ∈ pools, p.Class ≠ cls := by
  refine ⟨fun h => ?_, adjustPool_absent cls q pools⟩
  induction pools with
  | nil => simp
  | cons p ps ih =>
    unfold adjustPool at h
    split at h
    · split at h <;> simp at h
    · rename_i hc
      intro x hx
      rcases List.mem_cons.mp hx with rfl | hx1
      · exact hc
      · refine ih ?_ x hx1
        split at h <;> first | assumption | simp at h

/-- The pool loop reports a full pool exactly when the first pool of the class
cannot hold the quantity. -/
theorem adjustPool_full_iff (cls : String) (q : Nat) (pools : List Storage) :
    adjustPool cls q pools = .full ↔
      ∃ pre p post, pools = pre ++ p :: post ∧ (∀ x ∈ pre, x.Class ≠ cls) ∧ p.Class = cls ∧
        (p.Quantity.SubNLZ q).2 = false := by
  induction pools with
  | nil => simp [adjustPool]
  | cons p ps ih =>
    unfold adjustPool
    by_cases hc : p.Class = cls
    · simp only [hc, ↓reduceIte]
      constructor
      · intro h
        refine ⟨[], p, ps, rfl, by simp, hc, ?_⟩
        cases hs : p.Quantity.SubNLZ q with
        | mk pq b =>
          rw [hs] at h
          cases b with
          | false => rfl
          | true => simp at h
      · rintro ⟨pre, x, post, hsplit, hpre, hx, hsub⟩
        cases pre with
        | nil =>
          simp only [List.nil_append, List.cons.injEq] at hsplit
          obtain ⟨rfl, _⟩ := hsplit
          cases hs : p.Quantity.SubNLZ q with
          | mk pq b =>
            rw [hs] at hsub
            simp only at hsub
            subst hsub
            rfl
        | cons y pre1 =>
          simp only [List.cons_append, List.cons.injEq] at hsplit
          obtain ⟨rfl, _⟩ := hsplit
          exact absurd hc (hpre p (List.mem_cons_self _ _))
    · simp only [hc, ↓reduceIte]
      constructor
      · intro h
        have h1 : adjustPool cls q ps = .full := by
          split at h <;> first | assumption | simp at h
        obtain ⟨pre, x, post, hsplit, hpre, hx, hsub⟩ := ih.mp h1
        refine ⟨p :: pre, x, post, by rw [hsplit]; rfl, ?_, hx, hsub⟩
        intro y hy
        rcases List.mem_cons.mp hy with rfl | hy1
        · exact hc
        · exact hpre y hy1
      · rintro ⟨pre, x, post, hsplit, hpre, hx, hsub⟩
        cases pre with
        | nil =>
          simp only [List.nil_append, List.cons.injEq] at hsplit
          obtain ⟨rfl, _⟩ := hsplit
          exact absurd hx hc
        | cons y pre1 =>
          simp only [List.cons_append, List.cons.injEq] at hsplit
          obtain ⟨rfl, rfl⟩ := hsplit
          have h1 : adjustPool cls q (pre1 ++ x :: post) = .full :=
            ih.mpr ⟨pre1, x, post, rfl, fun z hz => hpre z (List.mem_cons_of_mem _ hz), hx, hsub⟩
          rw [h1]

/-- One storage entry fails at cluster scope exactly as `ClusterFailure` says. -/
theorem adjustStorage_one_cluster (s : ResStorage) (nd : Node) (pools : List Storage) :
    adjustStorage [s] nd pools = .clusterFail ↔ ClusterFailure s nd pools := by
  unfold ClusterFailure
  simp only [adjustStorage, tryAdjustEphemeralStorage]
  cases hp : ParseStorageAttributes s.Attributes with
  | none => simp
  | some a =>
    obtain ⟨pers, cls⟩ := a
    cases pers with
    | false =>
      simp only [Bool.not_false, ↓reduceIte, reduceCtorEq, Option.some.injEq,
        StorageAttributes.mk.injEq, Bool.false_eq_true, false_and, exists_const, or_self,
        iff_false]
      split
      · split <;> simp
      · split <;> simp
    | true =>
      simp only [Bool.not_true, Bool.false_eq_true, ↓reduceIte, reduceCtorEq, Option.some.injEq,
        StorageAttributes.mk.injEq, true_and, false_or, exists_eq_left']
      cases hsup : nd.IsStorageClassSupported cls with
      | false => simp
      | true =>
        simp only [Bool.not_true, Bool.false_eq_true, ↓reduceIte, true_and]
        rw [← adjustPool_absent_iff cls s.Quantity pools, ← adjustPool_full_iff]
        cases adjustPool cls s.Quantity pools <;> simp

/-- One storage entry fails at node scope exactly as `NodeFailure` says. -/
theorem adjustStorage_one_node (s : ResStorage) (nd : Node) (pools : List Storage) :
    adjustStorage [s] nd pools = .nodeFail ↔ NodeFailure s nd := by
  unfold NodeFailure
  simp only [adjustStorage, tryAdjustEphemeralStorage]
  cases hp : ParseStorageAttributes s.Attributes with
  | none => simp
  | some a =>
    obtain ⟨pers, cls⟩ := a
    simp only [Option.some.injEq, exists_eq_left']
    cases pers with
    | false =>
      simp only [Bool.not_false, ↓reduceIte, true_and, Bool.false_eq_true, false_and, or_false]
      by_cases hc : cls = "ram"
      · have hc1 : cls = StorageClassRAM := hc
        simp only [hc1, ↓reduceIte]
        cases hs : nd.Resources.Memory.SubNLZ s.Quantity with
        | mk m b => cases b <;> simp [StorageClassRAM]
      · have hc1 : ¬ cls = StorageClassRAM := hc
        simp only [hc1, ↓reduceIte, hc]
        cases hs : nd.Resources.EphemeralStorage.SubNLZ s.Quantity with
        | mk m b => cases b <;> simp [hc]
    | true =>
      simp only [Bool.not_true, Bool.false_eq_true, ↓reduceIte, false_and, true_and, false_or]
      cases hsup : nd.IsStorageClassSupported cls with
      | false => simp
      | true =>
        simp only [Bool.not_true, Bool.false_eq_true, ↓reduceIte]
        cases adjustPool cls s.Quantity pools <;> simp

/-- `tryAdjust` when the CPU debit fails. -/
theorem tryAdjust_cpu_fail (inv : Cluster) (node : Nat) (res : Resources) (nd : Node)
    (c : ResCPU) (hnd : inv.Nodes[node]? = some nd) (hc : res.CPU = some c)
    (hcpu : (nd.Resources.CPU.SubMilliNLZ c.Units).2 = false) :
    tryAdjust inv node res = some ⟨inv, res, none, false, true⟩ := by
  unfold tryAdjust
  simp only [hnd, hc, tryAdjustCPU]
  cases hs : nd.Resources.CPU.SubMilliNLZ c.Units with
  | mk cpu b =>
    rw [hs] at hcpu
    simp only at hcpu
    subst hcpu
    rfl

/-- `tryAdjust` when the CPU debit succeeds and the memory debit fails after a
successful GPU step. -/
theorem tryAdjust_memory_fail (inv : Cluster) (node : Nat) (res : Resources) (nd : Node)
    (c : ResCPU) (cpu : ResourcePair) (g0 : ResGPU) (out : GPUAdjust) (mem : ResMemory)
    (hnd : inv.Nodes[node]? = some nd) (hc : res.CPU = some c)
    (hcpu : nd.Resources.CPU.SubMilliNLZ c.Units = (cpu, true)) (hg : res.GPU = some g0)
    (hout : tryAdjustGPU nd.Resources.GPU (some g0) SchedulerParams.zero = some out)
    (hok : out.ok = true) (hmem : res.Memory = some mem)
    (hm : (nd.Resources.Memory.SubNLZ mem.Quantity).2 = false) :
    tryAdjust inv node res = some ⟨inv, { res with GPU := some out.res }, none, false, true⟩ := by
  unfold tryAdjust
  simp only [hnd, hc, tryAdjustCPU, hcpu, hg, hout, hok, hmem]
  cases hs : nd.Resources.Memory.SubNLZ mem.Quantity with
  | mk m b =>
    rw [hs] at hm
    simp only at hm
    subst hm
    rfl

/-- `tryAdjust` once the CPU, GPU and memory debits have succeeded: the
outcome is that of the storage loop. -/
theorem tryAdjust_storage (inv : Cluster) (node : Nat) (res : Resources) (nd1 : Node)
    (out : GPUAdjust) (h : NodeDebits inv node res nd1 out) :
    tryAdjust inv node res =
      match adjustStorage res.Storage nd1 inv.Storage with
      | .clusterFail => some ⟨inv, { res with GPU := some out.res }, none, false, false⟩
      | .nodeFail => some ⟨inv, { res with GPU := some out.res }, none, false, true⟩
      | .placed nd2 pools =>
        some ⟨⟨inv.Nodes.set node nd2, pools⟩, { res with GPU := some out.res },
          if out.sparams = SchedulerParams.zero then none else some out.sparams, true, true⟩ := by
  obtain ⟨nd, c, g0, mem, cpu, m, hnd, hc, hg, hmem, hcpu, hout, hok, hm, rfl⟩ := h
  unfold tryAdjust
  simp only [hnd, hc, tryAdjustCPU, hcpu, hg, hout, hok, hmem, hm, debitNode]
  cases adjustStorage res.Storage
    { nd with Resources := { nd.Resources with CPU := cpu, GPU := out.rp, Memory := m } }
    inv.Storage with
  | placed nd2 pools =>
    by_cases hz : out.sparams = SchedulerParams.zero <;> simp [hz]
  | nodeFail => rfl
  | clusterFail => rfl

/-- C19: the outcomes of `tryAdjust`. It returns `cluster_ok = false` exactly
when the CPU, GPU and memory debits on the node succeed and the first failing
storage entry, scanning in order with all earlier entries debited, has
attributes that do not parse or is persistent with a class the node supports
for which no pool exists or of which the first pool cannot hold the quantity;
it then returns `(nil, false, false)`. It returns `(nil, false, true)` exactly
on every other failure: of the CPU debit, of the GPU step, of the memory
debit, or at a first failing storage entry that is a `"ram"`-class or
ephemeral shortfall or persistent with a class not in the node's capabilities.
And it returns `node_ok = true` exactly when every debit succeeded, then with
`cluster_ok = true`, the node and the pools written back, and the scheduler
params, nil when they are structurally zero. What "debited" means for the
storage entries is `EntriesDebited`, stated in the spec's words and not through
the storage loop: each entry adds its quantity to `allocated` of the node
memory, of the node ephemeral storage or of the first pool of its class, and
the next entry sees the node and the pools so left. -/
theorem tryAdjust_classification (inv : Cluster) (node : Nat) (res : Resources)
    (r : TryAdjustResult) (h : tryAdjust inv node res = some r) :
    (r.clusterOk = false ↔ ClusterScopeFailure inv node res) ∧
      (r.clusterOk = false → r.sparams = none ∧ r.nodeOk = false) ∧
      ((r.nodeOk = false ∧ r.clusterOk = true) ↔ NodeScopeFailure inv node res) ∧
      (r.nodeOk = false → r.sparams = none) ∧
      (r.nodeOk = true ↔
        ∃ nd1 out nd2 pools2, NodeDebits inv node res nd1 out ∧
          EntriesDebited res.Storage nd1 inv.Storage nd2 pools2) ∧
      (r.nodeOk = true →
        r.clusterOk = true ∧
        ∃ nd1 out nd2 pools2, NodeDebits inv node res nd1 out ∧
          EntriesDebited res.Storage nd1 inv.Storage nd2 pools2 ∧
          r.inv = ⟨inv.Nodes.set node nd2, pools2⟩ ∧
          r.sparams = if out.sparams = SchedulerParams.zero then none else some out.sparams) := by
  have hdet : ∀ {nd1 out} (f : StorageStep), NodeDebits inv node res nd1 out →
      adjustStorage res.Storage nd1 inv.Storage = f →
      some r = (match f with
        | .clusterFail => some ⟨inv, { res with GPU := some out.res }, none, false, false⟩
        | .nodeFail => some ⟨inv, { res with GPU := some out.res }, none, false, true⟩
        | .placed nd2 pools =>
          some ⟨⟨inv.Nodes.set node nd2, pools⟩, { res with GPU := some out.res },
            if out.sparams = SchedulerParams.zero then none else some out.sparams,
            true, true⟩) := by
    intro nd1 out f hD hf
    rw [← h, tryAdjust_storage inv node res nd1 out hD, hf]
  have hA : ClusterScopeFailure inv node res → r.nodeOk = false ∧ r.clusterOk = false := by
    rintro ⟨nd1, out, s, nd2, pools2, hD, hF, hC⟩
    have hf := (adjustStorage_fail_iff .clusterFail (by simp) res.Storage nd1 inv.Storage).mpr
      ⟨s, nd2, pools2, hF, (adjustStorage_one_cluster s nd2 pools2).mpr hC⟩
    have := hdet _ hD hf
    simp only [Option.some.injEq] at this
    subst this
    exact ⟨rfl, rfl⟩
  have hB : NodeScopeFailure inv node res → r.nodeOk = false ∧ r.clusterOk = true := by
    rintro (⟨nd, c, hnd, hc, hcpu⟩ | ⟨nd, c, cpu, g0, out, hnd, hc, hcpu, hg, hout, hok⟩ |
      ⟨nd, c, cpu, g0, out, mem, hnd, hc, hcpu, hg, hout, hok, hmem, hm⟩ |
      ⟨nd1, out, s, nd2, pools2, hD, hF, hN⟩)
    · have := tryAdjust_cpu_fail inv node res nd c hnd hc hcpu
      rw [h] at this
      injection this with this
      subst this
      exact ⟨rfl, rfl⟩
    · have hfail := tryAdjustGPU_fail _ _ _ _ hout hok
      subst hfail
      have := tryAdjust_gpu_fail inv node res nd c g0 hnd hc hg hout
      rw [h] at this
      injection this with this
      subst this
      exact ⟨rfl, rfl⟩
    · have := tryAdjust_memory_fail inv node res nd c cpu g0 out mem hnd hc hcpu hg hout hok
        hmem hm
      rw [h] at this
      injection this with this
      subst this
      exact ⟨rfl, rfl⟩
    · have hf := (adjustStorage_fail_iff .nodeFail (by simp) res.Storage nd1 inv.Storage).mpr
        ⟨s, nd2, pools2, hF, (adjustStorage_one_node s nd2 pools2).mpr hN⟩
      have := hdet _ hD hf
      simp only [Option.some.injEq] at this
      subst this
      exact ⟨rfl, rfl⟩
  have hC : ∀ nd1 out nd2 pools2, NodeDebits inv node res nd1 out →
      EntriesDebited res.Storage nd1 inv.Storage nd2 pools2 →
      r.nodeOk = true ∧ r.clusterOk = true ∧ r.inv = ⟨inv.Nodes.set node nd2, pools2⟩ ∧
        r.sparams = if out.sparams = SchedulerParams.zero then none else some out.sparams := by
    intro nd1 out nd2 pools2 hD hf
    have := hdet _ hD ((adjustStorage_placed_iff _ _ _ _ _).mpr hf)
    simp only [Option.some.injEq] at this
    subst this
    exact ⟨rfl, rfl, rfl, rfl⟩
  have hfailcase : r.nodeOk = false → r.sparams = none →
      (r.clusterOk = false → ClusterScopeFailure inv node res) →
      (r.clusterOk = true → NodeScopeFailure inv node res) →
      (r.clusterOk = false ↔ ClusterScopeFailure inv node res) ∧
      (r.clusterOk = false → r.sparams = none ∧ r.nodeOk = false) ∧
      ((r.nodeOk = false ∧ r.clusterOk = true) ↔ NodeScopeFailure inv node res) ∧
      (r.nodeOk = false → r.sparams = none) ∧
      (r.nodeOk = true ↔
        ∃ nd1 out nd2 pools2, NodeDebits inv node res nd1 out ∧
          EntriesDebited res.Storage nd1 inv.Storage nd2 pools2) ∧
      (r.nodeOk = true →
        r.clusterOk = true ∧
        ∃ nd1 out nd2 pools2, NodeDebits inv node res nd1 out ∧
          EntriesDebited res.Storage nd1 inv.Storage nd2 pools2 ∧
          r.inv = ⟨inv.Nodes.set node nd2, pools2⟩ ∧
          r.sparams =
            if out.sparams = SchedulerParams.zero then none else some out.sparams) := by
    intro hok hsp hca hcb
    refine ⟨⟨hca, fun hx => (hA hx).2⟩, fun _ => ⟨hsp, hok⟩,
      ⟨fun hx => hcb hx.2, hB⟩, fun _ => hsp,
      ⟨fun hx => by rw [hok] at hx; simp at hx, fun hx => ?_⟩,
      fun hx => by rw [hok] at hx; simp at hx⟩
    obtain ⟨nd1, o, nd2, pools2, hD, hf⟩ := hx
    exact (hC _ _ _ _ hD hf).1
  obtain ⟨nd, c, hnd, hc, h1 | ⟨cpu, g0, out, hcpu, hg, hout, h2⟩⟩ := tryAdjust_cases _ _ _ _ h
  · obtain ⟨hcpu, rfl⟩ := h1
    exact hfailcase rfl rfl (fun hx => by simp at hx)
      (fun _ => Or.inl ⟨nd, c, hnd, hc, hcpu⟩)
  · rcases h2 with ⟨hok, rfl⟩ | ⟨hok, mem, hmem, h3⟩
    · exact hfailcase rfl rfl (fun hx => by simp at hx)
        (fun _ => Or.inr (Or.inl ⟨nd, c, cpu, g0, out, hnd, hc, hcpu, hg, hout, hok⟩))
    · rcases h3 with ⟨hm, rfl⟩ | ⟨m, hm, h4⟩
      · exact hfailcase rfl rfl (fun hx => by simp at hx)
          (fun _ => Or.inr (Or.inr (Or.inl
            ⟨nd, c, cpu, g0, out, mem, hnd, hc, hcpu, hg, hout, hok, hmem, hm⟩)))
      · have hD : NodeDebits inv node res (debitNode nd cpu out.rp m) out :=
          ⟨nd, c, g0, mem, cpu, m, hnd, hc, hg, hmem, hcpu, hout, hok, hm, rfl⟩
        rcases h4 with ⟨hs, rfl⟩ | ⟨hs, rfl⟩ | ⟨nd2, pools, hs, rfl⟩
        · obtain ⟨s, nd2, pools2, hF, hone⟩ :=
            (adjustStorage_fail_iff .clusterFail (by simp) _ _ _).mp hs
          exact hfailcase rfl rfl
            (fun _ => ⟨_, out, s, nd2, pools2, hD, hF,
              (adjustStorage_one_cluster s nd2 pools2).mp hone⟩)
            (fun hx => by simp at hx)
        · obtain ⟨s, nd2, pools2, hF, hone⟩ :=
            (adjustStorage_fail_iff .nodeFail (by simp) _ _ _).mp hs
          exact hfailcase rfl rfl (fun hx => by simp at hx)
            (fun _ => Or.inr (Or.inr (Or.inr ⟨_, out, s, nd2, pools2, hD, hF,
              (adjustStorage_one_node s nd2 pools2).mp hone⟩)))
        · refine ⟨⟨fun hx => by simp at hx, fun hx => ?_⟩, fun hx => by simp at hx,
            ⟨fun hx => by simp at hx, fun hx => ?_⟩, fun hx => by simp at hx,
            ⟨fun _ => ⟨_, out, nd2, pools, hD, (adjustStorage_placed_iff _ _ _ _ _).mp hs⟩,
              fun _ => rfl⟩,
            fun _ => ⟨rfl, _, out, nd2, pools, hD, (adjustStorage_placed_iff _ _ _ _ _).mp hs,
              rfl, rfl⟩⟩
          · exact absurd (hA hx).2 (by simp)
          · exact absurd (hB hx).1 (by simp)

/-- Witness of C19 on the inventory of scenario 4 (the node supports the class
`beta2`, of which the one pool has 502Gi available) for a request with two
volumes of that class, of 300Gi each: each volume alone fits the pool; the
first is debited, the second is the first failing entry, for the 202Gi the
first left, and `tryAdjust` returns `(nil, false, false)`, a failure at cluster
scope, leaving the inventory as it was. -/
theorem tryAdjust_classification_witness :
    ∃ r, tryAdjust scenario4Inv 0 twoVolumeRes = some r ∧
      r.inv = scenario4Inv ∧ r.sparams = none ∧ r.nodeOk = false ∧ r.clusterOk = false ∧
      ClusterScopeFailure scenario4Inv 0 twoVolumeRes := by
  have hr : tryAdjust scenario4Inv 0 twoVolumeRes =
      some ⟨scenario4Inv, twoVolumeRes, none, false, false⟩ := by decide
  exact ⟨_, hr, rfl, rfl, rfl, rfl, (tryAdjust_classification _ _ _ _ hr).1.mp rfl⟩

/-! ## C20: `tryAdjustGPU` is first-fit by count -/

/-- The scan does not skip an info entry exactly when the entry matches the
request in the spec's words. -/
theorem gpuMatch_isSome_iff (attrs : GPUAttributes) (info : GPUInfo) :
    (gpuMatch attrs info).isSome = true ↔ Matches attrs info := by
  unfold gpuMatch Matches GPUModels.ExistsOrWildcard
  cases hv : mapGet attrs info.Vendor with
  | none => simp
  | some models =>
    simp only [Option.some.injEq, exists_eq_left']
    have hskip : ∀ attr : Option GPUModelAttributes, gpuSkip attr info = false ↔
        ∀ a, attr = some a →
          (a.RAM = "" ∨ a.RAM = info.MemorySize) ∧
            (a.Interface = "" ∨ a.Interface = info.Interface) := by
      intro attr
      cases attr with
      | none => simp [gpuSkip]
      | some a =>
        simp only [gpuSkip, Bool.or_eq_false_iff, Bool.and_eq_false_imp, bne_iff_ne, ne_eq,
          bne_eq_false_iff_eq, Option.some.injEq, forall_eq']
        constructor
        · rintro ⟨h1, h2⟩
          exact ⟨by by_cases h : a.RAM = "" <;> [exact Or.inl h; exact Or.inr (h1 h)],
            by by_cases h : a.Interface = "" <;> [exact Or.inl h; exact Or.inr (h2 h)]⟩
        · rintro ⟨h1, h2⟩
          exact ⟨fun h => h1.resolve_left h, fun h => h2.resolve_left h⟩
    cases hm : mapGet models info.Name with
    | some attr =>
      simp only [Option.some.injEq, reduceCtorEq, false_and, or_false, exists_eq_left']
      rw [← hskip]
      cases gpuSkip attr info <;> simp
    | none =>
      simp only [reduceCtorEq, true_and, false_or]
      cases hw : mapGet models "*" with
      | none => simp
      | some attr =>
        simp only [Option.some.injEq, exists_eq_left']
        rw [← hskip]
        cases gpuSkip attr info <;> simp

/-- The scan succeeds exactly when at least `n` info entries match and the
pair can be debited. -/
theorem gpuScan_ok_iff (rp : GPU) (res : ResGPU) (sp : SchedulerParams) (attrs : GPUAttributes)
    (infos : List GPUInfo) (n : Nat) (hn : 1 ≤ n) :
    (gpuScan rp res sp attrs infos n).ok = true ↔
      n ≤ (infos.filter (fun x => (gpuMatch attrs x).isSome)).length ∧
        (rp.Quantity.SubNLZ res.Units).2 = true := by
  induction infos generalizing n with
  | nil =>
    simp only [gpuScan, Bool.false_eq_true, List.filter_nil, List.length_nil, false_iff, not_and]
    intro h
    omega
  | cons info rest ih =>
    unfold gpuScan
    cases hm : gpuMatch attrs info with
    | none =>
      simp only [List.filter_cons, hm, Option.isSome_none, Bool.false_eq_true, ↓reduceIte]
      exact ih n hn
    | some attr =>
      simp only [List.filter_cons, hm, Option.isSome_some, ↓reduceIte, List.length_cons]
      by_cases hz : n - 1 = 0
      · simp only [hz, ↓reduceIte]
        cases hs : rp.Quantity.SubNLZ res.Units with
        | mk q b =>
          cases b with
          | false => simp
          | true =>
            simp only [and_true, true_iff]
            omega
      · simp only [hz, ↓reduceIte]
        rw [ih (n - 1) (by omega)]
        constructor
        · rintro ⟨h1, h2⟩
          exact ⟨by omega, h2⟩
        · rintro ⟨h1, h2⟩
          exact ⟨by omega, h2⟩

/-- C20: `tryAdjustGPU` is first-fit by count over the info list. For a
request of `n ≥ 1` units it returns true if and only if the node GPU pair has
something available, the attributes parse, at least `n` info entries match the
request (vendor present, model present or wildcard, RAM and interface equal
when specified) and the pair can be debited by `n`; the vendor and model it
reports are those of the `n`-th matching entry in info order. For 0 units it
returns true and changes nothing. When it returns false the node GPU pair, the
scheduler params and the request attributes are unchanged. -/
theorem tryAdjustGPU_first_fit (rp : GPU) (g : ResGPU) (sp : SchedulerParams) :
    ∃ out, tryAdjustGPU rp (some g) sp = some out ∧
      (g.Units = 0 → out = ⟨rp, g, sp, true⟩) ∧
      (1 ≤ g.Units →
        (out.ok = true ↔
          Value rp.Quantity.Available ≠ 0 ∧
            ∃ attrs, ParseGPUAttributes g.Attributes = some attrs ∧
              g.Units ≤ (rp.Info.filter (fun x => (gpuMatch attrs x).isSome)).length ∧
              (rp.Quantity.SubNLZ g.Units).2 = true)) ∧
      (1 ≤ g.Units → out.ok = true →
        ∃ attrs info, ParseGPUAttributes g.Attributes = some attrs ∧
          (rp.Info.filter (fun x => (gpuMatch attrs x).isSome))[g.Units - 1]? = some info ∧
          out.sparams = ⟨⟨⟨toLower info.Vendor, info.Name⟩⟩⟩) ∧
      (out.ok = false → out = ⟨rp, g, sp, false⟩) ∧
      (∀ attrs info, (gpuMatch attrs info).isSome = true ↔ Matches attrs info) := by
  by_cases hu : g.Units = 0
  · refine ⟨⟨rp, g, sp, true⟩, by simp [tryAdjustGPU, hu], fun _ => rfl, fun h => by omega,
      fun h => by omega, fun h => by simp at h, gpuMatch_isSome_iff⟩
  · have hn : 1 ≤ g.Units := by omega
    by_cases hav : Value rp.Quantity.Available = 0
    · refine ⟨⟨rp, g, sp, false⟩, by simp [tryAdjustGPU, hu, hav], fun h => absurd h hu,
        fun _ => ?_, fun _ h => by simp at h, fun _ => rfl, gpuMatch_isSome_iff⟩
      simp [hav]
    · cases hp : ParseGPUAttributes g.Attributes with
      | none =>
        refine ⟨⟨rp, g, sp, false⟩, by simp [tryAdjustGPU, hu, hav, hp], fun h => absurd h hu,
          fun _ => ?_, fun _ h => by simp at h, fun _ => rfl, gpuMatch_isSome_iff⟩
        simp
      | some attrs =>
        refine ⟨gpuScan rp g sp attrs rp.Info g.Units, by simp [tryAdjustGPU, hu, hav, hp],
          fun h => absurd h hu, fun _ => ?_, fun _ hok => ?_,
          fun hok => gpuScan_fail _ _ _ _ _ _ hok, gpuMatch_isSome_iff⟩
        · rw [gpuScan_ok_iff rp g sp attrs rp.Info g.Units hn]
          simp [hav]
        · obtain ⟨pre, info, post, attr, h1, h2, h3, h4⟩ := gpuScan_ok _ _ _ _ _ _ hn hok
          refine ⟨attrs, info, rfl, ?_, by rw [h4]⟩
          rw [h1, List.filter_append, List.filter_cons]
          simp only [h2, Option.isSome_some, ↓reduceIte]
          have hidx : g.Units - 1 =
              (List.filter (fun x => (gpuMatch attrs x).isSome) pre).length := by omega
          rw [hidx, List.getElem?_append_right (Nat.le_refl _)]
          simp

/-! ## Concrete instances -/

/-- Witness of C14 on the inventory `NewNull` builds: the one pool class is
`beta2`, and the storage maps hold its 512Gi allocatable and 10Gi available. -/
theorem metrics_spec_witness :
    (nullInv.Storage.map (fun p => p.Class)).Nodup ∧
      (Metrics nullInv).2.TotalAllocatable.Storage = [("beta2", 512 * Gi)] ∧
      (Metrics nullInv).2.TotalAvailable.Storage = [("beta2", 10 * Gi)] ∧
      ∀ p ∈ nullInv.Storage,
        mapGet (Metrics nullInv).2.TotalAllocatable.Storage p.Class =
            some (Value p.Quantity.Allocatable) ∧
          mapGet (Metrics nullInv).2.TotalAvailable.Storage p.Class =
            some (Value p.Quantity.Available) :=
  ⟨by decide, by decide, by decide, (metrics_spec nullInv).2.2.2.2 (by decide)⟩

/-- Witness of C15 on `commitInv` and `commitReq`: the commit returns, the
second node is as before, and the debits are those of the request in order:
memory 1Gi, ephemeral storage 2Gi, pool `beta2` 3Gi, pool `beta3` 4Gi. -/
theorem commit_frame_witness :
    requestDebits ⟨false, ""⟩ commitReq =
        [.memory Gi, .ephemeral (2 * Gi), .pool "beta2" (3 * Gi), .pool "beta3" (4 * Gi)] ∧
      ∃ R P, commit ⟨false, ""⟩ commitInv commitReq =
          some ⟨{ gpuNode "nodeA" ⟨pair 2 1, []⟩ with Resources := R } ::
            [gpuNode "nodeB" ⟨pair 2 1, []⟩], P⟩ ∧
        NodeFrame (gpuNode "nodeA" ⟨pair 2 1, []⟩).Resources R ∧
        PoolsFrame commitInv.Storage P ∧
        (R, P) = (requestDebits ⟨false, ""⟩ commitReq).foldl applyDebit
          ((gpuNode "nodeA" ⟨pair 2 1, []⟩).Resources, commitInv.Storage) :=
  ⟨by decide,
    commit_frame ⟨false, ""⟩ (gpuNode "nodeA" ⟨pair 2 1, []⟩) [gpuNode "nodeB" ⟨pair 2 1, []⟩]
      commitInv.Storage commitReq⟩

/-- Witness of C20: an a100 and an h100 of which one unit is free each, and a
request for two nvidia GPUs of any model: the second matching entry, the h100,
is reported. -/
theorem tryAdjustGPU_first_fit_witness :
    tryAdjustGPU ⟨pair 2 0, [nvidia "a100", nvidia "h100"]⟩
        (some ⟨2, [⟨"vendor/nvidia/model/*", "true"⟩]⟩) SchedulerParams.zero =
      some ⟨⟨pair 2 2, [nvidia "a100", nvidia "h100"]⟩,
        ⟨2, [⟨"vendor/nvidia/model/h100", "true"⟩]⟩, ⟨⟨⟨"nvidia", "h100"⟩⟩⟩, true⟩ ∧
    ∃ out, tryAdjustGPU ⟨pair 2 0, [nvidia "a100", nvidia "h100"]⟩
        (some ⟨2, [⟨"vendor/nvidia/model/*", "true"⟩]⟩) SchedulerParams.zero = some out ∧
      (out.ok = false →
        out = ⟨⟨pair 2 0, [nvidia "a100", nvidia "h100"]⟩,
          ⟨2, [⟨"vendor/nvidia/model/*", "true"⟩]⟩, SchedulerParams.zero, false⟩) := by
  refine ⟨by decide, ?_⟩
  obtain ⟨out, h1, _, _, _, h5, _⟩ :=
    tryAdjustGPU_first_fit ⟨pair 2 0, [nvidia "a100", nvidia "h100"]⟩
      ⟨2, [⟨"vendor/nvidia/model/*", "true"⟩]⟩ SchedulerParams.zero
  exact ⟨out, h1, h5⟩

/-! ## C21: first fit in node order -/

/-- C21, where the code departs from it: the claim is that the one replica of
a single group is debited from the lowest-index node on which `tryAdjust`
succeeds against the pre-call inventory, every other node unchanged.
On `firstFitInv` the one replica of the request for any nvidia GPU is not
placed on the lowest-index node on which `tryAdjust` succeeds against the
pre-call inventory: `tryAdjust` fails for node 0 (memory) and succeeds for
node 1 (the h100) and for node 2, but `Adjust` tries node 1 with the request as
the failed call on node 0 left it (asking for an a100), fails there, and
places the replica on node 2; nodes 0 and 1 are as before. -/
theorem adjust_not_first_fit :
    [0, 1, 2].map (fun k => (tryAdjust firstFitInv k anyGpuRes).map (fun r => r.nodeOk)) =
      [some false, some true, some true] ∧
    (Adjust firstFitInv ⟨[⟨anyGpuRes, 1⟩], []⟩ []).map (fun r => r.err) = some none ∧
    (Adjust firstFitInv ⟨[⟨anyGpuRes, 1⟩], []⟩ []).map
        (fun r => r.trace.map (fun c => (c.node, c.result.nodeOk))) =
      some [(0, false), (1, false), (2, true)] ∧
    (Adjust firstFitInv ⟨[⟨anyGpuRes, 1⟩], []⟩ []).map
        (fun r => r.trace.map (fun c => c.res.GPU.map (fun g => g.Attributes))) =
      some [some [⟨"vendor/nvidia/model/*", "true"⟩],
        some [⟨"vendor/nvidia/model/a100", "true"⟩],
        some [⟨"vendor/nvidia/model/a100", "true"⟩]] ∧
    (Adjust firstFitInv ⟨[⟨anyGpuRes, 1⟩], []⟩ []).map
        (fun r => r.inv.Nodes.map (fun nd => nd.Resources.GPU.Quantity.Allocated)) =
      some [NewQuantity 0, NewQuantity 0, NewQuantity 1] ∧
    (Adjust firstFitInv ⟨[⟨anyGpuRes, 1⟩], []⟩ []).map (fun r => r.inv.Nodes.take 2) =
      some (firstFitInv.Nodes.take 2) := by
  refine ⟨by decide, by decide, by decide, by decide, by decide, by decide⟩

/-! ## C22: a request without GPU section -/

/-- With the GPU section absent, `tryAdjust` faults at the GPU step as soon as
the CPU debit has succeeded: `tryAdjustGPU` reads `res.Units` behind the nil
pointer. -/
theorem tryAdjust_nil_gpu (inv : Cluster) (node : Nat) (res : Resources) (nd : Node)
    (c : ResCPU) (cpu : ResourcePair) (hnd : inv.Nodes[node]? = some nd)
    (hc : res.CPU = some c) (hcpu : nd.Resources.CPU.SubMilliNLZ c.Units = (cpu, true))
    (hg : res.GPU = none) : tryAdjust inv node res = none := by
  unfold tryAdjust
  simp only [hnd, hc, tryAdjustCPU, hcpu, hg, tryAdjustGPU]

/-- C22, where the code departs from it: the claim is that a request without
GPU section is handled as one of zero GPU units, without fault.
On the inventory of scenario 1 the request without GPU section fits the
node's CPU and memory; `tryAdjust` faults, and so does `Adjust` of the
reservation of one such replica, where the same request with a GPU section of
zero units is placed and the commit step, which tests the section against nil,
debits the request. -/
theorem tryAdjust_nil_gpu_faults :
    tryAdjust scenario1Inv 0 noGpuRes = none ∧
      Adjust scenario1Inv ⟨[⟨noGpuRes, 1⟩], []⟩ [] = none ∧
      (tryAdjust scenario1Inv 0 { noGpuRes with GPU := some ⟨0, []⟩ }).map
          (fun r => (r.nodeOk, r.clusterOk)) = some (true, true) ∧
      (Adjust scenario1Inv ⟨[⟨{ noGpuRes with GPU := some ⟨0, []⟩ }, 1⟩], []⟩ []).map
          (fun r => r.err) = some none ∧
      (commit ⟨false, ""⟩ scenario1Inv [⟨noGpuRes, 1⟩]).map (fun c => c.Nodes.map (fun nd =>
          (nd.Resources.GPU.Quantity.Allocated, nd.Resources.Memory.Allocated))) =
        some [(NewQuantity 0, NewQuantity (2 * Gi))] := by
  refine ⟨by decide, by decide, by decide, by decide, by decide⟩

/-! ## C23: index alignment -/

theorem shrinksAtEnd_refl (rs : List ResourceUnit) : ShrinksAtEnd rs rs :=
  ⟨Nat.le_refl _, fun _ _ => rfl⟩

/-- The record of one more call, made for the last group of the working list,
keeps index alignment. -/
theorem align_afterCall {orig : List ResourceUnit} {inv0 : Cluster} {i : Nat} {v : Bool}
    {n : Nat} {adjusted : Resources} {st : AdjustState} (nodeIdx : Nat) (r : TryAdjustResult)
    (hP : PassInv orig inv0 i v (n + 1) adjusted st) (hi : i + 1 = st.resources.length)
    (hJ : AlignInv orig st) :
    (∀ c ∈ (afterCall st i nodeIdx v adjusted r).trace, Aligned orig c) ∧
      (afterCall st i nodeIdx v adjusted r).trace.Chain'
        (fun c1 c2 => ShrinksAtEnd c1.resources c2.resources) := by
  obtain ⟨hA, hC, hL, hU⟩ := hJ
  simp only [afterCall]
  constructor
  · intro c hc
    rcases List.mem_append.mp hc with hc | hc
    · exact hA c hc
    · rw [List.mem_singleton.mp hc]
      obtain ⟨u, hu, hcnt⟩ := hP.cnt
      obtain ⟨a, ha, hadj⟩ := hP.adj
      obtain ⟨o, ho, _, hs⟩ := hP.adjEq i a ha
      exact ⟨hi, ⟨hP.lenR, hP.resEq⟩, hU, ⟨u, hu, by omega⟩, o, ho, hadj ▸ hs⟩
  · rw [List.chain'_append]
    refine ⟨hC, List.chain'_singleton _, ?_⟩
    intro x hx y hy
    simp only [List.head?_cons, Option.mem_def, Option.some.injEq] at hx hy
    subst hy
    exact hL x hx

/-- Index alignment is kept by every step of the placement loop. -/
theorem align_steps (orig : List ResourceUnit) (inv0 : Cluster) :
    LoopSteps orig inv0 (fun _ st => AlignInv orig st)
      (fun st => (∀ c ∈ st.trace, Aligned orig c) ∧
        st.trace.Chain' (fun c1 c2 => ShrinksAtEnd c1.resources c2.resources)) where
  fail := by
    intro i nodeIdx v n adjusted st r hP hi hJ hr _ _
    obtain ⟨h1, h2⟩ := align_afterCall nodeIdx r hP hi hJ
    refine ⟨h1, h2, ?_, hJ.2.2.2⟩
    intro c hc
    simp only [afterCall, List.getLast?_concat, Option.some.injEq] at hc
    subst hc
    exact shrinksAtEnd_refl _
  cfail := fun i nodeIdx v n adjusted st r hP hi hJ _ _ _ => align_afterCall nodeIdx r hP hi hJ
  mismatch := fun i nodeIdx v n adjusted st r hP hi hJ _ _ _ =>
    align_afterCall nodeIdx r hP hi hJ
  place := by
    intro i nodeIdx v n adjusted st r hP hi hJ hr _ _
    obtain ⟨h1, h2⟩ := align_afterCall nodeIdx r hP hi hJ
    refine ⟨h1, h2, ?_, ?_⟩
    · intro c hc
      simp only [afterPlace, afterCall, List.getLast?_concat, Option.some.injEq] at hc
      subst hc
      refine ⟨by simp [afterPlace, afterCall, setCount_length], ?_⟩
      intro j hj
      simp only [afterPlace, afterCall, setCount_length] at hj
      simp only [afterPlace, afterCall, setCount_get]
      have hij : ¬ i = j := by omega
      cases st.resources[j]? <;> simp [hij]
    · intro j u o hj hu ho
      simp only [afterPlace, afterCall, setCount_length] at hj
      simp only [afterPlace, afterCall, setCount_get] at hu
      have hij : ¬ i = j := by omega
      cases hw : st.resources[j]? with
      | none => rw [hw] at hu; simp at hu
      | some w =>
        rw [hw] at hu
        simp only [Option.map_some', hij, ↓reduceIte, Option.some.injEq] at hu
        subst hu
        exact hJ.2.2.2 j w o hj hw ho
  erase := by
    intro i nodeIdx st u hI he hi hu hc hJ
    obtain ⟨hA, hC, hL, hU⟩ := hJ
    have hlen : (st.resources.eraseIdx i).length = i := by
      simp only [List.length_eraseIdx]
      split <;> omega
    have hget : ∀ j, j < i → (st.resources.eraseIdx i)[j]? = st.resources[j]? := by
      intro j hj
      rw [List.getElem?_eraseIdx]
      simp [hj]
    refine ⟨hA, hC, ?_, ?_⟩
    · intro c hc1
      obtain ⟨h1, h2⟩ := hL c hc1
      refine ⟨by simp only [hlen]; omega, ?_⟩
      intro j hj
      simp only [hlen] at hj
      rw [hget j (by omega)]
      exact h2 j (by omega)
    · intro j w o hj hw ho
      simp only [hlen] at hj
      rw [hget j (by omega)] at hw
      exact hU j w o (by omega) hw ho
  final := fun _ _ h => ⟨h.1, h.2.1⟩

/-- C23: index alignment of `Adjust`. At every call of `tryAdjust` the group
worked on is the last element of the working list `resources`, which is a
prefix of the original unit list up to counts (every group before the last
with its original count), and the request passed carries the resources of the
original unit at the same index up to the GPU attributes, so the index denotes
the same group in `resources`, `origResources` and `adjustedResources`; from
one call to the next groups are removed only from the end of the working list;
hence the group indices of the calls never increase, that is the groups are
completed in reverse input order. The same holds of the working list the loop
ends with, and `adjustedResources` keeps the length of the original list. -/
theorem adjust_index_alignment (inv : Cluster) (reservation : ReservationGroup)
    (opts : List InventoryOption) (r : AdjustResult)
    (h : Adjust inv reservation opts = some r) :
    (∀ c ∈ r.trace, Aligned reservation.Resources c) ∧
      r.trace.Chain' (fun c1 c2 => ShrinksAtEnd c1.resources c2.resources) ∧
      r.trace.Pairwise (fun c1 c2 => c2.group ≤ c1.group) ∧
      ∃ st, placeLoop reservation.Resources (reservation.Resources.length + 1)
          (initState inv reservation) = some st ∧ r.trace = st.trace ∧
        PrefixUpToCounts reservation.Resources st.resources ∧
        st.adjustedResources.length = reservation.Resources.length ∧
        r.adjustedResources = st.adjustedResources := by
  unfold Adjust at h
  simp only at h
  split at h
  · simp at h
  · rename_i st hst
    have hI := adjust_loop_inv inv reservation st hst
    have hF : (∀ c ∈ st.trace, Aligned reservation.Resources c) ∧
        st.trace.Chain' (fun c1 c2 => ShrinksAtEnd c1.resources c2.resources) :=
      placeLoop_steps (align_steps reservation.Resources inv) _ _ _
        (initState_inv inv reservation) rfl
        ⟨fun c hc => by simp [initState] at hc, List.chain'_nil,
          fun c hc => by simp [initState] at hc,
          fun j u o _ hu ho => by
            simp only [initState, List.getElem?_map, ho, Option.map_some',
              Option.some.injEq] at hu
            rw [← hu]⟩ hst
    have hpw : st.trace.Pairwise (fun c1 c2 => c2.group ≤ c1.group) := by
      haveI : IsTrans TryCall (fun c1 c2 => c2.resources.length ≤ c1.resources.length) :=
        ⟨fun _ _ _ h1 h2 => Nat.le_trans h2 h1⟩
      have hch : st.trace.Chain' (fun c1 c2 => c2.resources.length ≤ c1.resources.length) :=
        hF.2.imp (fun _ _ h => h.1)
      have hp := List.chain'_iff_pairwise.mp hch
      refine hp.imp_of_mem ?_
      intro a b ha hb hab
      have h1 := (hF.1 a ha).1
      have h2 := (hF.1 b hb).1
      omega
    have hres : ∀ r1 : AdjustResult, r1.trace = st.trace →
        r1.adjustedResources = st.adjustedResources →
        (∀ c ∈ r1.trace, Aligned reservation.Resources c) ∧
          r1.trace.Chain' (fun c1 c2 => ShrinksAtEnd c1.resources c2.resources) ∧
          r1.trace.Pairwise (fun c1 c2 => c2.group ≤ c1.group) ∧
          ∃ st1, placeLoop reservation.Resources (reservation.Resources.length + 1)
              (initState inv reservation) = some st1 ∧ r1.trace = st1.trace ∧
            PrefixUpToCounts reservation.Resources st1.resources ∧
            st1.adjustedResources.length = reservation.Resources.length ∧
            r1.adjustedResources = st1.adjustedResources := by
      intro r1 ht ha
      rw [ht]
      exact ⟨hF.1, hF.2, hpw, st, hst, rfl, ⟨hI.lenR, hI.resEq⟩, hI.lenA, ha⟩
    split at h
    · injection h with h; subst h; exact hres _ rfl rfl
    · split at h <;> (injection h with h; subst h; exact hres _ rfl rfl)

/-- Witness of C23 on `restartInv`: the calls are made for the groups 1, 1, 0
with the working lists of counts `[1, 1]`, `[1, 1]` and `[1]`. -/
theorem adjust_index_alignment_witness :
    ∃ r, Adjust restartInv restartRes [] = some r ∧
      r.trace.map (fun c => (c.group, c.resources.map (fun u => u.Count))) =
        [(1, [1, 1]), (1, [1, 1]), (0, [1])] ∧
      (∀ c ∈ r.trace, Aligned restartRes.Resources c) ∧
      r.trace.Pairwise (fun c1 c2 => c2.group ≤ c1.group) := by
  have he : (Adjust restartInv restartRes []).map
      (fun r => r.trace.map (fun c => (c.group, c.resources.map (fun u => u.Count)))) =
      some [(1, [1, 1]), (1, [1, 1]), (0, [1])] := by decide
  obtain ⟨r, hr, hp⟩ := Option.map_eq_some'.mp he
  have hmain := adjust_index_alignment restartInv restartRes [] r hr
  exact ⟨r, hr, hp, hmain.1, hmain.2.2.1⟩

/-! ## C24: termination -/

/-- The lexicographic order on the triples is well-founded. -/
theorem measureLt_wf : WellFounded MeasureLt := by
  have h : WellFounded (Prod.Lex (· < ·) (Prod.Lex (· < ·) (· < ·)) :
      Nat × Nat × Nat → Nat × Nat × Nat → Prop) :=
    WellFounded.prod_lex Nat.lt_wfRel.wf (WellFounded.prod_lex Nat.lt_wfRel.wf Nat.lt_wfRel.wf)
  refine Subrelation.wf ?_ h
  intro a b hab
  obtain ⟨a1, a2, a3⟩ := a
  obtain ⟨b1, b2, b3⟩ := b
  rcases hab with h1 | ⟨h1, h2 | ⟨h2, h3⟩⟩
  · exact Prod.Lex.left _ _ h1
  · simp only at h1 h2
    subst h1
    exact Prod.Lex.right _ (Prod.Lex.left _ _ h2)
  · simp only at h1 h2 h3
    subst h1 h2
    exact Prod.Lex.right _ (Prod.Lex.right _ h3)

/-- A call that returns was made for a node of the inventory. -/
theorem tryAdjust_node_lt (inv : Cluster) (node : Nat) (res : Resources) (r : TryAdjustResult)
    (h : tryAdjust inv node res = some r) : node < inv.Nodes.length := by
  obtain ⟨nd, _, hnd, _⟩ := tryAdjust_cases _ _ _ _ h
  exact getElem?_lt hnd

/-- One more call at the scan position has a smaller triple than the call
before it. -/
theorem meas_afterCall {i : Nat} {st : AdjustState} (nodeIdx : Nat) (v : Bool)
    (adjusted : Resources) (r : TryAdjustResult) (hi : i + 1 = st.resources.length)
    (hJ : MeasInv nodeIdx st) :
    (afterCall st i nodeIdx v adjusted r).trace.Chain'
      (fun c1 c2 => MeasureLt (callMeasure c2) (callMeasure c1)) := by
  obtain ⟨hC, hL⟩ := hJ
  simp only [afterCall]
  rw [List.chain'_append]
  refine ⟨hC, List.chain'_singleton _, ?_⟩
  intro x hx y hy
  simp only [List.head?_cons, Option.mem_def, Option.some.injEq] at hx hy
  subst hy
  simp only [MeasureLt, callMeasure]
  rcases hL x hx with ⟨h1, h2, u, w, hu, hw, hlt⟩ | ⟨h1, h2, h3, h4, h5, _⟩ | h1
  · have hg : x.group = i := by omega
    refine Or.inr ⟨h2, Or.inl ?_⟩
    rw [← hg, hu, hw]
    simpa using hlt
  · have hg : x.group = i := by omega
    refine Or.inr ⟨by rw [h2], Or.inr ⟨by rw [h2, hg], ?_⟩⟩
    omega
  · exact Or.inl h1

/-- The triples decrease along every step of the placement loop. -/
theorem meas_steps (orig : List ResourceUnit) (inv0 : Cluster) :
    LoopSteps orig inv0 MeasInv
      (fun st => st.trace.Chain' (fun c1 c2 => MeasureLt (callMeasure c2) (callMeasure c1))) where
  fail := by
    intro i nodeIdx v n adjusted st r hP hi hJ hr hok _
    refine ⟨meas_afterCall nodeIdx v adjusted r hi hJ, ?_⟩
    intro c hc
    simp only [afterCall, List.getLast?_concat, Option.some.injEq] at hc
    subst hc
    obtain ⟨u, hu, hcnt⟩ := hP.cnt
    refine Or.inr (Or.inl ⟨hi, rfl, ?_, tryAdjust_node_lt _ _ _ _ hr, rfl, u, hu, by omega⟩)
    simp only [afterCall, (tryAdjust_fail_inv _ _ _ _ hr hok).1]
  cfail := fun i nodeIdx v n adjusted st r hP hi hJ _ _ _ => meas_afterCall nodeIdx v adjusted r hi hJ
  mismatch := fun i nodeIdx v n adjusted st r hP hi hJ _ _ _ =>
    meas_afterCall nodeIdx v adjusted r hi hJ
  place := by
    intro i nodeIdx v n adjusted st r hP hi hJ hr _ _
    refine ⟨meas_afterCall nodeIdx v adjusted r hi hJ, ?_⟩
    intro c hc
    simp only [afterPlace, afterCall, List.getLast?_concat, Option.some.injEq] at hc
    subst hc
    obtain ⟨u, hu, hcnt⟩ := hP.cnt
    refine Or.inl ⟨by simp [afterPlace, afterCall, setCount_length, hi],
      by simp [afterPlace, afterCall, setCount_length], { u with Count := n }, u, ?_, hu, ?_⟩
    · simp [afterPlace, afterCall, setCount_get, hu]
    · simp only
      omega
  erase := by
    intro i nodeIdx st u hI he hi hu hc hJ
    refine ⟨hJ.1, ?_⟩
    intro c hc1
    have hlen : (st.resources.eraseIdx i).length = i := by
      simp only [List.length_eraseIdx]
      split <;> omega
    simp only [hlen]
    rcases hJ.2 c hc1 with ⟨h1, h2, _⟩ | ⟨h1, _, _, _, _, w, hw, hw1⟩ | h1
    · exact Or.inr (Or.inr (by omega))
    · have hci : c.group = i := by omega
      rw [hci, hu] at hw
      injection hw with hw
      subst hw
      omega
    · exact Or.inr (Or.inr (by omega))
  final := fun _ _ h => h.1

/-- With the GPU section present `tryAdjustGPU` returns. -/
theorem tryAdjustGPU_total (rp : GPU) (g : ResGPU) (sp : SchedulerParams) :
    ∃ out, tryAdjustGPU rp (some g) sp = some out := by
  simp only [tryAdjustGPU]
  split
  · exact ⟨_, rfl⟩
  · split
    · exact ⟨_, rfl⟩
    · split <;> exact ⟨_, rfl⟩

/-- With its three sections present, a request for a node of the inventory
makes `tryAdjust` return. -/
theorem tryAdjust_returns (inv : Cluster) (node : Nat) (res : Resources)
    (hn : node < inv.Nodes.length)
    (hs : res.CPU.isSome = true ∧ res.GPU.isSome = true ∧ res.Memory.isSome = true) :
    ∃ r, tryAdjust inv node res = some r := by
  obtain ⟨id, cpu, gpu, mem, sts⟩ := res
  obtain ⟨h1, h2, h3⟩ := hs
  simp only at h1 h2 h3
  obtain ⟨c, rfl⟩ := Option.isSome_iff_exists.mp h1
  obtain ⟨g, rfl⟩ := Option.isSome_iff_exists.mp h2
  obtain ⟨m, rfl⟩ := Option.isSome_iff_exists.mp h3
  have hnd : inv.Nodes[node]? = some inv.Nodes[node] := List.getElem?_eq_getElem hn
  obtain ⟨out, hout⟩ := tryAdjustGPU_total inv.Nodes[node].Resources.GPU g SchedulerParams.zero
  unfold tryAdjust
  simp only [hnd, tryAdjustCPU, hout]
  cases inv.Nodes[node].Resources.CPU.SubMilliNLZ c.Units with
  | mk cpu b =>
    cases b with
    | false => exact ⟨_, rfl⟩
    | true =>
      simp only
      cases out.ok with
      | false => exact ⟨_, rfl⟩
      | true =>
        simp only [Bool.not_true, Bool.false_eq_true, ↓reduceIte]
        cases inv.Nodes[node].Resources.Memory.SubNLZ m.Quantity with
        | mk q b =>
          cases b with
          | false => exact ⟨_, rfl⟩
          | true =>
            simp only
            split
            · exact ⟨_, rfl⟩
            · exact ⟨_, rfl⟩
            · split <;> exact ⟨_, rfl⟩

/-- `tryAdjust` keeps the number of nodes. -/
theorem tryAdjust_nodes_length (inv : Cluster) (node : Nat) (res : Resources)
    (r : TryAdjustResult) (h : tryAdjust inv node res = some r) :
    r.inv.Nodes.length = inv.Nodes.length := by
  cases hok : r.nodeOk with
  | false => rw [(tryAdjust_fail_inv _ _ _ _ h hok).1]
  | true =>
    obtain ⟨_, _, _, _, _, _, _, _, _, _, _, _, _, _, _, _, hinv, _⟩ :=
      tryAdjust_ok_inv _ _ _ _ h hok
    rw [hinv]
    simp

/-- A request of the shape of one with its three sections has them too. -/
theorem shape_sections {a b : Resources} (h : Shape a b)
    (hs : a.CPU.isSome = true ∧ a.GPU.isSome = true ∧ a.Memory.isSome = true) :
    b.CPU.isSome = true ∧ b.GPU.isSome = true ∧ b.Memory.isSome = true := by
  obtain ⟨_, h2, h3, _, h5⟩ := h
  refine ⟨h2 ▸ hs.1, ?_, h3 ▸ hs.2.2⟩
  have := hs.2.1
  cases hb : b.GPU with
  | some g => rfl
  | none =>
    rw [hb] at h5
    cases ha : a.GPU with
    | none => rw [ha] at this; simp at this
    | some g => rw [ha] at h5; simp at h5

/-- The replica loop does not fault on requests with their three sections. -/
theorem replicaLoop_nofault (orig : List ResourceUnit) (inv0 : Cluster) (hs : HasSections orig)
    (nodeIdx i : Nat) (v : Bool) (n : Nat) (adjusted : Resources) (st : AdjustState)
    (hP : PassInv orig inv0 i v n adjusted st) (hn : nodeIdx < st.currInventory.Nodes.length) :
    (replicaLoop nodeIdx i v n adjusted st).1 ≠ .fault ∧
      (replicaLoop nodeIdx i v n adjusted st).2.currInventory.Nodes.length =
        st.currInventory.Nodes.length := by
  induction n generalizing adjusted st with
  | zero => exact ⟨by simp [replicaLoop], rfl⟩
  | succ n ih =>
    obtain ⟨a, ha, hadj⟩ := hP.adj
    obtain ⟨o, ho, _, hshape⟩ := hP.adjEq i a ha
    have hsec := shape_sections hshape (hs o (List.getElem?_mem ho))
    rw [hadj] at hsec
    obtain ⟨r, hr⟩ := tryAdjust_returns st.currInventory nodeIdx adjusted hn hsec
    have hlen := tryAdjust_nodes_length _ _ _ _ hr
    rw [replicaLoop_succ]
    simp only [hr]
    split
    · exact ⟨by simp, hlen⟩
    · split
      · exact ⟨by simp, hlen⟩
      · rename_i hnk
        have hn1 : r.nodeOk = true := by simpa using hnk
        have hn2 : nodeIdx < (afterPlace st i nodeIdx v n adjusted r).currInventory.Nodes.length := by
          simp only [afterPlace, afterCall, hlen]
          exact hn
        have hlen2 : (afterPlace st i nodeIdx v n adjusted r).currInventory.Nodes.length =
            st.currInventory.Nodes.length := by
          simp only [afterPlace, afterCall, hlen]
        split
        · rename_i hv
          subst hv
          have hself := afterCall_adj_self st i nodeIdx true adjusted r a ha
          simp only [↓reduceIte] at hself
          rw [hself]
          simp only
          split
          · exact ⟨by simp, hlen⟩
          · rename_i hres
            split
            · exact ⟨by simp, hlen⟩
            · rename_i hsp
              have hres1 : r.res = adjusted := by
                rw [← hadj]; exact not_not.mp hres
              have hsp1 : r.sparams = cparamsGet st.cparams r.res.ID := not_not.mp hsp
              have hP2 := step_place hP hr hn1 (fun _ => ⟨hres1, hsp1⟩)
              have := ih r.res _ hP2 hn2
              rw [hlen2] at this
              exact this
        · rename_i hv
          have hv1 : v = false := by simpa using hv
          have hP2 := step_place hP hr hn1 (fun h => by rw [hv1] at h; simp at h)
          have := ih r.res _ hP2 hn2
          rw [hlen2] at this
          exact this

/-- The loop over the groups does not fault on requests with their three
sections. -/
theorem groupLoop_nofault (orig : List ResourceUnit) (inv0 : Cluster) (hs : HasSections orig)
    (nodeIdx : Nat) (st : AdjustState) (hI : Inv orig inv0 st) (he : st.err = none)
    (hn : nodeIdx < st.currInventory.Nodes.length) :
    (groupLoop orig nodeIdx st.resources.length st).1 ≠ .fault ∧
      (groupLoop orig nodeIdx st.resources.length st).2.currInventory.Nodes.length =
        st.currInventory.Nodes.length := by
  generalize hk : st.resources.length = k
  cases k with
  | zero => exact ⟨by simp [groupLoop], rfl⟩
  | succ i =>
    obtain ⟨o, u, a, ho, hu, ha, hP⟩ := groupLoop_head hI he i hk
    have hspec := replicaLoop_spec orig inv0 nodeIdx i _ _ _ _ hP
    have hnf := replicaLoop_nofault orig inv0 hs nodeIdx i _ _ _ _ hP hn
    unfold groupLoop
    simp only [ho, hu, ha]
    cases hrl : replicaLoop nodeIdx i (!(o.Count == u.Count)) u.Count a.Resources st with
    | mk flow st1 =>
      rw [hrl] at hspec hnf
      obtain ⟨hI1, hlen, hnext, hcont, hng⟩ := hspec
      obtain ⟨hf, hnl⟩ := hnf
      simp only at hI1 hlen hnext hcont hng hf hnl
      cases flow with
      | next =>
        obtain ⟨he1, u1, hu1, hc1⟩ := hnext rfl
        simp only [hu1, hc1, ↓reduceIte]
        exact ⟨by simp, hnl⟩
      | continueNodes => exact ⟨by simp, hnl⟩
      | breakNodes => exact ⟨by simp, hnl⟩
      | gotoNodes => exact absurd rfl hng
      | fault => exact absurd rfl hf

/-- The loop over the nodes does not fault on requests with their three
sections. -/
theorem nodesLoop_nofault (orig : List ResourceUnit) (inv0 : Cluster) (hs : HasSections orig)
    (remaining nodeIdx : Nat) (st : AdjustState) (hI : Inv orig inv0 st) (he : st.err = none)
    (hn : nodeIdx + remaining ≤ st.currInventory.Nodes.length) :
    (nodesLoop orig remaining nodeIdx st).1 ≠ .fault := by
  induction remaining generalizing nodeIdx st with
  | zero => simp [nodesLoop]
  | succ k ih =>
    have hg := groupLoop_spec orig inv0 nodeIdx st hI he
    have hnf := groupLoop_nofault orig inv0 hs nodeIdx st hI he (by omega)
    unfold nodesLoop
    cases hgl : groupLoop orig nodeIdx st.resources.length st with
    | mk flow st1 =>
      rw [hgl] at hg hnf
      obtain ⟨hI1, he1⟩ := hg
      obtain ⟨hf, hlen⟩ := hnf
      simp only at hI1 he1 hf hlen
      cases flow with
      | next => exact ih _ _ hI1 (he1 (by simp) (by simp)) (by omega)
      | continueNodes => exact ih _ _ hI1 (he1 (by simp) (by simp)) (by omega)
      | breakNodes => simp
      | gotoNodes => simp
      | fault => exact absurd rfl hf

/-- The placement loop returns on requests with their three sections. -/
theorem placeLoop_returns (orig : List ResourceUnit) (inv0 : Cluster) (hs : HasSections orig)
    (rounds : Nat) (st : AdjustState) (hI : Inv orig inv0 st) (he : st.err = none) :
    ∃ st1, placeLoop orig rounds st = some st1 := by
  induction rounds generalizing st with
  | zero => exact ⟨st, rfl⟩
  | succ k ih =>
    have hn := nodesLoop_spec orig inv0 st.currInventory.Nodes.length 0 st hI he
    have hnf := nodesLoop_nofault orig inv0 hs st.currInventory.Nodes.length 0 st hI he
      (by omega)
    unfold placeLoop
    cases hnl : nodesLoop orig st.currInventory.Nodes.length 0 st with
    | mk flow st2 =>
      rw [hnl] at hn hnf
      obtain ⟨hI2, he2⟩ := hn
      simp only at hI2 he2 hnf
      cases flow with
      | gotoNodes => exact ih st2 hI2 (he2 rfl)
      | fault => exact absurd rfl hnf
      | next => exact ⟨st2, rfl⟩
      | continueNodes => exact ⟨st2, rfl⟩
      | breakNodes => exact ⟨st2, rfl⟩

/-- First fit, with the request as the calls leave it, is kept by every step
of the placement loop for one group of one replica. -/
theorem firstFit_steps (inv : Cluster) (res : Resources) (Q : Resources → Prop)
    (hQ : ∀ node a r, Q a → tryAdjust inv node a = some r → Q r.res) :
    LoopSteps [⟨res, 1⟩] inv (FirstFitState inv res Q)
      (fun st => st.err = none → st.resources = [] → PlacedAt inv Q st.currInventory) where
  fail := by
    intro i nodeIdx v n adjusted st r hP hi hJ hr hok _
    obtain ⟨u, hu, hcnt⟩ := hP.cnt
    rcases hJ with ⟨h1, h2, ⟨a, ha, hqa⟩, h4⟩ | ⟨_, h2⟩
    · have hi0 : i = 0 := by rw [h1] at hi; simpa using hi
      subst hi0
      obtain ⟨a0, ha0, hadj⟩ := hP.adj
      rw [ha] at ha0
      injection ha0 with ha0
      subst ha0
      rw [hadj] at hqa
      rw [h2] at hr
      refine Or.inl ⟨h1, ?_, ?_, ?_⟩
      · simp only [afterCall, (tryAdjust_fail_inv _ _ _ _ hr hok).1]
      · rw [afterCall_adj_self st 0 nodeIdx v adjusted r a ha]
        cases v with
        | true => exact ⟨a, rfl, hadj ▸ hqa⟩
        | false => exact ⟨_, rfl, hQ _ _ _ hqa hr⟩
      · intro j hj
        by_cases hjn : j = nodeIdx
        · subst hjn
          exact ⟨adjusted, r, hqa, hr, hok⟩
        · exact h4 j (by omega)
    · have := h2 u (List.getElem?_mem hu)
      omega
  cfail := by
    intro i nodeIdx v n adjusted st r hP hi hJ hr hok _ _ hnil
    obtain ⟨u, hu, _⟩ := hP.cnt
    have hnil1 : st.resources = [] := hnil
    rw [hnil1] at hu
    simp at hu
  mismatch := by
    intro i nodeIdx v n adjusted st r hP hi hJ hr hok _ he
    simp at he
  place := by
    intro i nodeIdx v n adjusted st r hP hi hJ hr hok _
    obtain ⟨u, hu, hcnt⟩ := hP.cnt
    rcases hJ with ⟨h1, h2, ⟨a, ha, hqa⟩, h4⟩ | ⟨_, h2⟩
    · have hi0 : i = 0 := by rw [h1] at hi; simpa using hi
      subst hi0
      obtain ⟨a0, ha0, hadj⟩ := hP.adj
      rw [ha] at ha0
      injection ha0 with ha0
      subst ha0
      rw [hadj] at hqa
      rw [h2] at hr
      have hn0 : n = 0 := by
        rw [h1] at hu
        simp only [List.getElem?_cons_zero, Option.some.injEq] at hu
        rw [← hu] at hcnt
        simpa using hcnt.symm
      subst hn0
      refine Or.inr ⟨⟨nodeIdx, adjusted, r, hqa, hr, hok, h4, rfl⟩, ?_⟩
      intro w hw
      simp only [afterPlace, afterCall, h1, setCount, List.modify_zero_cons,
        List.mem_singleton] at hw
      rw [hw]
    · have := h2 u (List.getElem?_mem hu)
      omega
  erase := by
    intro i nodeIdx st u hI he hi hu hc hJ
    rcases hJ with ⟨h1, _⟩ | ⟨h1, h2⟩
    · have hi0 : i = 0 := by rw [h1] at hi; simpa using hi
      subst hi0
      rw [h1] at hu
      simp only [List.getElem?_cons_zero, Option.some.injEq] at hu
      rw [← hu] at hc
      simp at hc
    · exact Or.inr ⟨h1, fun w hw => h2 w (List.mem_of_mem_eraseIdx hw)⟩
  final := by
    intro nodeIdx st hJ _ hnil
    rcases hJ with ⟨h1, _⟩ | ⟨h1, _⟩
    · rw [h1] at hnil
      simp at hnil
    · exact h1

/-- With no GPU unit asked for, `tryAdjust` leaves the request as it was. -/
theorem tryAdjust_res_no_gpu (inv : Cluster) (node : Nat) (res : Resources) (g : ResGPU)
    (r : TryAdjustResult) (hg : res.GPU = some g) (hu : g.Units = 0)
    (h : tryAdjust inv node res = some r) : r.res = res := by
  obtain ⟨nd, c, _, _, h1 | ⟨cpu, g0, out, _, hg0, hout, h2⟩⟩ := tryAdjust_cases _ _ _ _ h
  · rw [h1.2]
  · rw [hg] at hg0
    injection hg0 with hg0
    subst hg0
    simp only [tryAdjustGPU, hu, ↓reduceIte, Option.some.injEq] at hout
    subst hout
    have hres : ({ res with GPU := some g } : Resources) = res := by
      obtain ⟨id, cpu0, gpu0, mem0, sts⟩ := res
      simp only at hg
      subst hg
      rfl
    rcases h2 with ⟨_, rfl⟩ | ⟨_, mem, _, ⟨_, rfl⟩ | ⟨m, _, ⟨_, rfl⟩ | ⟨_, rfl⟩ |
      ⟨nd2, pools, _, rfl⟩⟩⟩ <;> exact hres

/-- First fit holds where the rewrite of a failed call cannot happen: for a
reservation of one group of one replica that asks for no GPU unit, when
`Adjust` without `dry_run` returns OK the replica is debited from the
lowest-index node on which `tryAdjust` succeeds against the pre-call
inventory, and every other node is unchanged. -/
theorem adjust_first_fit_no_gpu (inv : Cluster) (res : Resources) (g : ResGPU)
    (calls : List ReservationCall) (opts : List InventoryOption) (r : AdjustResult)
    (hg : res.GPU = some g) (hu : g.Units = 0) (hd : (applyOpts opts).DryRun = false)
    (h : Adjust inv ⟨[⟨res, 1⟩], calls⟩ opts = some r) (hok : r.err = none) :
    ∃ k rk, tryAdjust inv k res = some rk ∧ rk.nodeOk = true ∧
      (∀ j, j < k → ∃ rj, tryAdjust inv j res = some rj ∧ rj.nodeOk = false) ∧
      r.inv = rk.inv ∧ ∀ j, j ≠ k → r.inv.Nodes[j]? = inv.Nodes[j]? := by
  unfold Adjust at h
  simp only [hd] at h
  split at h
  · simp at h
  · rename_i st hst
    have hI := adjust_loop_inv inv ⟨[⟨res, 1⟩], calls⟩ st hst
    have hF := placeLoop_steps
      (firstFit_steps inv res (fun a => a = res)
        (fun node a r1 ha hr => by
          subst ha
          exact tryAdjust_res_no_gpu inv node a g r1 hg hu hr)) _ _ _
      (initState_inv inv ⟨[⟨res, 1⟩], calls⟩) rfl
      (Or.inl ⟨rfl, rfl, ⟨⟨res, 1⟩, rfl, rfl⟩, fun j hj => by omega⟩) hst
    split at h
    · rename_i hlen
      have hnil : st.resources = [] := List.length_eq_zero.mp hlen
      have herr : st.err = none := by
        by_contra hne
        exact hI.errz hne hnil
      obtain ⟨k, a, rk, ha, hrk, hokk, hbelow, hcur⟩ := hF herr hnil
      have ha1 : a = res := ha
      subst ha1
      injection h with h
      subst h
      refine ⟨k, rk, hrk, hokk, ?_, by simpa using hcur, ?_⟩
      · intro j hj
        obtain ⟨aj, rj, haj, hrj, hokj⟩ := hbelow j hj
        have haj1 : aj = a := haj
        subst haj1
        exact ⟨rj, hrj, hokj⟩
      · intro j hj
        obtain ⟨_, _, _, _, _, _, nd2, pools, _, _, _, _, _, _, _, _, hinv, _⟩ :=
          tryAdjust_ok_inv _ _ _ _ hrk hokk
        simp only [Bool.not_false, ↓reduceIte, hcur, hinv]
        exact List.getElem?_set_ne (fun h => hj h.symm)
    · split at h <;> (injection h with h; subst h; simp at hok)

end Inventory
